import Mathlib

/-!
# KStor journal: a shallow embedding of `kstor/journal.cpp`

The definitions below follow `src/kstor/journal.cpp` and `src/core/memory.h`
function by function.  Machine integers are natural numbers; every `uint64_t`
addition or multiplication of the source is written `add64` / `mul64`, which
reduce modulo `2 ^ 64`.  Heap objects (transactions) are addressed by a
natural-number handle, so that the pointer comparisons of `UnlinkTx` and
`StartCommitTx` can be expressed.  Outcomes that the source obtains from the
environment (allocations, device I/O) are explicit arguments of the
operation that consumes them.
-/

namespace KStor

/-! ## Machine arithmetic and error codes -/

/-- Sum of two `uint64_t` values, as C++ computes it. -/
def add64 (a b : Nat) : Nat := (a + b) % 2 ^ 64

/-- Product of two `uint64_t` values, as C++ computes it. -/
def mul64 (a b : Nat) : Nat := (a * b) % 2 ^ 64

/-- The error kinds of `Core::Error`. -/
inductive Error where
  | Success
  | InvalidValue
  | InvalidState
  | NoMemory
  | NotFound
  | AlreadyExists
  | PermissionDenied
  | Busy
  | BadMagic
  | BadSize
  | DataCorrupt
  | UnexpectedEOF
  | Overlap
  | IoError
  | Cancelled
  | UnknownCode
  | NotImplemented
  | NotExecuted
  deriving DecidableEq, Repr

/-- The test `Core::Error::Ok()`. -/
def Error.Ok (e : Error) : Bool := decide (e = Error.Success)

/-- Journal states `JournalStateNew`, ... of `Journal::State`. -/
inductive JournalState where
  | New
  | Replaying
  | Running
  | Stopping
  | Stopped
  deriving DecidableEq, Repr

/-- Transaction states `Api::JournalTxStateNew`, `Api::JournalTxStateCommiting`,
`Api::JournalTxStateCommited`, `Api::JournalTxStateCanceled`. -/
inductive TxState where
  | New
  | Commiting
  | Commited
  | Canceled
  deriving DecidableEq, Repr

/-! ## `core/memory.h` -/

/-- `Core::Memory::CheckRange`. -/
def CheckRange (start end_ : Nat) : Bool :=
  if end_ ≤ start then false else true

/-- `Core::Memory::CheckIntersection`. -/
def CheckIntersection (start1 end1 start2 end2 : Nat) : Bool :=
  if !CheckRange start1 end1 then false
  else if !CheckRange start2 end2 then false
  else if start2 ≥ end1 then false
  else if end2 ≤ start1 then false
  else true

/-! ## On-disk structures (field level) -/

/-- In-memory image of `Api::JournalTxBlock` and of its two reinterpretations
`Api::JournalTxDataBlock` (`Position`, `DataSize`, `Data`) and
`Api::JournalTxCommitBlock` (`State`, `Time`).  Each field holds the value the
host reads from it; `BlockType` is the member `Type`. -/
structure JournalTxBlock where
  TxId : Nat
  BlockType : Nat
  Position : Nat
  DataSize : Nat
  Data : List Nat
  State : Nat
  Time : Nat
  Hash : List Nat
  deriving DecidableEq, Repr

/-- In-memory image of `Api::JournalHeader`. -/
structure JournalHeader where
  Magic : Nat
  Size : Nat
  Hash : List Nat
  deriving DecidableEq, Repr

/-- The fields that precede `Hash` in a tx block: the input of
`XXHash::Sum(block, OFFSET_OF(Api::JournalTxBlock, Hash), ...)`. -/
def JournalTxBlock.HashedPart (b : JournalTxBlock) : List Nat :=
  [b.TxId, b.BlockType, b.Position, b.DataSize] ++ b.Data ++ [b.State, b.Time]

/-- The fields that precede `Hash` in the journal header. -/
def JournalHeader.HashedPart (h : JournalHeader) : List Nat :=
  [h.Magic, h.Size]

/-- Everything `journal.cpp` takes from headers that are not part of the
sources at hand (`api.h`, `core/bitops.h`, `core/xxhash.h`, `volume.h`,
`core/page.h`): constants, the byte-order conversions, the hash and the memory
layout of the two on-disk structures.  The three block type constants are case
labels of one `switch`, hence pairwise distinct. -/
structure Env where
  BlockSize : Nat
  PageSize : Nat
  TxBlockSize : Nat
  DataCapacity : Nat
  JournalMagic : Nat
  JournalBlockTypeTxBegin : Nat
  JournalBlockTypeTxData : Nat
  JournalBlockTypeTxCommit : Nat
  TxStateCode : TxState → Nat
  CpuToLe32 : Nat → Nat
  Le32ToCpu : Nat → Nat
  CpuToLe64 : Nat → Nat
  Le64ToCpu : Nat → Nat
  XXHashSum : List Nat → List Nat
  NewTxBlock : JournalTxBlock
  TxBlockBytes : JournalTxBlock → List Nat
  HeaderBytes : JournalHeader → List Nat
  HeaderView : List Nat → JournalHeader
  types_distinct : JournalBlockTypeTxBegin ≠ JournalBlockTypeTxData ∧
    JournalBlockTypeTxBegin ≠ JournalBlockTypeTxCommit ∧
    JournalBlockTypeTxData ≠ JournalBlockTypeTxCommit

/-! ## Pages, bios and the device -/

/-- Content of a page handed to a bio list: a journal tx block, a journal
header (on a zeroed page), or plain bytes. -/
inductive PageData where
  | TxBlock (b : JournalTxBlock)
  | Header (h : JournalHeader)
  | Raw (bytes : List Nat)
  deriving DecidableEq, Repr

/-- The bytes of a page. -/
def PageData.Bytes (env : Env) : PageData → List Nat
  | PageData.TxBlock b => env.TxBlockBytes b
  | PageData.Header h => env.HeaderBytes h
  | PageData.Raw bytes => bytes

/-- One pending single-page bio.  `AddIo(page, position, write)` appends a
bio with these three attributes.  `Flush` records the flush argument of the
call that appended the bio: `AddExec(page, position, write, flush)` passes one,
`AddIo` has none.  What the bio list class, which is not among the sources,
makes of the argument of `Exec` is not part of this record. -/
structure Bio where
  Page : PageData
  Position : Nat
  Write : Bool
  Flush : Bool
  deriving DecidableEq, Repr

/-- A block device: byte address to byte. -/
abbrev Device := Nat → Nat

/-- The device after one page-sized write at byte offset `pos`. -/
def Device.WritePage (env : Env) (dev : Device) (pos : Nat) (page : PageData) : Device :=
  fun a => if pos ≤ a ∧ a < pos + env.PageSize then (page.Bytes env).getD (a - pos) 0 else dev a

/-- The `len` bytes of the device from byte offset `pos`. -/
def Device.ReadBytes (dev : Device) (pos len : Nat) : List Nat :=
  (List.range len).map (fun i => dev (pos + i))

/-! ## The journal -/

/-- The members of `Journal`.  `TxTable` maps a TxId to the handle of a
transaction: the hash table class of `core` is not among the sources, and the
table is the finite map it implements (`Insert` refuses a key that is present,
`Get` of an absent key yields the null pointer, `Remove` deletes the key).
`TxList` is the pending queue of handles, `TxThread` tells whether the writer
thread exists. -/
structure Journal where
  Start : Nat
  Size : Nat
  CurrBlockIndex : Nat
  State : JournalState
  TxTable : Nat → Option Nat
  TxList : List Nat
  TxThread : Bool

/-- `Journal::GetNextBlockIndex`: the error, the returned index and the
journal afterwards. -/
def Journal.GetNextBlockIndex (J : Journal) : Error × Nat × Journal :=
  let index := J.CurrBlockIndex
  if add64 J.CurrBlockIndex 1 ≥ add64 J.Start J.Size then
    (Error.Success, index, { J with CurrBlockIndex := add64 J.Start 1 })
  else
    (Error.Success, index, { J with CurrBlockIndex := add64 J.CurrBlockIndex 1 })

/-- `Journal::UnlinkTx(tx, cancel)`: `self` is the pointer `tx`, `txId` its
TxId.  The entry is removed only when the table's entry for `txId` is `self`. -/
def Journal.UnlinkTx (J : Journal) (self txId : Nat) : Journal :=
  if J.TxTable txId ≠ some self then J
  else { J with TxTable := Function.update J.TxTable txId none }

/-- `Journal::StartCommitTx(tx)`; `addTail` is the outcome of `TxList.AddTail`. -/
def Journal.StartCommitTx (J : Journal) (self txId : Nat) (addTail : Bool) : Error × Journal :=
  if J.TxTable txId ≠ some self then (Error.NotFound, J)
  else if !addTail then (Error.NoMemory, J)
  else (Error.Success, { J with TxList := J.TxList ++ [self] })

/-- The tail of `Journal::WriteTxBlockPrepare`: convert `Type`, then hash the
bytes that precede `Hash`. -/
def Journal.SealTxBlock (env : Env) (block : JournalTxBlock) : JournalTxBlock :=
  let b1 := { block with BlockType := env.CpuToLe32 block.BlockType }
  { b1 with Hash := env.XXHashSum b1.HashedPart }

/-- `Journal::WriteTxBlockPrepare`, on the block that the page holds. -/
def Journal.WriteTxBlockPrepare (env : Env) (block : JournalTxBlock) : Error × JournalTxBlock :=
  if block.BlockType = env.JournalBlockTypeTxBegin then
    (Error.Success, Journal.SealTxBlock env block)
  else if block.BlockType = env.JournalBlockTypeTxData then
    (Error.Success, Journal.SealTxBlock env
      { block with Position := env.CpuToLe64 block.Position,
                   DataSize := env.CpuToLe32 block.DataSize })
  else if block.BlockType = env.JournalBlockTypeTxCommit then
    (Error.Success, Journal.SealTxBlock env
      { block with State := env.CpuToLe32 block.State,
                   Time := env.CpuToLe64 block.Time })
  else (Error.InvalidValue, block)

/-- `Journal::ReadTxBlockComplete`, on the block that the page holds: the error
and the block afterwards (`Type` is converted in place before the `switch`). -/
def Journal.ReadTxBlockComplete (env : Env) (block : JournalTxBlock) : Error × JournalTxBlock :=
  if env.XXHashSum block.HashedPart ≠ block.Hash then (Error.DataCorrupt, block)
  else
    let b1 := { block with BlockType := env.Le32ToCpu block.BlockType }
    if b1.BlockType = env.JournalBlockTypeTxBegin then (Error.Success, b1)
    else if b1.BlockType = env.JournalBlockTypeTxData then
      (Error.Success,
       { b1 with Position := env.Le64ToCpu b1.Position,
                 DataSize := env.Le32ToCpu b1.DataSize })
    else if b1.BlockType = env.JournalBlockTypeTxCommit then
      (Error.Success,
       { b1 with State := env.Le32ToCpu b1.State,
                 Time := env.Le64ToCpu b1.Time })
    else (Error.InvalidValue, b1)

/-- What the environment answers during one `Journal::WriteTxBlock` or
`Journal::Flush`: the error of `Page::Create` and the error of `AddIo`. -/
structure StageOutcome where
  PageCreate : Error
  AddIo : Error
  deriving DecidableEq, Repr

/-- `Journal::WriteTxBlock(index, block, bioList)`.  `page->Write(block,
sizeof(*block), 0)` copies `min(sizeof(*block), page size)` bytes and returns
that count; a failing `AddIo` appends nothing. -/
def Journal.WriteTxBlock (env : Env) (J : Journal) (index : Nat) (block : JournalTxBlock)
    (bioList : List Bio) (o : StageOutcome) : Error × List Bio :=
  if index ≤ J.Start ∨ index ≥ add64 J.Start J.Size then (Error.InvalidValue, bioList)
  else if !o.PageCreate.Ok then (o.PageCreate, bioList)
  else if min env.TxBlockSize env.PageSize ≠ env.PageSize then (Error.UnexpectedEOF, bioList)
  else
    match Journal.WriteTxBlockPrepare env block with
    | (err, prepared) =>
      if !err.Ok then (err, bioList)
      else if !o.AddIo.Ok then (o.AddIo, bioList)
      else (Error.Success,
            bioList ++ [{ Page := PageData.TxBlock prepared,
                          Position := mul64 index env.BlockSize, Write := true, Flush := false }])

/-- The header that `Journal::Format` and `Journal::Flush` put on a zeroed page
for a journal of `size` blocks. -/
def Journal.HeaderFor (env : Env) (size : Nat) : JournalHeader :=
  { Magic := env.CpuToLe32 env.JournalMagic, Size := env.CpuToLe64 size,
    Hash := env.XXHashSum [env.CpuToLe32 env.JournalMagic, env.CpuToLe64 size] }

/-- `Journal::Flush(bioList)`: stage the journal header for block `Start`. -/
def Journal.Flush (env : Env) (J : Journal) (bioList : List Bio) (o : StageOutcome) :
    Error × List Bio :=
  if !o.PageCreate.Ok then (o.PageCreate, bioList)
  else
    let h0 : JournalHeader :=
      { Magic := env.CpuToLe32 env.JournalMagic, Size := env.CpuToLe64 J.Size, Hash := [] }
    let header := { h0 with Hash := env.XXHashSum h0.HashedPart }
    if !o.AddIo.Ok then (o.AddIo, bioList)
    else (Error.Success,
          bioList ++ [{ Page := PageData.Header header,
                        Position := mul64 J.Start env.BlockSize, Write := true, Flush := false }])

/-- `Journal::Replay`: the state becomes `Replaying`, the default-constructed
error is returned. -/
def Journal.Replay (J : Journal) : Error × Journal :=
  (Error.Success, { J with State := JournalState.Replaying })

/-- What the environment answers during `Journal::Load`. -/
structure LoadOutcome where
  PageCreate : Error
  Read : Error
  ThreadCreated : Bool
  deriving DecidableEq, Repr

/-- `Journal::Load(start)` on device `dev`. -/
def Journal.Load (env : Env) (J : Journal) (dev : Device) (start : Nat) (o : LoadOutcome) :
    Error × Journal :=
  if !o.PageCreate.Ok then (o.PageCreate, J)
  else if !o.Read.Ok then (o.Read, J)
  else
    let header := env.HeaderView (dev.ReadBytes (mul64 start env.BlockSize) env.PageSize)
    if env.Le32ToCpu header.Magic ≠ env.JournalMagic then (Error.BadMagic, J)
    else if env.XXHashSum header.HashedPart ≠ header.Hash then (Error.DataCorrupt, J)
    else
      let size := env.Le64ToCpu header.Size
      if size ≤ 1 then (Error.BadSize, J)
      else
        let J1 := { J with Start := start, Size := size }
        match J1.Replay with
        | (err, J2) =>
          if !err.Ok then (err, J2)
          else
            let J3 := { J2 with CurrBlockIndex := add64 J2.Start 1 }
            if !o.ThreadCreated then (Error.NoMemory, J3)
            else (Error.Success, { J3 with TxThread := true, State := JournalState.Running })

/-- The constructor `Journal::Journal(volume)`; `curr` is the value the
uninitialised member `CurrBlockIndex` happens to hold. -/
def Journal.Create (curr : Nat) : Journal :=
  { Start := 0, Size := 0, CurrBlockIndex := curr, State := JournalState.New,
    TxTable := fun _ => none, TxList := [], TxThread := false }

/-! ## Transactions -/

/-- The members of `Transaction`.  `CommitEvent` tells whether the commit event
has been signalled. -/
structure Transaction where
  TxId : Nat
  State : TxState
  BeginBlock : JournalTxBlock
  CommitBlock : JournalTxBlock
  DataBlockList : List JournalTxBlock
  CommitResult : Error
  CommitEvent : Bool
  deriving DecidableEq, Repr

/-- `Transaction::CreateTxBlock(type)`; `alloc` is the outcome of `MakeShared`,
`none` the null pointer. -/
def Transaction.CreateTxBlock (env : Env) (txId type : Nat) (alloc : Bool) :
    Option JournalTxBlock :=
  if !alloc then none
  else if type = env.JournalBlockTypeTxBegin ∨ type = env.JournalBlockTypeTxCommit ∨
      type = env.JournalBlockTypeTxData then
    some { env.NewTxBlock with TxId := txId, BlockType := type }
  else none

/-- The constructor `Transaction::Transaction(journal, err)`: the error left in
`err` and, when construction went through, the object.  `txId` and `generate`
are the result of `TxId.Generate()`. -/
def Transaction.Create (env : Env) (err : Error) (txId : Nat) (generate : Error)
    (allocBegin allocCommit : Bool) : Error × Option Transaction :=
  if !err.Ok then (err, none)
  else if !generate.Ok then (generate, none)
  else
    match Transaction.CreateTxBlock env txId env.JournalBlockTypeTxBegin allocBegin with
    | none => (Error.NoMemory, none)
    | some beginBlock =>
      match Transaction.CreateTxBlock env txId env.JournalBlockTypeTxCommit allocCommit with
      | none => (Error.NoMemory, none)
      | some commitBlock =>
        (Error.Success,
         some { TxId := txId, State := TxState.New, BeginBlock := beginBlock,
                CommitBlock := commitBlock, DataBlockList := [],
                CommitResult := Error.Success, CommitEvent := false })

/-- Modelled from the spec: `PageInterface::Read(dst, len, off)` of the page
class with `read(dst, len, off)`, which is not among the sources: the bytes
copied are the at most `len` bytes of the page from offset `off`, and the
returned count is their number. -/
def PageRead (page : List Nat) (len off : Nat) : List Nat :=
  (page.drop off).take len

/-- The `while (off < page.GetSize())` loop of `Transaction::Write`.  `k` counts
the iterations done; iteration `k` asks the environment for `alloc (2 * k)`
(`CreateTxBlock`) and `alloc (2 * k + 1)` (`blockList.AddTail`).  `none` means
that `fuel` iterations did not end the loop. -/
def Transaction.WriteLoop (env : Env) (txId : Nat) (page : List Nat) (alloc : Nat → Bool) :
    Nat → Nat → Nat → Nat → List JournalTxBlock → Option (Error × List JournalTxBlock)
  | 0, off, _, _, blockList =>
    if off < page.length then none else some (Error.Success, blockList)
  | fuel + 1, off, position, k, blockList =>
    if off < page.length then
      match Transaction.CreateTxBlock env txId env.JournalBlockTypeTxData (alloc (2 * k)) with
      | none => some (Error.NoMemory, blockList)
      | some blockPtr =>
        let data := PageRead page env.DataCapacity off
        let read := data.length
        let block := { blockPtr with Data := data ++ blockPtr.Data.drop read,
                                     Position := position, DataSize := read }
        if !alloc (2 * k + 1) then some (Error.NoMemory, blockList)
        else
          Transaction.WriteLoop env txId page alloc fuel (off + read) (add64 position read)
            (k + 1) (blockList ++ [block])
    else some (Error.Success, blockList)

/-- `Transaction::Write(page, position)`: the returned error and the
transaction afterwards; `none` when the loop does not end. -/
def Transaction.Write (env : Env) (J : Journal) (tx : Transaction) (page : List Nat)
    (position : Nat) (alloc : Nat → Bool) : Option (Error × Transaction) :=
  if tx.State ≠ TxState.New then some (Error.InvalidState, tx)
  else if position < page.length then some (Error.Overlap, tx)
  else if CheckIntersection position (add64 position page.length)
      (mul64 J.Start env.BlockSize) (mul64 (add64 J.Start J.Size) env.BlockSize) then
    some (Error.Overlap, tx)
  else
    match Transaction.WriteLoop env tx.TxId page alloc page.length 0 position 0 [] with
    | none => none
    | some (err, blockList) =>
      if !err.Ok then some (err, tx)
      else some (Error.Success, { tx with DataBlockList := tx.DataBlockList ++ blockList })

/-- How the first critical section of `Transaction::Commit` ends: with a
returned error, or waiting on `CommitEvent`. -/
inductive CommitStep where
  | Returned (err : Error)
  | Waiting
  deriving DecidableEq, Repr

/-- `Transaction::Commit` up to `CommitEvent.Wait()`. -/
def Transaction.Commit (J : Journal) (self : Nat) (tx : Transaction) (addTail : Bool) :
    CommitStep × Journal × Transaction :=
  if tx.State ≠ TxState.New then (CommitStep.Returned Error.InvalidState, J, tx)
  else
    let tx1 := { tx with State := TxState.Commiting }
    match J.StartCommitTx self tx1.TxId addTail with
    | (err, J1) =>
      if !err.Ok then
        (CommitStep.Returned err, J1.UnlinkTx self tx1.TxId,
         { tx1 with State := TxState.Canceled })
      else (CommitStep.Waiting, J1, tx1)

/-- `Transaction::Commit` after `CommitEvent.Wait()` has returned. -/
def Transaction.CommitWake (tx : Transaction) : Error := tx.CommitResult

/-- `Transaction::Cancel`. -/
def Transaction.Cancel (J : Journal) (self : Nat) (tx : Transaction) : Journal × Transaction :=
  (J.UnlinkTx self tx.TxId,
   { tx with State := TxState.Canceled, CommitResult := Error.Cancelled })

/-- `Transaction::OnCommitCompleteLocked(result)`. -/
def Transaction.OnCommitCompleteLocked (J : Journal) (self : Nat) (tx : Transaction)
    (result : Error) : Journal × Transaction :=
  if !result.Ok then
    (J.UnlinkTx self tx.TxId,
     { tx with State := TxState.Canceled, CommitResult := result, CommitEvent := true })
  else
    (J, { tx with State := TxState.Commited, CommitResult := result, CommitEvent := true })

/-- `Transaction::OnCommitComplete(result)`. -/
def Transaction.OnCommitComplete (J : Journal) (self : Nat) (tx : Transaction)
    (result : Error) : Journal × Transaction :=
  Transaction.OnCommitCompleteLocked J self tx result

/-- The loop over `DataBlockList` in `Transaction::WriteTx`; `k` is the number
of `WriteTxBlock` calls made so far. -/
def Transaction.WriteTxData (env : Env) (io : Nat → StageOutcome) :
    List JournalTxBlock → Nat → Journal → List Bio → Error × Journal × List Bio
  | [], _, J, bioList => (Error.Success, J, bioList)
  | block :: rest, k, J, bioList =>
    match J.GetNextBlockIndex with
    | (err, blockIndex, J1) =>
      if !err.Ok then (err, J1, bioList)
      else
        match J1.WriteTxBlock env blockIndex block bioList (io k) with
        | (err1, bioList1) =>
          if !err1.Ok then (err1, J1, bioList1)
          else Transaction.WriteTxData env io rest (k + 1) J1 bioList1

/-- The label `fail:` of `Transaction::WriteTx`. -/
def Transaction.WriteTxFail (J : Journal) (self : Nat) (tx : Transaction) (err : Error)
    (bioList : List Bio) : Error × Journal × Transaction × List Bio :=
  match Transaction.OnCommitCompleteLocked J self tx err with
  | (J1, tx1) => (err, J1, tx1, bioList)

/-- The commit block after `commitBlock->State = Api::JournalTxStateCommited`
in `Transaction::WriteTx`. -/
def Transaction.SealedCommitBlock (env : Env) (tx : Transaction) : JournalTxBlock :=
  { tx.CommitBlock with State := env.TxStateCode TxState.Commited }

/-- The end of `Transaction::WriteTx`, after the loop over the data blocks:
take the next index, set `State` of the commit block to `Commited`, stage the
commit block. -/
def Transaction.WriteTxCommit (env : Env) (J : Journal) (self : Nat) (tx : Transaction)
    (bioList : List Bio) (o : StageOutcome) : Error × Journal × Transaction × List Bio :=
  match J.GetNextBlockIndex with
  | (err, blockIndex, J1) =>
    if !err.Ok then Transaction.WriteTxFail J1 self tx err bioList
    else
      let tx1 := { tx with CommitBlock := tx.SealedCommitBlock env }
      match J1.WriteTxBlock env blockIndex tx1.CommitBlock bioList o with
      | (err1, bioList1) =>
        if !err1.Ok then Transaction.WriteTxFail J1 self tx1 err1 bioList1
        else (err1, J1, tx1, bioList1)

/-- `Transaction::WriteTx(bioList)`; `io k` is what the environment answers
during the `k`-th `WriteTxBlock` call (counted from 0). -/
def Transaction.WriteTx (env : Env) (J : Journal) (self : Nat) (tx : Transaction)
    (bioList : List Bio) (io : Nat → StageOutcome) :
    Error × Journal × Transaction × List Bio :=
  if tx.State ≠ TxState.Commiting then
    Transaction.WriteTxFail J self tx Error.InvalidState bioList
  else
    match J.GetNextBlockIndex with
    | (err, blockIndex, J1) =>
      if !err.Ok then Transaction.WriteTxFail J1 self tx err bioList
      else
        match J1.WriteTxBlock env blockIndex tx.BeginBlock bioList (io 0) with
        | (err1, bioList1) =>
          if !err1.Ok then Transaction.WriteTxFail J1 self tx err1 bioList1
          else
            match Transaction.WriteTxData env io tx.DataBlockList 1 J1 bioList1 with
            | (err2, J2, bioList2) =>
              if !err2.Ok then Transaction.WriteTxFail J2 self tx err2 bioList2
              else
                Transaction.WriteTxCommit env J2 self tx bioList2
                  (io (tx.DataBlockList.length + 1))

/-! ## The journal together with its transactions and the device -/

/-- Modelled from the spec: `BioList::Exec(wait = true)` of the bio list class,
which is not among the sources: every pending bio is submitted in order, a
write bio that completes without error puts its page on the device, and the
first non-success error is returned.  `res i` is the completion error of the
`i`-th bio. -/
def BioListExec (env : Env) (res : Nat → Error) : List Bio → Nat → Device → Error × Device
  | [], _, dev => (Error.Success, dev)
  | bio :: rest, i, dev =>
    let dev1 : Device :=
      if (res i).Ok && bio.Write then Device.WritePage env dev bio.Position bio.Page else dev
    match BioListExec env res rest (i + 1) dev1 with
    | (err, dev2) => (if !(res i).Ok then res i else err, dev2)

/-- Modelled from the spec: `BioList::AddExec(page, position, write, flush)` of
the bio list class, which is not among the sources: a convenience that builds
a one-bio list, the flush flag on its only bio, and executes it synchronously.
`res` is the error the call ends with. -/
def BioListAddExec (env : Env) (dev : Device) (page : PageData) (position : Nat)
    (write flush : Bool) (res : Error) : Error × Device :=
  BioListExec env (fun _ => res)
    [{ Page := page, Position := position, Write := write, Flush := flush }] 0 dev

/-- What the environment answers during `Journal::Format`. -/
structure FormatOutcome where
  PageCreate : Error
  AddExec : Error
  deriving DecidableEq, Repr

/-- `Journal::Format(start, size)` on device `dev`: the error, the journal and
the device afterwards. -/
def Journal.Format (env : Env) (J : Journal) (dev : Device) (start size : Nat)
    (o : FormatOutcome) : Error × Journal × Device :=
  if size ≤ 1 then (Error.InvalidValue, J, dev)
  else if !o.PageCreate.Ok then (o.PageCreate, J, dev)
  else
    let h0 : JournalHeader :=
      { Magic := env.CpuToLe32 env.JournalMagic, Size := env.CpuToLe64 size, Hash := [] }
    let header := { h0 with Hash := env.XXHashSum h0.HashedPart }
    match BioListAddExec env dev (PageData.Header header) (mul64 start env.BlockSize)
        true true o.AddExec with
    | (err, dev1) =>
      if !err.Ok then (err, J, dev1)
      else (Error.Success, { J with Start := start, Size := size }, dev1)

/-- One journal, the transaction objects by handle, the next unused handle,
and the device. -/
structure World where
  J : Journal
  Txs : Nat → Transaction
  Next : Nat
  Dev : Device

/-- What the environment answers during `Journal::BeginTx`. -/
structure BeginTxOutcome where
  AllocTx : Bool
  Generate : Error
  AllocBegin : Bool
  AllocCommit : Bool
  Insert : Bool
  deriving DecidableEq, Repr

/-- `Journal::BeginTx`: the handle returned (`none` for the null pointer) and
the world afterwards.  `txId` is the generated TxId.  `TxTable.Insert` refuses
a key that is present; a transaction that is reset is destroyed, and its
destructor finds no table entry pointing to it. -/
def World.BeginTx (env : Env) (w : World) (txId : Nat) (o : BeginTxOutcome) :
    Option Nat × World :=
  if !o.AllocTx then (none, w)
  else
    match Transaction.Create env Error.Success txId o.Generate o.AllocBegin o.AllocCommit with
    | (_, none) => (none, w)
    | (err, some tx) =>
      if !err.Ok then (none, w)
      else if w.J.TxTable txId ≠ none ∨ !o.Insert then (none, w)
      else
        (some w.Next,
         { w with J := { w.J with TxTable := Function.update w.J.TxTable txId (some w.Next) },
                  Txs := Function.update w.Txs w.Next tx,
                  Next := w.Next + 1 })

/-- `Transaction::Write` on the transaction with handle `h`. -/
def World.Write (env : Env) (w : World) (h : Nat) (page : List Nat) (position : Nat)
    (alloc : Nat → Bool) : Option (Error × World) :=
  match Transaction.Write env w.J (w.Txs h) page position alloc with
  | none => none
  | some (err, tx) => some (err, { w with Txs := Function.update w.Txs h tx })

/-- `Transaction::Commit`, up to the wait, on the transaction with handle `h`. -/
def World.Commit (w : World) (h : Nat) (addTail : Bool) : CommitStep × World :=
  match Transaction.Commit w.J h (w.Txs h) addTail with
  | (step, J1, tx) => (step, { w with J := J1, Txs := Function.update w.Txs h tx })

/-- `Transaction::Cancel` on the transaction with handle `h`. -/
def World.Cancel (w : World) (h : Nat) : World :=
  match Transaction.Cancel w.J h (w.Txs h) with
  | (J1, tx) => { w with J := J1, Txs := Function.update w.Txs h tx }

/-- The destructor `Transaction::~Transaction` of the transaction with handle `h`. -/
def World.Destroy (w : World) (h : Nat) : World :=
  { w with J := w.J.UnlinkTx h (w.Txs h).TxId }

/-- `Transaction::OnCommitComplete(result)` on the transaction with handle `h`. -/
def World.OnCommitComplete (w : World) (h : Nat) (result : Error) : World :=
  match Transaction.OnCommitComplete w.J h (w.Txs h) result with
  | (J1, tx) => { w with J := J1, Txs := Function.update w.Txs h tx }

/-- Modelled from the spec: the state of the journal's `Lock`, a
shared/exclusive lock whose class is not among the sources: free, held shared,
or held exclusively. -/
inductive LockState where
  | Free
  | Shared
  | Exclusive
  deriving DecidableEq, Repr

/-- Modelled from the spec: whether `SharedAutoLock lock(Lock)` returns when the
lock is in the given state.  The shared side is granted unless the lock is
held exclusively; the lock is not re-entrant, so the thread that holds it
exclusively waits for itself. -/
def LockState.SharedGranted : LockState → Bool
  | LockState.Free => true
  | LockState.Shared => true
  | LockState.Exclusive => false

/-- `Journal::WriteTx(tx, bioList)` for the transaction with handle `h`: the
journal's `Lock` is held exclusively (`AutoLock lock(Lock)`) across
`tx->WriteTx(bioList)`.  Every failure exit of `Transaction::WriteTx` runs
`OnCommitCompleteLocked(err)` with an error: `State = Canceled`, then
`UnlinkTx`, whose first statement `SharedAutoLock lock(Lock)` asks for the
shared side of the lock that is held, before `CommitResult` is assigned and
`CommitEvent` is signalled.  `none` means that the call does not return. -/
def World.WriteTx (env : Env) (w : World) (h : Nat) (bioList : List Bio)
    (io : Nat → StageOutcome) : Option (Error × World × List Bio) :=
  match Transaction.WriteTx env w.J h (w.Txs h) bioList io with
  | (err, J1, tx, bioList1) =>
    if !err.Ok && !LockState.Exclusive.SharedGranted then none
    else some (err, { w with J := J1, Txs := Function.update w.Txs h tx }, bioList1)

/-- The `for` loop of `Journal::Run` that stages the batch; it stops at the
first error.  `i` is the position in the batch, `err` the current value of the
variable `err`; `none` when a `WriteTx` call does not return. -/
def World.WriteTxList (env : Env) (io : Nat → Nat → StageOutcome) :
    List Nat → Nat → Error → World → List Bio → Option (Error × World × List Bio)
  | [], _, err, w, bioList => some (err, w, bioList)
  | h :: rest, i, _, w, bioList =>
    match w.WriteTx env h bioList (io i) with
    | none => none
    | some (err1, w1, bioList1) =>
      if !err1.Ok then some (err1, w1, bioList1)
      else World.WriteTxList env io rest (i + 1) err1 w1 bioList1

/-- The loop of `Journal::Run` that pops every transaction of the batch and
calls `OnCommitComplete(err)` on it. -/
def World.CompleteAll (err : Error) : List Nat → World → World
  | [], w => w
  | h :: rest, w => World.CompleteAll err rest (w.OnCommitComplete h err)

/-- What the environment answers during one batch of the writer. -/
structure BatchOutcome where
  Stage : Nat → Nat → StageOutcome
  Flush : StageOutcome
  Exec : Nat → Error

/-- One iteration of the `while` loop of `Journal::Run` after the wait:
nothing when the pending list is empty, else take the list, stage every
transaction, flush, execute and complete.  `err` is the value the variable
`err` has on entry; the result carries its value on exit; `none` when the
iteration does not end. -/
def World.RunBatch (env : Env) (w : World) (err : Error) (o : BatchOutcome) :
    Option (Error × World) :=
  if w.J.TxList = [] then some (err, w)
  else
    let txList := w.J.TxList
    let w0 : World := { w with J := { w.J with TxList := [] } }
    match World.WriteTxList env o.Stage txList 0 err w0 [] with
    | none => none
    | some (err1, w1, bioList) =>
      if !err1.Ok then some (err1, World.CompleteAll err1 txList w1)
      else
        match w1.J.Flush env bioList o.Flush with
        | (err2, bioList2) =>
          if !err2.Ok then some (err2, World.CompleteAll err2 txList w1)
          else
            match BioListExec env o.Exec bioList2 0 w1.Dev with
            | (err3, dev) =>
              some (err3, World.CompleteAll err3 txList { w1 with Dev := dev })

/-- The loop that ends `Journal::Run`: every transaction still queued is
cancelled. -/
def World.CancelAll : List Nat → World → World
  | [], w => w
  | h :: rest, w => World.CancelAll rest (w.Cancel h)

/-- The end of `Journal::Run`, after the `while` loop: take the pending list,
`Cancel` every transaction in it, stage the header on a bio list that is not
executed.  The result is the error of `Flush`. -/
def World.RunStop (env : Env) (w : World) (o : StageOutcome) : Error × World :=
  let txList := w.J.TxList
  let w0 : World := { w with J := { w.J with TxList := [] } }
  let w1 := World.CancelAll txList w0
  ((w1.J.Flush env [] o).1, w1)

/-! ## Reachability -/

/-- The journal after `n` calls of `GetNextBlockIndex`. -/
def Journal.Advance : Journal → Nat → Journal
  | J, 0 => J
  | J, n + 1 => Journal.Advance J.GetNextBlockIndex.2.2 n

/-- The transactions the code can produce: built by the constructor, then
changed by `Write`, `Commit`, `Cancel`, `WriteTx` and `OnCommitComplete`. -/
inductive Transaction.Reachable (env : Env) : Transaction → Prop where
  | Create (txId : Nat) (generate : Error) (allocBegin allocCommit : Bool) (err : Error)
      (tx : Transaction)
      (h : Transaction.Create env Error.Success txId generate allocBegin allocCommit
        = (err, some tx)) : Transaction.Reachable env tx
  | Write (J : Journal) (tx : Transaction) (page : List Nat) (position : Nat)
      (alloc : Nat → Bool) (err : Error) (tx1 : Transaction)
      (hr : Transaction.Reachable env tx)
      (h : Transaction.Write env J tx page position alloc = some (err, tx1)) :
      Transaction.Reachable env tx1
  | Commit (J : Journal) (self : Nat) (tx : Transaction) (addTail : Bool)
      (hr : Transaction.Reachable env tx) :
      Transaction.Reachable env (Transaction.Commit J self tx addTail).2.2
  | Cancel (J : Journal) (self : Nat) (tx : Transaction)
      (hr : Transaction.Reachable env tx) :
      Transaction.Reachable env (Transaction.Cancel J self tx).2
  | WriteTx (J : Journal) (self : Nat) (tx : Transaction) (bioList : List Bio)
      (io : Nat → StageOutcome) (hr : Transaction.Reachable env tx) :
      Transaction.Reachable env (Transaction.WriteTx env J self tx bioList io).2.2.1
  | OnCommitComplete (J : Journal) (self : Nat) (tx : Transaction) (result : Error)
      (hr : Transaction.Reachable env tx) :
      Transaction.Reachable env (Transaction.OnCommitComplete J self tx result).2

/-- One operation on a journal and its transactions: `BeginTx`, `Write`,
`Commit` (up to the wait), `Cancel`, one batch of the writer that ends, or the
destruction of a transaction.  Operations on a transaction take the handle of
an object that has been created. -/
inductive World.Step (env : Env) : World → World → Prop where
  | BeginTx (w : World) (txId : Nat) (o : BeginTxOutcome) :
      World.Step env w (w.BeginTx env txId o).2
  | Write (w : World) (h : Nat) (page : List Nat) (position : Nat) (alloc : Nat → Bool)
      (err : Error) (w1 : World) (hh : h < w.Next)
      (hw : w.Write env h page position alloc = some (err, w1)) : World.Step env w w1
  | Commit (w : World) (h : Nat) (addTail : Bool) (hh : h < w.Next) :
      World.Step env w (w.Commit h addTail).2
  | Cancel (w : World) (h : Nat) (hh : h < w.Next) : World.Step env w (w.Cancel h)
  | RunBatch (w : World) (err : Error) (o : BatchOutcome) (err1 : Error) (w1 : World)
      (hb : w.RunBatch env err o = some (err1, w1)) : World.Step env w w1
  | Destroy (w : World) (h : Nat) (hh : h < w.Next) : World.Step env w (w.Destroy h)

/-- The worlds reachable from a journal whose tx table and pending queue are
empty. -/
inductive World.Reachable (env : Env) : World → Prop where
  | Init (w : World) (hTable : ∀ k, w.J.TxTable k = none) (hList : w.J.TxList = []) :
      World.Reachable env w
  | Step (w w1 : World) (hr : World.Reachable env w) (hs : World.Step env w w1) :
      World.Reachable env w1

/-! ## Definitions used to state the properties -/

/-- The TxData block one iteration of the loop of `Transaction::Write` builds
at page offset `off` for device position `position`.  `DataSize` receives the
count `read`, which never exceeds `sizeof(block->Data)`. -/
def Transaction.DataBlockAt (env : Env) (txId : Nat) (page : List Nat) (off position : Nat) :
    JournalTxBlock :=
  { env.NewTxBlock with
      TxId := txId, BlockType := env.JournalBlockTypeTxData,
      Data := PageRead page env.DataCapacity off ++
        env.NewTxBlock.Data.drop (PageRead page env.DataCapacity off).length,
      Position := position,
      DataSize := (PageRead page env.DataCapacity off).length }

/-- The payload of a TxData block: the first `DataSize` bytes of `Data`. -/
def JournalTxBlock.Payload (b : JournalTxBlock) : List Nat := b.Data.take b.DataSize

/-- The bios expected for a sequence of blocks, following the specification:
the `k`-th block, prepared for writing, goes to the ring index that the `k`-th
call of `GetNextBlockIndex` returns. -/
def ExpectedStaging (env : Env) : List JournalTxBlock → Journal → List Bio
  | [], _ => []
  | block :: rest, J =>
    { Page := PageData.TxBlock (Journal.WriteTxBlockPrepare env block).2,
      Position := mul64 J.GetNextBlockIndex.2.1 env.BlockSize, Write := true, Flush := false } ::
      ExpectedStaging env rest J.GetNextBlockIndex.2.2

/-- The blocks of a transaction in journal order: begin block, data blocks,
commit block. -/
def Transaction.Blocks (env : Env) (tx : Transaction) : List JournalTxBlock :=
  tx.BeginBlock :: (tx.DataBlockList ++ [tx.SealedCommitBlock env])

/-- The blocks of a transaction carry its TxId and the types the constructor
and `Write` gave them. -/
def Transaction.WellFormed (env : Env) (tx : Transaction) : Prop :=
  tx.BeginBlock.TxId = tx.TxId ∧
  tx.BeginBlock.BlockType = env.JournalBlockTypeTxBegin ∧
  tx.CommitBlock.TxId = tx.TxId ∧
  tx.CommitBlock.BlockType = env.JournalBlockTypeTxCommit ∧
  ∀ b ∈ tx.DataBlockList, b.TxId = tx.TxId ∧ b.BlockType = env.JournalBlockTypeTxData

/-- Fields of a transaction that no operation changes, and the only change to
the commit block. -/
def SameBlocks (env : Env) (tx tx1 : Transaction) : Prop :=
  tx1.TxId = tx.TxId ∧ tx1.BeginBlock = tx.BeginBlock ∧
  tx1.DataBlockList = tx.DataBlockList ∧
  (tx1.CommitBlock = tx.CommitBlock ∨ tx1.CommitBlock = tx.SealedCommitBlock env)

/-- The tx table invariant: every entry points to a created transaction
that has the entry's key as TxId and is not `Canceled`. -/
def TableInv (table : Nat → Option Nat) (txs : Nat → Transaction) (next : Nat) : Prop :=
  ∀ k h, table k = some h →
    h < next ∧ (txs h).TxId = k ∧ (txs h).State ≠ TxState.Canceled

/-- The effect on the tx table of an operation on the transaction `self`:
the table is kept and the transaction is not `Canceled` or keeps its state, or
the transaction has been unlinked. -/
def TableEffect (table : Nat → Option Nat) (self : Nat) (tx : Transaction)
    (table1 : Nat → Option Nat) (tx1 : Transaction) : Prop :=
  tx1.TxId = tx.TxId ∧
  ((table1 = table ∧ (tx1.State ≠ TxState.Canceled ∨ tx1.State = tx.State)) ∨
   table1 = (if table tx.TxId ≠ some self then table else Function.update table tx.TxId none))

/-- The tx table invariant of a world. -/
def World.Inv (w : World) : Prop := TableInv w.J.TxTable w.Txs w.Next

/-- A bio whose page starts at one of the journal's blocks
`start, ..., start + size - 1`. -/
def BioInRing (env : Env) (start size : Nat) (bio : Bio) : Prop :=
  ∃ index, start ≤ index ∧ index < start + size ∧ bio.Position = index * env.BlockSize

/-- Every bio of the list starts at one of the journal's blocks. -/
def BiosInRing (env : Env) (start size : Nat) (bioList : List Bio) : Prop :=
  ∀ bio ∈ bioList, BioInRing env start size bio

/-- The bio list that one iteration of the loop of `Journal::Run` hands to
`Exec`: the blocks of the batch, then the header staged by `Flush`; `none` when
the staging does not return. -/
def World.BatchBios (env : Env) (w : World) (err : Error) (o : BatchOutcome) :
    Option (List Bio) :=
  match World.WriteTxList env o.Stage w.J.TxList 0 err
      { w with J := { w.J with TxList := [] } } [] with
  | none => none
  | some (_, w1, bioList) => some (w1.J.Flush env bioList o.Flush).2

/-- Any number of `Transaction::Write` calls on the transaction with handle `h`,
whatever each returns; `none` when one of them does not return. -/
def World.WriteAll (env : Env) (h : Nat) :
    List (List Nat × Nat × (Nat → Bool)) → World → Option World
  | [], w => some w
  | (page, position, alloc) :: rest, w =>
    match w.Write env h page position alloc with
    | none => none
    | some (_, w1) => World.WriteAll env h rest w1

/-- The bytes a page-sized write puts on the device. -/
def PageData.Image (env : Env) (page : PageData) : List Nat :=
  (List.range env.PageSize).map (fun i => (page.Bytes env).getD i 0)

/-- Every transaction in the pending queue has been created and has left the
state `New`. -/
def World.QueueInv (w : World) : Prop :=
  ∀ h ∈ w.J.TxList, h < w.Next ∧ (w.Txs h).State ≠ TxState.New

/-! ## A concrete environment and concrete runs -/

/-- The `width` little-endian bytes of `v`. -/
def LeBytes (width v : Nat) : List Nat :=
  (List.range width).map (fun i => v / 256 ^ i % 256)

/-- The value of little-endian bytes. -/
def LeValue : List Nat → Nat
  | [] => 0
  | b :: rest => b + 256 * LeValue rest

/-- An environment for examples: a little-endian host, 4096-byte blocks and
pages, a tx block of 16 + 4 bytes of TxId and type, a 12-byte payload head,
4032 bytes of data and a 32-byte hash, and a byte sum in place of xxHash. -/
def ExampleEnv : Env where
  BlockSize := 4096
  PageSize := 4096
  TxBlockSize := 4096
  DataCapacity := 4032
  JournalMagic := 0xCBDACBDA
  JournalBlockTypeTxBegin := 1
  JournalBlockTypeTxData := 2
  JournalBlockTypeTxCommit := 3
  TxStateCode := fun s =>
    match s with
    | TxState.New => 1
    | TxState.Commiting => 2
    | TxState.Commited => 3
    | TxState.Canceled => 4
  CpuToLe32 := fun x => x
  Le32ToCpu := fun x => x
  CpuToLe64 := fun x => x
  Le64ToCpu := fun x => x
  XXHashSum := fun l => List.replicate 32 (l.sum % 256)
  NewTxBlock :=
    { TxId := 0, BlockType := 0, Position := 0, DataSize := 0,
      Data := List.replicate 4032 0, State := 0, Time := 0, Hash := List.replicate 32 0 }
  TxBlockBytes := fun b =>
    LeBytes 16 b.TxId ++ LeBytes 4 b.BlockType ++
      (if b.BlockType = 3 then LeBytes 4 b.State ++ LeBytes 8 b.Time ++ List.replicate 4032 0
       else LeBytes 8 b.Position ++ LeBytes 4 b.DataSize ++ b.Data) ++ b.Hash
  HeaderBytes := fun h => LeBytes 4 h.Magic ++ LeBytes 8 h.Size ++ h.Hash
  HeaderView := fun bytes =>
    { Magic := LeValue (bytes.take 4), Size := LeValue ((bytes.drop 4).take 8),
      Hash := (bytes.drop 12).take 32 }
  types_distinct := by decide

/-- A formatted journal for examples: header block 1, ring of 16 blocks, next
free block 2, running. -/
def ExampleJournal : Journal :=
  { Start := 1, Size := 16, CurrBlockIndex := 2, State := JournalState.Running,
    TxTable := fun _ => none, TxList := [], TxThread := true }

/-- The header of the example journal as `Format` and `Flush` write it. -/
def ExampleHeader : JournalHeader :=
  { Magic := 0xCBDACBDA, Size := 16, Hash := List.replicate 32 ((0xCBDACBDA + 16) % 256) }

/-- A zeroed device that carries the example header in block 1. -/
def ExampleDevice : Device :=
  Device.WritePage ExampleEnv (fun _ => 0) 4096 (PageData.Header ExampleHeader)

/-- The environment answers of a `Load` in which nothing fails. -/
def LoadOutcome.AllOk : LoadOutcome :=
  { PageCreate := Error.Success, Read := Error.Success, ThreadCreated := true }

/-- The transaction that the constructor builds in the example environment
for TxId 7. -/
def ExampleTx : Transaction :=
  { TxId := 7, State := TxState.New,
    BeginBlock := { ExampleEnv.NewTxBlock with TxId := 7, BlockType := 1 },
    CommitBlock := { ExampleEnv.NewTxBlock with TxId := 7, BlockType := 3 },
    DataBlockList := [], CommitResult := Error.Success, CommitEvent := false }

/-- A page of 4096 bytes `0xAB`. -/
def ExamplePage : List Nat := List.replicate 4096 0xAB

/-- The example transaction after `Write` of the example page at position
69632: two data blocks, of 4032 and 64 bytes. -/
def ExampleTx2 : Transaction :=
  { ExampleTx with DataBlockList :=
      [Transaction.DataBlockAt ExampleEnv 7 ExamplePage 0 69632,
       Transaction.DataBlockAt ExampleEnv 7 ExamplePage 4032 (69632 + 4032)] }

/-- The example journal with the example transaction, handle 0, in its tx table. -/
def ExampleJournalTx : Journal :=
  { ExampleJournal with TxTable := fun k => if k = 7 then some 0 else none }

/-- The environment answers of a staging step in which nothing fails. -/
def StageOutcome.AllOk : StageOutcome :=
  { PageCreate := Error.Success, AddIo := Error.Success }

/-- The environment answers of a `BeginTx` in which nothing fails. -/
def BeginTxOutcome.AllOk : BeginTxOutcome :=
  { AllocTx := true, Generate := Error.Success, AllocBegin := true, AllocCommit := true,
    Insert := true }

/-- The environment answers of a writer batch in which nothing fails. -/
def BatchOutcome.AllOk : BatchOutcome :=
  { Stage := fun _ _ => StageOutcome.AllOk, Flush := StageOutcome.AllOk,
    Exec := fun _ => Error.Success }

/-- The example journal on the example device, no transaction created yet. -/
def ExampleWorld : World :=
  { J := ExampleJournal, Txs := fun _ => ExampleTx, Next := 0, Dev := ExampleDevice }

/-- The example world after `BeginTx` (TxId 7, handle 0), `Commit` of that
transaction and one successful batch of the writer (which returns). -/
def ExampleWorldCommitted : World :=
  (((((ExampleWorld.BeginTx ExampleEnv 7 BeginTxOutcome.AllOk).2).Commit 0 true).2.RunBatch
    ExampleEnv Error.Success BatchOutcome.AllOk).getD (Error.Success, ExampleWorld)).2

/-- `Commit` of the example transaction, handle 0, in the example journal. -/
def ExampleCommit : CommitStep × Journal × Transaction :=
  Transaction.Commit ExampleJournalTx 0 ExampleTx true

/-- The writer stages the example transaction after `ExampleCommit`. -/
def ExampleWriteTx : Error × Journal × Transaction × List Bio :=
  Transaction.WriteTx ExampleEnv ExampleCommit.2.1 0 ExampleCommit.2.2 []
    (fun _ => StageOutcome.AllOk)

/-- The writer completes the example transaction with `Success`. -/
def ExampleComplete : Journal × Transaction :=
  Transaction.OnCommitComplete ExampleWriteTx.2.1 0 ExampleWriteTx.2.2.1 Error.Success

/-- The creator then calls `Cancel` on the committed example transaction. -/
def ExampleCancel : Journal × Transaction :=
  Transaction.Cancel ExampleComplete.1 0 ExampleComplete.2

/-- The example world after `BeginTx` for TxId 7: the transaction has handle 0. -/
def ExampleWorldBegun : World :=
  (ExampleWorld.BeginTx ExampleEnv 7 BeginTxOutcome.AllOk).2

/-- The example world after `Write` of the example page at position 69632. -/
def ExampleWorldWritten : World :=
  { ExampleWorldBegun with Txs := Function.update ExampleWorldBegun.Txs 0 ExampleTx2 }

/-- The example world after `Commit` and one batch of the writer in which
nothing fails (and which returns). -/
def ExampleWorldDurable : World :=
  (((ExampleWorldWritten.Commit 0 true).2.RunBatch ExampleEnv Error.Success
    BatchOutcome.AllOk).getD (Error.Success, ExampleWorld)).2

/-- A TxData block with host-order fields: three bytes for position 69632. -/
def ExampleDataBlock : JournalTxBlock :=
  { TxId := 7, BlockType := 2, Position := 69632, DataSize := 3, Data := [1, 2, 3],
    State := 0, Time := 0, Hash := [] }

/-- A zeroed device whose block 1 carries a header with the journal magic, the
given size and the given hash byte. -/
def ExampleDeviceWith (size hashByte : Nat) : Device :=
  Device.WritePage ExampleEnv (fun _ => 0) 4096
    (PageData.Header { Magic := 0xCBDACBDA, Size := size, Hash := List.replicate 32 hashByte })

/-- A block with the given type and hash byte and no data. -/
def ExampleBlockWith (type hashByte : Nat) : JournalTxBlock :=
  { TxId := 7, BlockType := type, Position := 0, DataSize := 0, Data := [], State := 0,
    Time := 0, Hash := List.replicate 32 hashByte }

/-- The error a batch of the writer ends with once every transaction is
staged in world `w1` with bio list `bioList`, spelled out stage by stage: the
error of staging the header, else the error of executing the bio list. -/
def World.BatchError (env : Env) (w1 : World) (bioList : List Bio) (o : BatchOutcome) :
    Error :=
  if ¬ (w1.J.Flush env bioList o.Flush).1 = Error.Success then
    (w1.J.Flush env bioList o.Flush).1
  else (BioListExec env o.Exec (w1.J.Flush env bioList o.Flush).2 0 w1.Dev).1

/-- A transaction completed with `err`: the commit event is signalled,
`CommitResult` is `err`, and the state is `Commited` for `Success` and
`Canceled` for every other error. -/
def Transaction.CompletedWith (tx : Transaction) (err : Error) : Prop :=
  tx.CommitEvent = true ∧ tx.CommitResult = err ∧
  tx.State = (if err = Error.Success then TxState.Commited else TxState.Canceled)

instance (tx : Transaction) (err : Error) : Decidable (tx.CompletedWith err) := by
  unfold Transaction.CompletedWith
  exact inferInstance

/-- The example batch outcome in which the page for the first block of the
first transaction cannot be allocated. -/
def BatchOutcome.StageFails : BatchOutcome :=
  { Stage := fun _ _ => { PageCreate := Error.NoMemory, AddIo := Error.Success },
    Flush := StageOutcome.AllOk, Exec := fun _ => Error.Success }

/-- The example batch outcome in which executing the bio list fails with `IoError`. -/
def BatchOutcome.ExecFails : BatchOutcome :=
  { Stage := fun _ _ => StageOutcome.AllOk, Flush := StageOutcome.AllOk,
    Exec := fun _ => Error.IoError }

/-- The example world with the example transaction, handle 0, blocked in
`Commit`: `BeginTx` for TxId 7, then `Commit` up to the wait. -/
def ExampleWorldWaiting : World :=
  (ExampleWorldBegun.Commit 0 true).2

/-- The writer shuts down while the example transaction is blocked in `Commit`. -/
def ExampleWorldStopped : World :=
  (ExampleWorldWaiting.RunStop ExampleEnv StageOutcome.AllOk).2

/-- The example world after `BeginTx` and the destructor of the transaction:
the tx table has no entry for it any more. -/
def ExampleWorldDropped : World :=
  ExampleWorldBegun.Destroy 0

/-- The index that the call number `k` (counted from 0) of a run of consecutive
`GetNextBlockIndex` calls returns. -/
def Journal.NthIndex (J : Journal) (k : Nat) : Nat :=
  (Journal.Advance J k).GetNextBlockIndex.2.1

/-! ## `cpp/hash_table.h` -/

/-- The members of `HashTable<K, V>`: the vector of buckets, each bucket the
entries of its linked list in list order as pairs of key and value, the
comparison `KeyCmp`, the hash `KeyHash`, and `EmptyValue`. -/
structure HashTable (K V : Type) where
  Buckets : List (List (K × V))
  KeyCmp : K → K → Int
  KeyHash : K → Nat
  EmptyValue : V

/-- The constructor of `HashTable` when `Reserve` and every `PushBack` succeed:
`nrBuckets` empty lists. -/
def HashTable.Create {K V : Type} (nrBuckets : Nat) (keyCmp : K → K → Int)
    (keyHash : K → Nat) (emptyValue : V) : HashTable K V :=
  { Buckets := List.replicate nrBuckets [], KeyCmp := keyCmp, KeyHash := keyHash,
    EmptyValue := emptyValue }

/-- The bucket index `KeyHash(key) % Buckets.GetSize()`. -/
def HashTable.BucketIndex {K V : Type} (t : HashTable K V) (key : K) : Nat :=
  t.KeyHash key % t.Buckets.length

/-- The list `Buckets[bucket]`. -/
def HashTable.Bucket {K V : Type} (t : HashTable K V) (bucket : Nat) : List (K × V) :=
  (t.Buckets[bucket]?).getD []

/-- The loop `for (; it.IsValid(); it.Next())` that looks for the first entry
with `KeyCmp(entry.GetKey(), key) == 0`. -/
def HashTable.Find {K V : Type} (keyCmp : K → K → Int) (key : K) :
    List (K × V) → Option (K × V)
  | [] => none
  | entry :: rest =>
    if keyCmp entry.1 key = 0 then some entry else HashTable.Find keyCmp key rest

/-- The loop of `Remove`: `it.Erase()` on the first entry whose key compares
equal; the Boolean tells whether one was found. -/
def HashTable.EraseFirst {K V : Type} (keyCmp : K → K → Int) (key : K) :
    List (K × V) → Bool × List (K × V)
  | [] => (false, [])
  | entry :: rest =>
    if keyCmp entry.1 key = 0 then (true, rest)
    else ((HashTable.EraseFirst keyCmp key rest).1,
          entry :: (HashTable.EraseFirst keyCmp key rest).2)

/-- `HashTable::Exists(key)`. -/
def HashTable.Exists {K V : Type} (t : HashTable K V) (key : K) : Bool :=
  (HashTable.Find t.KeyCmp key (t.Bucket (t.BucketIndex key))).isSome

/-- `HashTable::Get(key)`: the value of the first entry whose key compares
equal, `EmptyValue` when there is none (the case that `KBUG_ON` reports). -/
def HashTable.Get {K V : Type} (t : HashTable K V) (key : K) : V :=
  match HashTable.Find t.KeyCmp key (t.Bucket (t.BucketIndex key)) with
  | some entry => entry.2
  | none => t.EmptyValue

/-- `HashTable::Insert(key, value)`: the returned Boolean and the table
afterwards.  `addTail` tells whether `list.AddTail` appends the entry; its
result is not looked at. -/
def HashTable.Insert {K V : Type} (t : HashTable K V) (key : K) (value : V)
    (addTail : Bool) : Bool × HashTable K V :=
  let bucket := t.BucketIndex key
  match HashTable.Find t.KeyCmp key (t.Bucket bucket) with
  | some _ => (false, t)
  | none =>
    if addTail then
      (true, { t with Buckets := t.Buckets.set bucket (t.Bucket bucket ++ [(key, value)]) })
    else (true, t)

/-- `HashTable::Remove(key)`: the returned Boolean and the table afterwards. -/
def HashTable.Remove {K V : Type} (t : HashTable K V) (key : K) : Bool × HashTable K V :=
  let bucket := t.BucketIndex key
  ((HashTable.EraseFirst t.KeyCmp key (t.Bucket bucket)).1,
   { t with Buckets :=
      t.Buckets.set bucket (HashTable.EraseFirst t.KeyCmp key (t.Bucket bucket)).2 })

/-- The keys of every bucket are pairwise distinct under `KeyCmp`. -/
def HashTable.Distinct {K V : Type} (t : HashTable K V) : Prop :=
  ∀ bucket, (t.Bucket bucket).Pairwise (fun a b => t.KeyCmp a.1 b.1 ≠ 0)

/-- A comparison of natural numbers in the manner of `KeyCmp`: the difference. -/
def ExampleKeyCmp (a b : Nat) : Int := (a : Int) - (b : Int)

/-- A table of four buckets with natural numbers as keys, compared by their
difference and hashed by their value, after `Insert(5, 50)` and `Insert(9, 90)`
(both fall into bucket 1). -/
def ExampleTable : HashTable Nat Nat :=
  (((HashTable.Create 4 ExampleKeyCmp (fun a => a) 0).Insert 5 50 true).2.Insert
    9 90 true).2

/-! ## `kstor/control_device.cpp` -/

/-- What the control device sees of a `Volume` (`volume.h` is not among the
sources): the device name the object was constructed with, which
`GetDeviceName()` is taken to return, and the id that `GetVolumeId()` reports. -/
structure Volume where
  DeviceName : List Nat
  VolumeId : Nat
  deriving DecidableEq, Repr

/-- The member `VolumeRef` of `ControlDevice`: `none` is the null pointer. -/
structure ControlDevice where
  VolumeRef : Option Volume
  deriving DecidableEq, Repr

/-- The calls `ControlDevice::Mount` makes on the volume class. -/
inductive VolumeCall where
  | MakeShared (deviceName : List Nat)
  | Format (blockSize : Nat)
  | Load
  deriving DecidableEq, Repr

/-- What the environment answers during `ControlDevice::Mount`: whether
`MakeShared<Volume>` returns an object, the error the `Volume` constructor
(which opens the device) leaves in `err`, the errors of `Format` and `Load`,
and the id the volume reports. -/
structure MountOutcome where
  Alloc : Bool
  Init : Error
  Format : Error
  Load : Error
  VolumeId : Nat
  deriving DecidableEq, Repr

/-- The result of `ControlDevice::Mount`: the returned error, the control
device afterwards, the value assigned to `volumeId` if any, and the calls made
on the volume class, in order. -/
structure MountResult where
  Err : Error
  Device : ControlDevice
  VolumeId : Option Nat
  Calls : List VolumeCall
  deriving DecidableEq, Repr

/-- `ControlDevice::Mount(deviceName, format, blockSize, volumeId)`.  The new
object is assigned to the member `VolumeRef` as soon as it is made. -/
def ControlDevice.Mount (cd : ControlDevice) (deviceName : List Nat) (format : Bool)
    (blockSize : Nat) (o : MountOutcome) : MountResult :=
  if cd.VolumeRef ≠ none then
    { Err := Error.AlreadyExists, Device := cd, VolumeId := none, Calls := [] }
  else if !o.Alloc then
    { Err := Error.NoMemory, Device := { cd with VolumeRef := none }, VolumeId := none,
      Calls := [VolumeCall.MakeShared deviceName] }
  else
    let cd1 : ControlDevice :=
      { cd with VolumeRef := some { DeviceName := deviceName, VolumeId := o.VolumeId } }
    if !o.Init.Ok then
      { Err := o.Init, Device := cd1, VolumeId := none,
        Calls := [VolumeCall.MakeShared deviceName] }
    else if format && !o.Format.Ok then
      { Err := o.Format, Device := cd1, VolumeId := none,
        Calls := [VolumeCall.MakeShared deviceName, VolumeCall.Format blockSize] }
    else
      let calls :=
        if format then [VolumeCall.MakeShared deviceName, VolumeCall.Format blockSize,
          VolumeCall.Load]
        else [VolumeCall.MakeShared deviceName, VolumeCall.Load]
      if !o.Load.Ok then { Err := o.Load, Device := cd1, VolumeId := none, Calls := calls }
      else { Err := Error.Success, Device := cd1, VolumeId := some o.VolumeId, Calls := calls }

/-- `ControlDevice::Unmount(volumeId)`. -/
def ControlDevice.Unmount (cd : ControlDevice) (volumeId : Nat) : Error × ControlDevice :=
  match cd.VolumeRef with
  | none => (Error.NotFound, cd)
  | some volume =>
    if volume.VolumeId = volumeId then (Error.Success, { cd with VolumeRef := none })
    else (Error.NotFound, cd)

/-- `ControlDevice::Unmount(deviceName)`; `compare` is `AString::Compare`, which
is not among the sources. -/
def ControlDevice.UnmountByName (cd : ControlDevice) (deviceName : List Nat)
    (compare : List Nat → List Nat → Int) : Error × ControlDevice :=
  match cd.VolumeRef with
  | none => (Error.NotFound, cd)
  | some volume =>
    if compare volume.DeviceName deviceName = 0 then
      (Error.Success, { cd with VolumeRef := none })
    else (Error.NotFound, cd)

/-- The label of the `switch` in `ControlDevice::Ioctl` that a code selects;
the values of the `IOCTL_KSTOR_...` constants are not among the sources. -/
inductive IoctlCode where
  | GetTime
  | GetRandomUlong
  | Mount
  | Unmount
  | UnmountByName
  | StartServer
  | StopServer
  | Default
  deriving DecidableEq, Repr

/-- The fields of `Control::Cmd` that `Ioctl` reads or writes.  `DeviceName`
and `Host` are the character arrays; their last element is the one at index
`ArraySize - 1`. -/
structure Cmd where
  Time : Nat
  Value : Nat
  DeviceName : List Nat
  Format : Bool
  BlockSize : Nat
  VolumeId : Nat
  Host : List Nat
  Port : Nat
  deriving DecidableEq, Repr

/-- What the environment answers during `ControlDevice::Ioctl`: whether the
command buffer is allocated, the error of `CopyFromUser` and the command it
copies, the time, the random number, the error of the `AString` constructor,
the answers during `Mount`, the error of `Srv.Start`, the error of
`CopyToUser`. -/
structure IoctlOutcome where
  Alloc : Bool
  CopyFromUser : Error
  UserCmd : Cmd
  Time : Nat
  Random : Nat
  StringInit : Error
  Mount : MountOutcome
  StartServer : Error
  CopyToUser : Error
  deriving DecidableEq, Repr

/-- The result of `ControlDevice::Ioctl`: the returned error, the control
device afterwards, whether an operation of a known code was dispatched, and
the command copied back to user space if any. -/
structure IoctlResult where
  Err : Error
  Device : ControlDevice
  Dispatched : Bool
  CopiedBack : Option Cmd
  deriving DecidableEq, Repr

/-- The characters of an array before its terminator. -/
def CString (chars : List Nat) : List Nat := chars.takeWhile (fun c => c ≠ 0)

/-- The `switch (code)` of `ControlDevice::Ioctl`: the error, the command
buffer, the control device, and whether an operation was dispatched. -/
def ControlDevice.Dispatch (cd : ControlDevice) (code : IoctlCode) (cmd : Cmd)
    (o : IoctlOutcome) (compare : List Nat → List Nat → Int) :
    Error × Cmd × ControlDevice × Bool :=
  match code with
  | IoctlCode.GetTime => (Error.Success, { cmd with Time := o.Time }, cd, true)
  | IoctlCode.GetRandomUlong => (Error.Success, { cmd with Value := o.Random }, cd, true)
  | IoctlCode.Mount =>
    if cmd.DeviceName.getLast? ≠ some 0 then (Error.InvalidValue, cmd, cd, false)
    else if !o.StringInit.Ok then (o.StringInit, cmd, cd, false)
    else
      let r := cd.Mount (CString cmd.DeviceName) cmd.Format cmd.BlockSize o.Mount
      if r.Err.Ok then (r.Err, { cmd with VolumeId := r.VolumeId.getD cmd.VolumeId }, r.Device, true)
      else (r.Err, cmd, r.Device, true)
  | IoctlCode.Unmount =>
    ((cd.Unmount cmd.VolumeId).1, cmd, (cd.Unmount cmd.VolumeId).2, true)
  | IoctlCode.UnmountByName =>
    if cmd.DeviceName.getLast? ≠ some 0 then (Error.InvalidValue, cmd, cd, false)
    else if !o.StringInit.Ok then (o.StringInit, cmd, cd, false)
    else
      ((cd.UnmountByName (CString cmd.DeviceName) compare).1, cmd,
       (cd.UnmountByName (CString cmd.DeviceName) compare).2, true)
  | IoctlCode.StartServer =>
    if cmd.Host.getLast? ≠ some 0 then (Error.InvalidValue, cmd, cd, false)
    else if !o.StringInit.Ok then (o.StringInit, cmd, cd, false)
    else (o.StartServer, cmd, cd, true)
  | IoctlCode.StopServer => (Error.Success, cmd, cd, true)
  | IoctlCode.Default => (Error.UnknownCode, cmd, cd, false)

/-- `ControlDevice::Ioctl(code, arg)`.  `err` is default-constructed, which is
`Success`, and the allocation failure jumps to `cleanup` without assigning it. -/
def ControlDevice.Ioctl (cd : ControlDevice) (code : IoctlCode) (o : IoctlOutcome)
    (compare : List Nat → List Nat → Int) : IoctlResult :=
  if !o.Alloc then
    { Err := Error.Success, Device := cd, Dispatched := false, CopiedBack := none }
  else if !o.CopyFromUser.Ok then
    { Err := o.CopyFromUser, Device := cd, Dispatched := false, CopiedBack := none }
  else
    match cd.Dispatch code o.UserCmd o compare with
    | (err, cmd, cd1, dispatched) =>
      if !err.Ok then
        { Err := err, Device := cd1, Dispatched := dispatched, CopiedBack := none }
      else if !o.CopyToUser.Ok then
        { Err := o.CopyToUser, Device := cd1, Dispatched := dispatched, CopiedBack := none }
      else
        { Err := Error.Success, Device := cd1, Dispatched := dispatched,
          CopiedBack := some cmd }

/-- A registered volume for examples. -/
def ExampleVolume : Volume := { DeviceName := [100, 101, 118], VolumeId := 42 }

/-- The answers of a `Mount` whose `Load` fails with `DataCorrupt`. -/
def MountOutcome.LoadFails : MountOutcome :=
  { Alloc := true, Init := Error.Success, Format := Error.Success, Load := Error.DataCorrupt,
    VolumeId := 42 }

/-- The answers of a `Mount` in which nothing fails. -/
def MountOutcome.AllOk : MountOutcome :=
  { Alloc := true, Init := Error.Success, Format := Error.Success, Load := Error.Success,
    VolumeId := 42 }

/-- The answers of an `Ioctl` whose command buffer cannot be allocated. -/
def IoctlOutcome.NoBuffer : IoctlOutcome :=
  { Alloc := false, CopyFromUser := Error.Success,
    UserCmd := { Time := 0, Value := 0, DeviceName := [100, 0], Format := false,
                 BlockSize := 4096, VolumeId := 0, Host := [0], Port := 0 },
    Time := 0, Random := 0, StringInit := Error.Success, Mount := MountOutcome.AllOk,
    StartServer := Error.Success, CopyToUser := Error.Success }

/-! ## `ctl/ctl.cpp` and `ctl/main.cpp` -/

/-- What the environment answers to the control program: the result of
`open` (a descriptor, or -1), the value of `errno` after a failed `open`, and
the result of the `ioctl` call. -/
structure CtlOutcome where
  Open : Int
  Errno : Int
  Ioctl : Int
  deriving DecidableEq, Repr

/-- The constructor `Ctl::Ctl(err)`: the value of `err` afterwards. -/
def Ctl.Create (err : Int) (o : CtlOutcome) : Int :=
  if err ≠ 0 then err
  else if o.Open = -1 then o.Errno
  else err

/-- The end of every branch of `main`: `if (err) return err; return 0;`. -/
def Ctl.Finish (err : Int) : Int :=
  if err ≠ 0 then err else 0

/-- `main(argc, argv)` of the control program: `argv` holds the `argc`
arguments, `atoi` is the C library function, `einval` the constant `EINVAL`.
Every method of `Ctl` that `main` calls returns the result of its `ioctl`
(`GetTaskStack` returns it when it is not 0, else 0); the flag `-f` of `mount`
changes the command sent, not the value returned. -/
def Ctl.Main (argv : List String) (atoi : String → Int) (einval : Int) (o : CtlOutcome) :
    Int :=
  let argc := argv.length
  let err := Ctl.Create 0 o
  if err ≠ 0 then err
  else if argc < 2 then 1
  else
    let cmd := argv.getD 1 ""
    if cmd = "mount" then
      if argc < 3 ∨ argc > 4 then 1
      else Ctl.Finish o.Ioctl
    else if cmd = "umount" then
      if argc ≠ 3 then 1
      else Ctl.Finish o.Ioctl
    else if cmd = "start-server" then
      if argc ≠ 4 then 1
      else
        let port := atoi (argv.getD 3 "")
        if port ≤ 0 ∨ port > 65535 then 1
        else Ctl.Finish o.Ioctl
    else if cmd = "stop-server" then
      if argc ≠ 2 then 1
      else Ctl.Finish o.Ioctl
    else if cmd = "test" then
      if argc ≠ 3 then 1
      else
        let testId := atoi (argv.getD 2 "")
        if testId ≤ 0 then einval
        else Ctl.Finish o.Ioctl
    else if cmd = "task-stack" then
      if argc ≠ 3 then 1
      else
        let pid := atoi (argv.getD 2 "")
        if pid ≤ 0 then einval
        else Ctl.Finish o.Ioctl
    else 1

/-- The argument errors that the control program reports before any `ioctl`,
following the specification: a bad argument count or an unknown subcommand
gives 1, an invalid port gives 1, an invalid test id or pid gives `EINVAL`;
`none` when the arguments are accepted. -/
def Ctl.ArgError (argv : List String) (atoi : String → Int) (einval : Int) : Option Int :=
  match argv with
  | [_, cmd] => if cmd = "stop-server" then none else some 1
  | [_, cmd, arg] =>
    if cmd = "mount" ∨ cmd = "umount" then none
    else if cmd = "test" ∨ cmd = "task-stack" then
      if 0 < atoi arg then none else some einval
    else some 1
  | [_, cmd, _, arg] =>
    if cmd = "mount" then none
    else if cmd = "start-server" then
      if 0 < atoi arg ∧ atoi arg ≤ 65535 then none else some 1
    else some 1
  | _ => some 1

/-- The answers of an environment in which the device opens and the `ioctl`
fails the way `ioctl(2)` reports failure, with -1. -/
def CtlOutcome.IoctlFails : CtlOutcome := { Open := 3, Errno := 0, Ioctl := -1 }

/-! ## Locks -/

/-- The locks named in the documented lock order: the volume lock of the
control device, the locks of the volume, the journal's `Lock`, the journal's
`TxListLock`, and the `Lock` of a transaction. -/
inductive LockId where
  | ControlVolume
  | Volume
  | Journal
  | JournalTxList
  | Transaction
  deriving DecidableEq, Repr

/-- The place of a lock in the order of the specification, outermost first:
1 control-surface volume lock, 2 volume-level locks, 3 journal lock,
4 journal tx-list lock, 5 per-transaction lock. -/
def LockId.Rank : LockId → Nat
  | LockId.ControlVolume => 1
  | LockId.Volume => 2
  | LockId.Journal => 3
  | LockId.JournalTxList => 4
  | LockId.Transaction => 5

/-- A lock statement taking effect: the constructor of an `AutoLock`
(`shared = false`) or `SharedAutoLock` (`shared = true`), or the end of its
scope. -/
inductive LockEvent where
  | Acquire (lock : LockId) (shared : Bool)
  | Release (lock : LockId)
  deriving DecidableEq, Repr

/-- The lock statements of `Journal::UnlinkTx`: `SharedAutoLock lock(Lock)` for
the whole body. -/
def Journal.UnlinkTxLocks : List LockEvent :=
  [LockEvent.Acquire LockId.Journal true, LockEvent.Release LockId.Journal]

/-- The lock statements of `Journal::StartCommitTx`: `SharedAutoLock lock(Lock)`
for the whole body and, when the table holds the transaction,
`AutoLock lock(TxListLock)` around `AddTail`. -/
def Journal.StartCommitTxLocks (J : Journal) (self txId : Nat) : List LockEvent :=
  if J.TxTable txId ≠ some self then
    [LockEvent.Acquire LockId.Journal true, LockEvent.Release LockId.Journal]
  else
    [LockEvent.Acquire LockId.Journal true, LockEvent.Acquire LockId.JournalTxList false,
     LockEvent.Release LockId.JournalTxList, LockEvent.Release LockId.Journal]

/-- The lock statements that `Transaction::Commit` runs through: its own
`AutoLock lock(Lock)` around the first block, inside it those of
`StartCommitTx` and, when that fails, of `UnlinkTx`; after the wait the second
`AutoLock lock(Lock)`. -/
def Transaction.CommitLocks (J : Journal) (self : Nat) (tx : Transaction) (addTail : Bool) :
    List LockEvent :=
  if tx.State ≠ TxState.New then
    [LockEvent.Acquire LockId.Transaction false, LockEvent.Release LockId.Transaction]
  else
    [LockEvent.Acquire LockId.Transaction false] ++ J.StartCommitTxLocks self tx.TxId ++
      (if !(J.StartCommitTx self tx.TxId addTail).1.Ok then
        Journal.UnlinkTxLocks ++ [LockEvent.Release LockId.Transaction]
       else
        [LockEvent.Release LockId.Transaction, LockEvent.Acquire LockId.Transaction false,
         LockEvent.Release LockId.Transaction])

/-- The lock statements of `Transaction::~Transaction` and of
`Transaction::Cancel`: `AutoLock lock(Lock)`, inside it those of `UnlinkTx`. -/
def Transaction.UnlinkLocks : List LockEvent :=
  [LockEvent.Acquire LockId.Transaction false] ++ Journal.UnlinkTxLocks ++
    [LockEvent.Release LockId.Transaction]

/-- The lock statements of `Transaction::OnCommitComplete(result)`:
`AutoLock lock(Lock)`, inside it those of `UnlinkTx` when the result is an
error. -/
def Transaction.OnCommitCompleteLocks (result : Error) : List LockEvent :=
  [LockEvent.Acquire LockId.Transaction false] ++
    (if !result.Ok then Journal.UnlinkTxLocks else []) ++
    [LockEvent.Release LockId.Transaction]

/-- The lock statements of `Journal::WriteTx(tx, bioList)`: `AutoLock lock(Lock)`
of the journal, inside it `AutoLock lock(Lock)` of `Transaction::WriteTx` and,
on its failure exit, those of `UnlinkTx`. -/
def Journal.WriteTxLocks (env : Env) (J : Journal) (self : Nat) (tx : Transaction)
    (bioList : List Bio) (io : Nat → StageOutcome) : List LockEvent :=
  [LockEvent.Acquire LockId.Journal false, LockEvent.Acquire LockId.Transaction false] ++
    (if !(Transaction.WriteTx env J self tx bioList io).1.Ok then Journal.UnlinkTxLocks
     else []) ++
    [LockEvent.Release LockId.Transaction, LockEvent.Release LockId.Journal]

/-- Whether a run of lock statements keeps the documented order: no lock is
acquired while a lock that comes later in the order is held.  `held` are the
locks held so far. -/
def LockOrderKept : List LockId → List LockEvent → Bool
  | _, [] => true
  | held, LockEvent.Acquire lock _ :: rest =>
    held.all (fun h => decide (h.Rank ≤ lock.Rank)) && LockOrderKept (lock :: held) rest
  | held, LockEvent.Release lock :: rest => LockOrderKept (held.erase lock) rest

/-- Whether a run of lock statements acquires the journal lock while a
transaction lock is held. -/
def JournalUnderTransaction : List LockId → List LockEvent → Bool
  | _, [] => false
  | held, LockEvent.Acquire lock _ :: rest =>
    (decide (lock = LockId.Journal) && held.contains LockId.Transaction) ||
      JournalUnderTransaction (lock :: held) rest
  | held, LockEvent.Release lock :: rest => JournalUnderTransaction (held.erase lock) rest

/-! # Theorems -/

/-! ## Ring allocation -/

theorem add64_eq_of_lt {a b : Nat} (h : a + b < 2 ^ 64) : add64 a b = a + b := by
  unfold add64
  exact Nat.mod_eq_of_lt h

theorem add64_le (a b : Nat) : add64 a b ≤ a + b := by
  unfold add64
  exact Nat.mod_le _ _

theorem add64_lt (a b : Nat) : add64 a b < 2 ^ 64 := by
  unfold add64
  exact Nat.mod_lt _ (by norm_num)

/-- The result of `GetNextBlockIndex` in a journal whose next index lies
strictly inside the ring. -/
theorem GetNextBlockIndex_eq (J : Journal) (hLow : J.Start < J.CurrBlockIndex)
    (hHigh : J.CurrBlockIndex < add64 J.Start J.Size) :
    J.GetNextBlockIndex =
      (Error.Success, J.CurrBlockIndex,
       { J with CurrBlockIndex :=
          if J.CurrBlockIndex + 1 = add64 J.Start J.Size then J.Start + 1
          else J.CurrBlockIndex + 1 }) := by
  have hEnd : add64 J.Start J.Size < 2 ^ 64 := add64_lt _ _
  have hc : add64 J.CurrBlockIndex 1 = J.CurrBlockIndex + 1 := add64_eq_of_lt (by omega)
  have hs : add64 J.Start 1 = J.Start + 1 := add64_eq_of_lt (by omega)
  by_cases hw : J.CurrBlockIndex + 1 = add64 J.Start J.Size
  · have hge : add64 J.CurrBlockIndex 1 ≥ add64 J.Start J.Size := by omega
    unfold Journal.GetNextBlockIndex
    rw [if_pos hge, hs, if_pos hw]
  · have hlt : ¬ add64 J.CurrBlockIndex 1 ≥ add64 J.Start J.Size := by omega
    unfold Journal.GetNextBlockIndex
    rw [if_neg hlt, hc, if_neg hw]

/-- `GetNextBlockIndex` always reports success and changes `CurrBlockIndex` only. -/
theorem GetNextBlockIndex_frame (J : Journal) :
    J.GetNextBlockIndex.1 = Error.Success ∧
    J.GetNextBlockIndex.2.2.Start = J.Start ∧
    J.GetNextBlockIndex.2.2.Size = J.Size ∧
    J.GetNextBlockIndex.2.2.TxTable = J.TxTable ∧
    J.GetNextBlockIndex.2.2.TxList = J.TxList ∧
    J.GetNextBlockIndex.2.2.State = J.State := by
  unfold Journal.GetNextBlockIndex
  split <;> exact ⟨rfl, rfl, rfl, rfl, rfl, rfl⟩

/-- The ring invariant, in plain arithmetic, survives `GetNextBlockIndex` when
`Start + Size` fits 64 bits. -/
theorem GetNextBlockIndex_keeps_ring (J : Journal) (hFit : J.Start + J.Size < 2 ^ 64)
    (hLow : J.Start < J.CurrBlockIndex) (hHigh : J.CurrBlockIndex < J.Start + J.Size) :
    J.GetNextBlockIndex.2.2.Start = J.Start ∧ J.GetNextBlockIndex.2.2.Size = J.Size ∧
    J.Start < J.GetNextBlockIndex.2.2.CurrBlockIndex ∧
    J.GetNextBlockIndex.2.2.CurrBlockIndex < J.Start + J.Size := by
  have e := add64_eq_of_lt hFit
  rw [GetNextBlockIndex_eq J hLow (by rw [e]; exact hHigh), e]
  refine ⟨rfl, rfl, ?_, ?_⟩ <;> simp only <;> split <;> omega

/-- What a successful `Load` leaves in the journal. -/
theorem Load_success (env : Env) (J : Journal) (dev : Device) (start : Nat) (o : LoadOutcome)
    (h : (Journal.Load env J dev start o).1 = Error.Success) :
    (Journal.Load env J dev start o).2.Start = start ∧
    1 < (Journal.Load env J dev start o).2.Size ∧
    (Journal.Load env J dev start o).2.CurrBlockIndex = add64 start 1 ∧
    (Journal.Load env J dev start o).2.State = JournalState.Running ∧
    (Journal.Load env J dev start o).2.TxTable = J.TxTable ∧
    (Journal.Load env J dev start o).2.TxList = J.TxList := by
  simp only [Journal.Load, Journal.Replay, Error.Ok] at h ⊢
  split_ifs at h ⊢ <;> simp_all

/-- The ring invariant survives any number of `GetNextBlockIndex` calls. -/
theorem Advance_keeps_ring (J : Journal) (n : Nat) (hFit : J.Start + J.Size < 2 ^ 64)
    (hLow : J.Start < J.CurrBlockIndex) (hHigh : J.CurrBlockIndex < J.Start + J.Size) :
    (Journal.Advance J n).Start = J.Start ∧ (Journal.Advance J n).Size = J.Size ∧
    (Journal.Advance J n).Start < (Journal.Advance J n).CurrBlockIndex ∧
    (Journal.Advance J n).CurrBlockIndex <
      (Journal.Advance J n).Start + (Journal.Advance J n).Size := by
  induction n generalizing J with
  | zero => exact ⟨rfl, rfl, hLow, hHigh⟩
  | succ n ih =>
    obtain ⟨e1, e2, h1, h2⟩ := GetNextBlockIndex_keeps_ring J hFit hLow hHigh
    have := ih J.GetNextBlockIndex.2.2 (by rw [e1, e2]; exact hFit) (by rw [e1]; exact h1)
      (by rw [e1, e2]; exact h2)
    simp only [Journal.Advance]
    rw [e1, e2] at this
    exact this

/-- C4: in a journal with `Size >= 2` and `Start < CurrBlockIndex < Start + Size`
(the sum being the 64-bit sum the code forms), `GetNextBlockIndex` succeeds and
returns the old `CurrBlockIndex`, which is neither `Start` nor `Start + Size`;
the new `CurrBlockIndex` is the old one plus 1, except that it is `Start + 1`
when the old one plus 1 reaches `Start + Size`; `Start` and `Size` are kept. -/
theorem GetNextBlockIndex_returns_current_and_advances (J : Journal)
    (hSize : 2 ≤ J.Size) (hLow : J.Start < J.CurrBlockIndex)
    (hHigh : J.CurrBlockIndex < add64 J.Start J.Size) :
    J.GetNextBlockIndex.1 = Error.Success ∧
    J.GetNextBlockIndex.2.1 = J.CurrBlockIndex ∧
    J.GetNextBlockIndex.2.1 ≠ J.Start ∧
    J.GetNextBlockIndex.2.1 ≠ add64 J.Start J.Size ∧
    J.GetNextBlockIndex.2.2.CurrBlockIndex =
      (if J.CurrBlockIndex + 1 = add64 J.Start J.Size then J.Start + 1
       else J.CurrBlockIndex + 1) ∧
    J.GetNextBlockIndex.2.2.Start = J.Start ∧
    J.GetNextBlockIndex.2.2.Size = J.Size := by
  rw [GetNextBlockIndex_eq J hLow hHigh]
  refine ⟨rfl, rfl, ?_, ?_, rfl, rfl, rfl⟩ <;> simp only <;> omega

/-- Witness for C4: the example journal (`Start = 1`, `Size = 16`,
`CurrBlockIndex = 2`) returns index 2 and moves on to 3. -/
theorem GetNextBlockIndex_returns_current_and_advances_witness :
    ExampleJournal.GetNextBlockIndex.2.1 = 2 ∧
    ExampleJournal.GetNextBlockIndex.2.2.CurrBlockIndex = 3 := by
  have h := GetNextBlockIndex_returns_current_and_advances ExampleJournal
    (by decide) (by decide) (by decide)
  exact ⟨h.2.1, by rw [h.2.2.2.2.1]; decide⟩

/-- C3: after a successful `Load`, provided `Start + Size` does not overflow 64
bits, `Start < CurrBlockIndex < Start + Size` holds at once (`n = 0`) and after
any number `n` of subsequent `GetNextBlockIndex` calls, which leave `Start` and
`Size` as loaded. -/
theorem Load_then_GetNextBlockIndex_keep_ring_invariant (env : Env) (J : Journal)
    (dev : Device) (start : Nat) (o : LoadOutcome)
    (hLoad : (Journal.Load env J dev start o).1 = Error.Success)
    (hFit : (Journal.Load env J dev start o).2.Start +
      (Journal.Load env J dev start o).2.Size < 2 ^ 64) (n : Nat) :
    (Journal.Advance (Journal.Load env J dev start o).2 n).Start =
      (Journal.Load env J dev start o).2.Start ∧
    (Journal.Advance (Journal.Load env J dev start o).2 n).Size =
      (Journal.Load env J dev start o).2.Size ∧
    (Journal.Advance (Journal.Load env J dev start o).2 n).Start <
      (Journal.Advance (Journal.Load env J dev start o).2 n).CurrBlockIndex ∧
    (Journal.Advance (Journal.Load env J dev start o).2 n).CurrBlockIndex <
      (Journal.Advance (Journal.Load env J dev start o).2 n).Start +
      (Journal.Advance (Journal.Load env J dev start o).2 n).Size := by
  obtain ⟨hStart, hSize, hCurr, -⟩ := Load_success env J dev start o hLoad
  have hc : add64 start 1 = start + 1 := add64_eq_of_lt (by omega)
  have h0 : (Journal.Load env J dev start o).2.Start <
      (Journal.Load env J dev start o).2.CurrBlockIndex ∧
      (Journal.Load env J dev start o).2.CurrBlockIndex <
      (Journal.Load env J dev start o).2.Start + (Journal.Load env J dev start o).2.Size := by
    rw [hCurr, hc, hStart]
    omega
  exact Advance_keeps_ring _ n hFit h0.1 h0.2

set_option maxRecDepth 100000 in
/-- Witness for C3: `Load` of the example device succeeds, and after 20
allocations the next index still lies strictly inside the ring. -/
theorem Load_then_GetNextBlockIndex_keep_ring_invariant_witness :
    (Journal.Load ExampleEnv (Journal.Create 0) ExampleDevice 1 LoadOutcome.AllOk).1
      = Error.Success ∧
    (Journal.Advance (Journal.Load ExampleEnv (Journal.Create 0) ExampleDevice 1
      LoadOutcome.AllOk).2 20).Start <
    (Journal.Advance (Journal.Load ExampleEnv (Journal.Create 0) ExampleDevice 1
      LoadOutcome.AllOk).2 20).CurrBlockIndex :=
  ⟨by decide,
   (Load_then_GetNextBlockIndex_keep_ring_invariant ExampleEnv (Journal.Create 0)
      ExampleDevice 1 LoadOutcome.AllOk (by decide) (by decide) 20).2.2.1⟩

/-! ## `Transaction::Write` -/

theorem PageRead_length (page : List Nat) (len off : Nat) :
    (PageRead page len off).length = min len (page.length - off) := by
  simp [PageRead]

/-- One iteration of the loop of `Write`, unfolded. -/
theorem WriteLoop_succ (env : Env) (txId : Nat) (page : List Nat) (alloc : Nat → Bool)
    (fuel off position k : Nat) (acc : List JournalTxBlock) (hlt : off < page.length) :
    Transaction.WriteLoop env txId page alloc (fuel + 1) off position k acc =
      if alloc (2 * k) = false then some (Error.NoMemory, acc)
      else if alloc (2 * k + 1) = false then some (Error.NoMemory, acc)
      else Transaction.WriteLoop env txId page alloc fuel
        (off + (PageRead page env.DataCapacity off).length)
        (add64 position (PageRead page env.DataCapacity off).length) (k + 1)
        (acc ++ [Transaction.DataBlockAt env txId page off position]) := by
  rw [Transaction.WriteLoop, if_pos hlt]
  cases h1 : alloc (2 * k) <;> cases h2 : alloc (2 * k + 1) <;>
    simp [Transaction.CreateTxBlock, Transaction.DataBlockAt]

/-- The loop of `Write` has ended when the whole page has been consumed. -/
theorem WriteLoop_done (env : Env) (txId : Nat) (page : List Nat) (alloc : Nat → Bool)
    (fuel off position k : Nat) (acc : List JournalTxBlock) (hge : ¬ off < page.length) :
    Transaction.WriteLoop env txId page alloc fuel off position k acc =
      some (Error.Success, acc) := by
  cases fuel <;> simp [Transaction.WriteLoop, hge]

/-- The loop of `Write` ends with `Success` or `NoMemory` only. -/
theorem WriteLoop_error_kinds (env : Env) (txId : Nat) (page : List Nat) (alloc : Nat → Bool)
    (fuel off position k : Nat) (acc out : List JournalTxBlock) (err : Error)
    (h : Transaction.WriteLoop env txId page alloc fuel off position k acc = some (err, out)) :
    err = Error.Success ∨ err = Error.NoMemory := by
  induction fuel generalizing off position k acc with
  | zero =>
    simp only [Transaction.WriteLoop] at h
    split_ifs at h
    simp only [Option.some.injEq, Prod.mk.injEq] at h
    exact Or.inl h.1.symm
  | succ fuel ih =>
    by_cases hlt : off < page.length
    · rw [WriteLoop_succ _ _ _ _ _ _ _ _ _ hlt] at h
      split_ifs at h
      · simp only [Option.some.injEq, Prod.mk.injEq] at h
        exact Or.inr h.1.symm
      · simp only [Option.some.injEq, Prod.mk.injEq] at h
        exact Or.inr h.1.symm
      · exact ih _ _ _ _ h
    · rw [WriteLoop_done _ _ _ _ _ _ _ _ _ hlt] at h
      simp only [Option.some.injEq, Prod.mk.injEq] at h
      exact Or.inl h.1.symm

/-- With a data capacity of zero the loop of `Write` never ends on a page that
still has bytes to copy. -/
theorem WriteLoop_zero_capacity (env : Env) (txId : Nat) (page : List Nat)
    (alloc : Nat → Bool) (hD : env.DataCapacity = 0)
    (fuel off position k : Nat) (acc out : List JournalTxBlock) (hlt : off < page.length) :
    Transaction.WriteLoop env txId page alloc fuel off position k acc
      ≠ some (Error.Success, out) := by
  induction fuel generalizing position k acc with
  | zero => simp [Transaction.WriteLoop, hlt]
  | succ fuel ih =>
    rw [WriteLoop_succ _ _ _ _ _ _ _ _ _ hlt]
    have hr : (PageRead page env.DataCapacity off).length = 0 := by
      rw [PageRead_length, hD]; simp
    rw [hr]
    split_ifs
    · simp
    · simp
    · exact ih _ _ _

/-- When every allocation succeeds and the data capacity is positive, enough
fuel lets the loop of `Write` end with `Success`. -/
theorem WriteLoop_total (env : Env) (txId : Nat) (page : List Nat) (alloc : Nat → Bool)
    (hD : 0 < env.DataCapacity) (hA : ∀ i, alloc i = true)
    (fuel off position k : Nat) (acc : List JournalTxBlock) (hf : page.length - off ≤ fuel) :
    ∃ out, Transaction.WriteLoop env txId page alloc fuel off position k acc
      = some (Error.Success, out) := by
  induction fuel generalizing off position k acc with
  | zero => exact ⟨acc, WriteLoop_done _ _ _ _ _ _ _ _ _ (by omega)⟩
  | succ fuel ih =>
    by_cases hlt : off < page.length
    · rw [WriteLoop_succ _ _ _ _ _ _ _ _ _ hlt, hA, hA]
      simp only [Bool.true_eq_false, if_false]
      apply ih
      rw [PageRead_length]
      have : 0 < min env.DataCapacity (page.length - off) := by
        rw [Nat.lt_min]; omega
      omega
    · exact ⟨acc, WriteLoop_done _ _ _ _ _ _ _ _ _ hlt⟩

/-- The bytes one iteration copies, followed by the rest of the page. -/
theorem PageRead_append_drop (page : List Nat) (len off : Nat) :
    PageRead page len off ++ page.drop (off + (PageRead page len off).length) =
      page.drop off := by
  rw [← List.drop_drop, PageRead_length]
  unfold PageRead
  by_cases h : len ≤ (page.drop off).length
  · have e : min len (page.length - off) = len := by
      rw [List.length_drop] at h; omega
    rw [e, List.take_append_drop]
  · have e : min len (page.length - off) = (page.drop off).length := by
      rw [List.length_drop] at h ⊢; omega
    rw [e, List.drop_length, List.append_nil, List.take_of_length_le (by omega)]

/-- Number of blocks: one more chunk of at most `d` bytes. -/
theorem ceil_div_step (x d : Nat) (hd : 0 < d) (hx : 0 < x) :
    (x + d - 1) / d = (x - min d x + d - 1) / d + 1 := by
  by_cases h : d ≤ x
  · have e : min d x = d := by omega
    rw [e, ← Nat.add_div_right _ hd]
    congr 1
    omega
  · have e : min d x = x := by omega
    rw [e]
    have h1 : (x - x + d - 1) / d = 0 := Nat.div_eq_of_lt (by omega)
    have h2 : (x + d - 1) / d = 1 :=
      Nat.div_eq_of_lt_le (by omega) (by omega)
    rw [h1, h2]

/-- The blocks a successful run of the loop of `Write` appends. -/
theorem WriteLoop_split (env : Env) (txId : Nat) (page : List Nat) (alloc : Nat → Bool)
    (hD : 0 < env.DataCapacity)
    (fuel off position k : Nat) (acc out : List JournalTxBlock)
    (h : Transaction.WriteLoop env txId page alloc fuel off position k acc
      = some (Error.Success, out)) :
    ∃ bs : List JournalTxBlock, out = acc ++ bs ∧
      (∀ b ∈ bs, b.TxId = txId ∧ b.BlockType = env.JournalBlockTypeTxData ∧
        0 < b.DataSize ∧ b.DataSize ≤ env.DataCapacity) ∧
      (bs.map JournalTxBlock.DataSize).sum = page.length - off ∧
      (bs.map JournalTxBlock.Payload).flatten = page.drop off ∧
      (∀ b ∈ bs.head?, b.Position = position) ∧
      List.Chain' (fun a b => b.Position = add64 a.Position a.DataSize) bs ∧
      (position + (page.length - off) ≤ 2 ^ 64 →
        List.Chain' (fun a b => b.Position = a.Position + a.DataSize) bs) ∧
      bs.length = (page.length - off + env.DataCapacity - 1) / env.DataCapacity := by
  induction fuel generalizing off position k acc with
  | zero =>
    simp only [Transaction.WriteLoop] at h
    split_ifs at h with hlt
    simp only [Option.some.injEq, Prod.mk.injEq, true_and] at h
    refine ⟨[], by simp [h], by simp, ?_, ?_, by simp, by simp, by simp, ?_⟩
    · simp; omega
    · rw [List.drop_eq_nil_of_le (Nat.le_of_not_lt hlt)]; rfl
    · have e : page.length - off = 0 := by omega
      rw [e, List.length_nil]
      exact (Nat.div_eq_of_lt (by omega)).symm
  | succ fuel ih =>
    by_cases hlt : off < page.length
    · rw [WriteLoop_succ _ _ _ _ _ _ _ _ _ hlt] at h
      split_ifs at h with h1 h2
      · simp at h
      · simp at h
      · obtain ⟨bs, hout, hall, hsum, hpay, hhead, hchain, hexact, hlen⟩ := ih _ _ _ _ h
        have hr : (PageRead page env.DataCapacity off).length =
            min env.DataCapacity (page.length - off) := PageRead_length _ _ _
        have hrpos : 0 < (PageRead page env.DataCapacity off).length := by
          rw [hr, Nat.lt_min]; omega
        have hrle : (PageRead page env.DataCapacity off).length ≤ page.length - off := by
          rw [hr]; exact Nat.min_le_right _ _
        have hrD : (PageRead page env.DataCapacity off).length ≤ env.DataCapacity := by
          rw [hr]; exact Nat.min_le_left _ _
        have hnil : ¬ off + (PageRead page env.DataCapacity off).length < page.length →
            bs = [] := by
          intro hn
          have e : page.length - (off + (PageRead page env.DataCapacity off).length) = 0 := by
            omega
          rw [e] at hlen
          have : bs.length = 0 := by
            rw [hlen]; exact Nat.div_eq_of_lt (by omega)
          exact List.length_eq_zero.mp this
        refine ⟨Transaction.DataBlockAt env txId page off position :: bs, ?_, ?_, ?_, ?_,
          ?_, ?_, ?_, ?_⟩
        · rw [hout, List.append_assoc]; rfl
        · intro b hb
          rcases List.mem_cons.mp hb with rfl | hb
          · exact ⟨rfl, rfl, hrpos, hrD⟩
          · exact hall b hb
        · rw [List.map_cons, List.sum_cons, hsum]
          show (PageRead page env.DataCapacity off).length + _ = _
          omega
        · rw [List.map_cons, List.flatten_cons, hpay]
          have : (Transaction.DataBlockAt env txId page off position).Payload =
              PageRead page env.DataCapacity off := by
            simp [JournalTxBlock.Payload, Transaction.DataBlockAt]
          rw [this, PageRead_append_drop]
        · intro b hb
          simp only [List.head?_cons, Option.mem_def, Option.some.injEq] at hb
          rw [← hb]; rfl
        · rw [List.chain'_cons']
          exact ⟨fun y hy => hhead y hy, hchain⟩
        · intro hfit
          rw [List.chain'_cons']
          by_cases hmore : off + (PageRead page env.DataCapacity off).length < page.length
          · have e : add64 position (PageRead page env.DataCapacity off).length =
                position + (PageRead page env.DataCapacity off).length :=
              add64_eq_of_lt (by omega)
            refine ⟨fun y hy => ?_, hexact (by rw [e]; omega)⟩
            rw [hhead y hy, e]; rfl
          · rw [hnil hmore]
            exact ⟨by simp, List.chain'_nil⟩
        · rw [List.length_cons, hlen, hr]
          have := ceil_div_step (page.length - off) env.DataCapacity hD (by omega)
          rw [this]
          congr 2
          omega
    · rw [WriteLoop_done _ _ _ _ _ _ _ _ _ hlt] at h
      simp only [Option.some.injEq, Prod.mk.injEq, true_and] at h
      refine ⟨[], by simp [h], by simp, ?_, ?_, by simp, by simp, by simp, ?_⟩
      · simp; omega
      · rw [List.drop_eq_nil_of_le (Nat.le_of_not_lt hlt)]; rfl
      · have e : page.length - off = 0 := by omega
        rw [e, List.length_nil]
        exact (Nat.div_eq_of_lt (by omega)).symm

theorem CheckIntersection_iff (a b c d : Nat) :
    CheckIntersection a b c d = true ↔ (a < b ∧ c < d ∧ c < b ∧ a < d) := by
  unfold CheckIntersection CheckRange
  split_ifs <;> simp_all

/-- Two half-open ranges share a point exactly when both are non-empty and each
starts before the other ends. -/
theorem ranges_meet_iff (a b c d : Nat) :
    (∃ x, a ≤ x ∧ x < b ∧ c ≤ x ∧ x < d) ↔ (a < b ∧ c < d ∧ c < b ∧ a < d) := by
  constructor
  · rintro ⟨x, h1, h2, h3, h4⟩
    omega
  · rintro ⟨h1, h2, h3, h4⟩
    exact ⟨max a c, by omega, by omega, by omega, by omega⟩

/-- The journal byte range as `Write` computes it, when nothing overflows. -/
theorem journal_range_no_overflow (J : Journal) (bs : Nat)
    (h : (J.Start + J.Size) * bs < 2 ^ 64) :
    mul64 J.Start bs = J.Start * bs ∧
    mul64 (add64 J.Start J.Size) bs = (J.Start + J.Size) * bs := by
  have hle : J.Start * bs ≤ (J.Start + J.Size) * bs :=
    Nat.mul_le_mul_right _ (Nat.le_add_right _ _)
  refine ⟨Nat.mod_eq_of_lt (by omega), ?_⟩
  rcases Nat.eq_zero_or_pos bs with h0 | hpos
  · subst h0; simp [mul64]
  · have : J.Start + J.Size ≤ (J.Start + J.Size) * bs := Nat.le_mul_of_pos_right _ hpos
    rw [add64_eq_of_lt (by omega)]
    exact Nat.mod_eq_of_lt h

/-- What a successful `Write` went through. -/
theorem Write_success (env : Env) (J : Journal) (tx : Transaction) (page : List Nat)
    (position : Nat) (alloc : Nat → Bool) (tx1 : Transaction)
    (h : Transaction.Write env J tx page position alloc = some (Error.Success, tx1)) :
    tx.State = TxState.New ∧ ¬ position < page.length ∧
    ∃ bl, Transaction.WriteLoop env tx.TxId page alloc page.length 0 position 0 []
        = some (Error.Success, bl) ∧
      tx1 = { tx with DataBlockList := tx.DataBlockList ++ bl } := by
  unfold Transaction.Write at h
  split_ifs at h with h1 h2 h3
  · simp at h
  · simp at h
  · simp at h
  · split at h
    · simp at h
    · rename_i err bl hloop
      split_ifs at h with h4
      · simp only [Option.some.injEq, Prod.mk.injEq] at h
        rw [h.1] at h4
        simp [Error.Ok] at h4
      · simp only [Option.some.injEq, Prod.mk.injEq, true_and] at h
        have he : err = Error.Success := by
          simpa [Error.Ok] using h4
        subst he
        exact ⟨by simpa using h1, h2, bl, hloop, h.symm⟩

/-- A `Write` that returns an error returns the transaction it was given. -/
theorem Write_error_stages_nothing_aux (env : Env) (J : Journal) (tx : Transaction)
    (page : List Nat) (position : Nat) (alloc : Nat → Bool) (err : Error) (tx1 : Transaction)
    (h : Transaction.Write env J tx page position alloc = some (err, tx1))
    (hErr : err ≠ Error.Success) : tx1 = tx := by
  unfold Transaction.Write at h
  split_ifs at h with h1 h2 h3
  · simp only [Option.some.injEq, Prod.mk.injEq] at h
    exact h.2.symm
  · simp only [Option.some.injEq, Prod.mk.injEq] at h
    exact h.2.symm
  · simp only [Option.some.injEq, Prod.mk.injEq] at h
    exact h.2.symm
  · split at h
    · simp at h
    · split_ifs at h with h4
      · simp only [Option.some.injEq, Prod.mk.injEq] at h
        exact h.2.symm
      · simp only [Option.some.injEq, Prod.mk.injEq] at h
        exact absurd h.1.symm hErr

/-- C6: a `Write` that returns an error (which is then `InvalidState`,
`Overlap` or `NoMemory`) leaves the whole transaction, hence its data block
list, state and commit result, exactly as it was. -/
theorem Write_error_stages_nothing (env : Env) (J : Journal) (tx : Transaction)
    (page : List Nat) (position : Nat) (alloc : Nat → Bool) (err : Error) (tx1 : Transaction)
    (h : Transaction.Write env J tx page position alloc = some (err, tx1))
    (hErr : err ≠ Error.Success) :
    tx1 = tx ∧ tx1.DataBlockList = tx.DataBlockList ∧ tx1.State = tx.State ∧
    tx1.CommitResult = tx.CommitResult ∧
    (err = Error.InvalidState ∨ err = Error.Overlap ∨ err = Error.NoMemory) := by
  have key : tx1 = tx ∧
      (err = Error.InvalidState ∨ err = Error.Overlap ∨ err = Error.NoMemory) := by
    unfold Transaction.Write at h
    split_ifs at h with h1 h2 h3
    · simp only [Option.some.injEq, Prod.mk.injEq] at h
      exact ⟨h.2.symm, Or.inl h.1.symm⟩
    · simp only [Option.some.injEq, Prod.mk.injEq] at h
      exact ⟨h.2.symm, Or.inr (Or.inl h.1.symm)⟩
    · simp only [Option.some.injEq, Prod.mk.injEq] at h
      exact ⟨h.2.symm, Or.inr (Or.inl h.1.symm)⟩
    · split at h
      · simp at h
      · rename_i err1 bl hloop
        split_ifs at h with h4
        · simp only [Option.some.injEq, Prod.mk.injEq] at h
          refine ⟨h.2.symm, Or.inr (Or.inr ?_)⟩
          rcases WriteLoop_error_kinds _ _ _ _ _ _ _ _ _ _ _ hloop with e | e
          · rw [← h.1, e] at hErr
            exact absurd rfl hErr
          · rw [← h.1, e]
        · simp only [Option.some.injEq, Prod.mk.injEq] at h
          exact absurd h.1.symm hErr
  obtain ⟨e, hk⟩ := key
  subst e
  exact ⟨rfl, rfl, rfl, rfl, hk⟩


/-- A `Write` in which the allocation of the second block fails returns
`NoMemory`. -/
theorem Write_NoMemory_second_block (env : Env) (J : Journal) (tx : Transaction)
    (page : List Nat) (position : Nat) (alloc : Nat → Bool)
    (hNew : tx.State = TxState.New) (hpos : ¬ position < page.length)
    (hci : CheckIntersection position (add64 position page.length)
      (mul64 J.Start env.BlockSize) (mul64 (add64 J.Start J.Size) env.BlockSize) = false)
    (hD : 0 < env.DataCapacity) (hlen : env.DataCapacity < page.length)
    (a0 : alloc 0 = true) (a1 : alloc 1 = true) (a2 : alloc 2 = false) :
    Transaction.Write env J tx page position alloc = some (Error.NoMemory, tx) := by
  have hr : (PageRead page env.DataCapacity 0).length = env.DataCapacity := by
    rw [PageRead_length]; omega
  have e : ∃ bl, Transaction.WriteLoop env tx.TxId page alloc page.length 0 position 0 []
      = some (Error.NoMemory, bl) := by
    obtain ⟨m, hm⟩ : ∃ m, page.length = m + 2 := ⟨page.length - 2, by omega⟩
    have h1 := WriteLoop_succ env tx.TxId page alloc (m + 1) 0 position 0 [] (by omega)
    have h2 := WriteLoop_succ env tx.TxId page alloc m
      (0 + (PageRead page env.DataCapacity 0).length)
      (add64 position (PageRead page env.DataCapacity 0).length) (0 + 1)
      ([] ++ [Transaction.DataBlockAt env tx.TxId page 0 position]) (by rw [hr]; omega)
    rw [show 2 * (0 + 1) = 2 from rfl, a2, if_pos rfl] at h2
    rw [show 2 * 0 = 0 from rfl, show 2 * 0 + 1 = 1 from rfl, a0, a1,
      if_neg (by simp), if_neg (by simp), h2] at h1
    exact ⟨_, by rw [hm]; exact h1⟩
  obtain ⟨bl, hbl⟩ := e
  unfold Transaction.Write
  rw [if_neg (by simp [hNew]), if_neg hpos, if_neg (by simp [hci]), hbl]
  simp [Error.Ok]

/-- Witness for C6: the second block of a 4096-byte page cannot be allocated;
`Write` returns `NoMemory` and the transaction is as before. -/
theorem Write_error_stages_nothing_witness :
    Transaction.Write ExampleEnv ExampleJournal ExampleTx ExamplePage 69632
      (fun i => decide (i < 2)) = some (Error.NoMemory, ExampleTx) ∧
    ExampleTx.DataBlockList = [] := by
  have hlen : ExamplePage.length = 4096 := List.length_replicate _ _
  have h : Transaction.Write ExampleEnv ExampleJournal ExampleTx ExamplePage 69632
      (fun i => decide (i < 2)) = some (Error.NoMemory, ExampleTx) :=
    Write_NoMemory_second_block ExampleEnv ExampleJournal ExampleTx ExamplePage 69632 _ rfl
      (by rw [hlen]; decide) (by rw [hlen]; decide) (by decide) (by rw [hlen]; decide)
      (by decide) (by decide) (by decide)
  exact ⟨h, (Write_error_stages_nothing ExampleEnv ExampleJournal ExampleTx ExamplePage 69632
    (fun i => decide (i < 2)) Error.NoMemory ExampleTx h (by decide)).2.1⟩

/-- A `Write` that passes the checks, with a positive data capacity and every
allocation succeeding, returns `Success`. -/
theorem Write_total (env : Env) (J : Journal) (tx : Transaction)
    (page : List Nat) (position : Nat) (alloc : Nat → Bool)
    (hNew : tx.State = TxState.New) (hpos : ¬ position < page.length)
    (hci : CheckIntersection position (add64 position page.length)
      (mul64 J.Start env.BlockSize) (mul64 (add64 J.Start J.Size) env.BlockSize) = false)
    (hD : 0 < env.DataCapacity) (hA : ∀ i, alloc i = true) :
    ∃ tx1, Transaction.Write env J tx page position alloc = some (Error.Success, tx1) := by
  obtain ⟨out, hout⟩ := WriteLoop_total env tx.TxId page alloc hD hA page.length 0 position 0 []
    (by omega)
  unfold Transaction.Write
  rw [if_neg (by simp [hNew]), if_neg hpos, if_neg (by simp [hci]), hout]
  exact ⟨{ tx with DataBlockList := tx.DataBlockList ++ out }, by simp [Error.Ok]⟩

/-- C7: a successful `Write` of a page of `s > 0` bytes appends, after the blocks
already staged and changing nothing else, TxData blocks `b_1 .. b_n` of the
transaction with `n = ceil (s / D)`, `b_1.Position = position`,
`b_(i+1).Position = b_i.Position + b_i.DataSize` as a 64-bit sum (the plain sum
when `position + s <= 2 ^ 64`), `0 < b_i.DataSize <= D`, data sizes that add
up to `s`, and payloads whose concatenation is the page. -/
theorem Write_success_appends_split (env : Env) (J : Journal) (tx : Transaction)
    (page : List Nat) (position : Nat) (alloc : Nat → Bool) (tx1 : Transaction)
    (hs : 0 < page.length)
    (h : Transaction.Write env J tx page position alloc = some (Error.Success, tx1)) :
    ∃ bs : List JournalTxBlock,
      tx1 = { tx with DataBlockList := tx.DataBlockList ++ bs } ∧
      bs.length = (page.length + env.DataCapacity - 1) / env.DataCapacity ∧
      (∀ b ∈ bs, b.TxId = tx.TxId ∧ b.BlockType = env.JournalBlockTypeTxData ∧
        0 < b.DataSize ∧ b.DataSize ≤ env.DataCapacity) ∧
      (∀ b ∈ bs.head?, b.Position = position) ∧
      List.Chain' (fun a b => b.Position = add64 a.Position a.DataSize) bs ∧
      (position + page.length ≤ 2 ^ 64 →
        List.Chain' (fun a b => b.Position = a.Position + a.DataSize) bs) ∧
      (bs.map JournalTxBlock.DataSize).sum = page.length ∧
      (bs.map JournalTxBlock.Payload).flatten = page := by
  obtain ⟨-, -, bl, hloop, htx⟩ := Write_success env J tx page position alloc tx1 h
  have hD : 0 < env.DataCapacity := by
    rcases Nat.eq_zero_or_pos env.DataCapacity with h0 | hpos
    · exact absurd hloop (WriteLoop_zero_capacity env tx.TxId page alloc h0 _ 0 _ _ _ _ hs)
    · exact hpos
  obtain ⟨bs, hout, hall, hsum, hpay, hhead, hchain, hexact, hlen⟩ :=
    WriteLoop_split env tx.TxId page alloc hD _ _ _ _ _ _ hloop
  rw [List.nil_append] at hout
  subst hout
  exact ⟨bl, htx, hlen, hall, hhead, hchain, hexact, hsum, hpay⟩

/-- Witness for C7: writing the 4096-byte example page at position 69632
succeeds and appends two blocks to the empty list of the example transaction. -/
theorem Write_success_appends_split_witness :
    ∃ tx1, Transaction.Write ExampleEnv ExampleJournal ExampleTx ExamplePage 69632
        (fun _ => true) = some (Error.Success, tx1) ∧
      tx1.DataBlockList.length = 2 := by
  have hlen : ExamplePage.length = 4096 := List.length_replicate _ _
  obtain ⟨tx1, h⟩ := Write_total ExampleEnv ExampleJournal ExampleTx ExamplePage 69632
    (fun _ => true) rfl (by rw [hlen]; decide) (by rw [hlen]; decide) (by decide)
    (fun _ => rfl)
  obtain ⟨bs, htx, hn, -⟩ := Write_success_appends_split ExampleEnv ExampleJournal ExampleTx
    ExamplePage 69632 (fun _ => true) tx1 (by rw [hlen]; decide) h
  refine ⟨tx1, h, ?_⟩
  rw [hlen] at hn
  rw [htx]
  show ([] ++ bs).length = 2
  rw [List.nil_append, hn]
  decide

/-- C8: on a transaction whose state is not `New`, `Write` and `Commit` both
return `InvalidState` and return the transaction and the journal (hence its
pending queue) unchanged. -/
theorem Write_and_Commit_reject_when_not_New (env : Env) (J : Journal) (self : Nat)
    (tx : Transaction) (page : List Nat) (position : Nat) (alloc : Nat → Bool)
    (addTail : Bool) (hState : tx.State ≠ TxState.New) :
    Transaction.Write env J tx page position alloc = some (Error.InvalidState, tx) ∧
    Transaction.Commit J self tx addTail = (CommitStep.Returned Error.InvalidState, J, tx) := by
  constructor
  · unfold Transaction.Write
    rw [if_pos hState]
  · unfold Transaction.Commit
    rw [if_pos hState]

/-- Witness for C8: a committed transaction rejects `Write` and `Commit`. -/
theorem Write_and_Commit_reject_when_not_New_witness :
    Transaction.Write ExampleEnv ExampleJournal { ExampleTx with State := TxState.Commited }
      ExamplePage 69632 (fun _ => true)
      = some (Error.InvalidState, { ExampleTx with State := TxState.Commited }) ∧
    Transaction.Commit ExampleJournal 0 { ExampleTx with State := TxState.Commited } true
      = (CommitStep.Returned Error.InvalidState, ExampleJournal,
         { ExampleTx with State := TxState.Commited }) :=
  Write_and_Commit_reject_when_not_New ExampleEnv ExampleJournal 0
    { ExampleTx with State := TxState.Commited } ExamplePage 69632 (fun _ => true) true
    (by decide)

/-- C5: for a transaction in state `New`, when `p + s` and `(Start + Size) * bs`
do not overflow, `Write` returns `Overlap` exactly when `p < s` or the byte range
`[p, p + s)` meets the journal range `[Start * bs, (Start + Size) * bs)`.  With
`Start = 1`, `Size = 16`, `bs = s = 4096`: position 4096 gives `Overlap`,
position 0 gives `Overlap`, position 69632 gives `Success` (the data capacity
being positive and every allocation succeeding). -/
theorem Write_Overlap_iff (env : Env) (J : Journal) (tx : Transaction)
    (page : List Nat) (position : Nat) (alloc : Nat → Bool)
    (hNew : tx.State = TxState.New)
    (hFitP : position + page.length < 2 ^ 64)
    (hFitJ : (J.Start + J.Size) * env.BlockSize < 2 ^ 64) :
    ((∃ tx1, Transaction.Write env J tx page position alloc = some (Error.Overlap, tx1)) ↔
      (position < page.length ∨
       ∃ x, position ≤ x ∧ x < position + page.length ∧
         J.Start * env.BlockSize ≤ x ∧ x < (J.Start + J.Size) * env.BlockSize)) ∧
    (J.Start = 1 → J.Size = 16 → env.BlockSize = 4096 → page.length = 4096 →
      (position = 4096 →
        Transaction.Write env J tx page position alloc = some (Error.Overlap, tx)) ∧
      (position = 0 →
        Transaction.Write env J tx page position alloc = some (Error.Overlap, tx)) ∧
      (position = 69632 → 0 < env.DataCapacity → (∀ i, alloc i = true) →
        ∃ tx1, Transaction.Write env J tx page position alloc = some (Error.Success, tx1))) := by
  obtain ⟨e1, e2⟩ := journal_range_no_overflow J env.BlockSize hFitJ
  have e3 : add64 position page.length = position + page.length := add64_eq_of_lt hFitP
  have hci : CheckIntersection position (add64 position page.length)
      (mul64 J.Start env.BlockSize) (mul64 (add64 J.Start J.Size) env.BlockSize) = true ↔
      ∃ x, position ≤ x ∧ x < position + page.length ∧
        J.Start * env.BlockSize ≤ x ∧ x < (J.Start + J.Size) * env.BlockSize := by
    rw [e1, e2, e3, CheckIntersection_iff, ranges_meet_iff]
  have hiff : (∃ tx1, Transaction.Write env J tx page position alloc
        = some (Error.Overlap, tx1)) ↔
      (position < page.length ∨
       ∃ x, position ≤ x ∧ x < position + page.length ∧
         J.Start * env.BlockSize ≤ x ∧ x < (J.Start + J.Size) * env.BlockSize) := by
    rw [← hci]
    unfold Transaction.Write
    rw [if_neg (by simp [hNew])]
    by_cases h1 : position < page.length
    · rw [if_pos h1]
      exact ⟨fun _ => Or.inl h1, fun _ => ⟨tx, rfl⟩⟩
    · rw [if_neg h1]
      by_cases h2 : CheckIntersection position (add64 position page.length)
          (mul64 J.Start env.BlockSize) (mul64 (add64 J.Start J.Size) env.BlockSize) = true
      · rw [if_pos h2]
        exact ⟨fun _ => Or.inr h2, fun _ => ⟨tx, rfl⟩⟩
      · rw [if_neg h2]
        constructor
        · rintro ⟨tx1, h⟩
          exfalso
          split at h
          · simp at h
          · rename_i err bl hloop
            rcases WriteLoop_error_kinds _ _ _ _ _ _ _ _ _ _ _ hloop with e | e <;>
              subst e <;> simp [Error.Ok] at h
        · rintro (h | h)
          · exact absurd h h1
          · exact absurd h h2
  refine ⟨hiff, fun hS hZ hB hL => ⟨fun hp => ?_, fun hp => ?_, fun hp hD hA => ?_⟩⟩
  · have hx : ∃ tx1, Transaction.Write env J tx page position alloc
        = some (Error.Overlap, tx1) := by
      rw [hiff, hS, hZ, hB, hL, hp]
      exact Or.inr ⟨4096, by omega, by omega, by omega, by omega⟩
    obtain ⟨tx1, h⟩ := hx
    have := (Write_error_stages_nothing_aux env J tx page position alloc _ tx1 h (by decide))
    rw [h, this]
  · have hx : ∃ tx1, Transaction.Write env J tx page position alloc
        = some (Error.Overlap, tx1) := by
      rw [hiff, hL, hp]
      exact Or.inl (by omega)
    obtain ⟨tx1, h⟩ := hx
    have := (Write_error_stages_nothing_aux env J tx page position alloc _ tx1 h (by decide))
    rw [h, this]
  · apply Write_total env J tx page position alloc hNew (by omega) _ hD hA
    rw [Bool.eq_false_iff]
    intro hc
    rw [hci, hS, hZ, hB, hL, hp] at hc
    obtain ⟨x, h1, h2, h3, h4⟩ := hc
    omega

/-- Witness for C5: in the example journal (`Start = 1`, `Size = 16`, 4096-byte
blocks) the example page is rejected at position 4096. -/
theorem Write_Overlap_iff_witness :
    Transaction.Write ExampleEnv ExampleJournal ExampleTx ExamplePage 4096 (fun _ => true)
      = some (Error.Overlap, ExampleTx) := by
  have hlen : ExamplePage.length = 4096 := List.length_replicate _ _
  exact ((Write_Overlap_iff ExampleEnv ExampleJournal ExampleTx ExamplePage 4096
    (fun _ => true) rfl (by rw [hlen]; decide) (by decide)).2 rfl rfl rfl hlen).1 rfl

/-! ## `Transaction::WriteTx` -/

/-- A `WriteTxBlock` that succeeds had an index strictly inside the ring, a
block that `WriteTxBlockPrepare` accepts, and appended exactly one bio. -/
theorem WriteTxBlock_success (env : Env) (J : Journal) (index : Nat) (block : JournalTxBlock)
    (bioList : List Bio) (o : StageOutcome)
    (h : (J.WriteTxBlock env index block bioList o).1 = Error.Success) :
    J.Start < index ∧ index < add64 J.Start J.Size ∧
    (Journal.WriteTxBlockPrepare env block).1 = Error.Success ∧
    (J.WriteTxBlock env index block bioList o).2 =
      bioList ++ [{ Page := PageData.TxBlock (Journal.WriteTxBlockPrepare env block).2,
                    Position := mul64 index env.BlockSize, Write := true, Flush := false }] := by
  unfold Journal.WriteTxBlock at h ⊢
  by_cases h1 : index ≤ J.Start ∨ index ≥ add64 J.Start J.Size
  · rw [if_pos h1] at h
    exact Error.noConfusion h
  rw [if_neg h1] at h ⊢
  by_cases h2 : (!o.PageCreate.Ok) = true
  · rw [if_pos h2] at h
    simp only at h
    rw [h] at h2
    exact absurd h2 (by decide)
  rw [if_neg h2] at h ⊢
  by_cases h3 : min env.TxBlockSize env.PageSize ≠ env.PageSize
  · rw [if_pos h3] at h
    exact Error.noConfusion h
  rw [if_neg h3] at h ⊢
  rcases hp : Journal.WriteTxBlockPrepare env block with ⟨err, prepared⟩
  rw [hp] at h
  simp only at h ⊢
  by_cases h4 : (!err.Ok) = true
  · rw [if_pos h4] at h
    simp only at h
    rw [h] at h4
    exact absurd h4 (by decide)
  rw [if_neg h4] at h ⊢
  by_cases h5 : (!o.AddIo.Ok) = true
  · rw [if_pos h5] at h
    simp only at h
    rw [h] at h5
    exact absurd h5 (by decide)
  rw [if_neg h5]
  have he : err = Error.Success := by simpa [Error.Ok] using h4
  exact ⟨by omega, by omega, he, rfl⟩

/-- A failing `WriteTxBlock` does not return `Success`. -/
theorem WriteTxBlock_error (env : Env) (J : Journal) (index : Nat) (block : JournalTxBlock)
    (bioList : List Bio) (o : StageOutcome)
    (h : (!(J.WriteTxBlock env index block bioList o).1.Ok) = true) :
    (J.WriteTxBlock env index block bioList o).1 ≠ Error.Success := by
  intro e
  rw [e] at h
  simp [Error.Ok] at h


theorem GetNextBlockIndex_ok (J : Journal) : (!(J.GetNextBlockIndex).1.Ok) = false := by
  rw [(GetNextBlockIndex_frame J).1]; rfl

/-- One step of the loop over the data blocks, unfolded. -/
theorem WriteTxData_cons (env : Env) (io : Nat → StageOutcome) (block : JournalTxBlock)
    (rest : List JournalTxBlock) (k : Nat) (J : Journal) (bioList : List Bio) :
    Transaction.WriteTxData env io (block :: rest) k J bioList =
      if (!(J.GetNextBlockIndex.2.2.WriteTxBlock env J.GetNextBlockIndex.2.1 block bioList
            (io k)).1.Ok) = true then
        ((J.GetNextBlockIndex.2.2.WriteTxBlock env J.GetNextBlockIndex.2.1 block bioList
            (io k)).1, J.GetNextBlockIndex.2.2,
         (J.GetNextBlockIndex.2.2.WriteTxBlock env J.GetNextBlockIndex.2.1 block bioList
            (io k)).2)
      else
        Transaction.WriteTxData env io rest (k + 1) J.GetNextBlockIndex.2.2
          (J.GetNextBlockIndex.2.2.WriteTxBlock env J.GetNextBlockIndex.2.1 block bioList
            (io k)).2 := by
  rw [Transaction.WriteTxData]
  have h := GetNextBlockIndex_ok J
  rcases hg : J.GetNextBlockIndex with ⟨err, idx, J1⟩
  rw [hg] at h
  simp only at h ⊢
  rw [h]
  simp only [Bool.false_eq_true, if_false]

theorem WriteTxData_success (env : Env) (io : Nat → StageOutcome)
    (data : List JournalTxBlock) (k : Nat) (J : Journal) (bioList : List Bio)
    (h : (Transaction.WriteTxData env io data k J bioList).1 = Error.Success) :
    Transaction.WriteTxData env io data k J bioList =
      (Error.Success, Journal.Advance J data.length,
       bioList ++ ExpectedStaging env data J) ∧
    ∀ b ∈ data, (Journal.WriteTxBlockPrepare env b).1 = Error.Success := by
  induction data generalizing k J bioList with
  | nil => simp [Transaction.WriteTxData, Journal.Advance, ExpectedStaging]
  | cons block rest ih =>
    rw [WriteTxData_cons] at h ⊢
    by_cases hb : (!(J.GetNextBlockIndex.2.2.WriteTxBlock env J.GetNextBlockIndex.2.1 block
        bioList (io k)).1.Ok) = true
    · rw [if_pos hb] at h
      exact absurd h (WriteTxBlock_error _ _ _ _ _ _ hb)
    · rw [if_neg hb] at h ⊢
      have hs : (J.GetNextBlockIndex.2.2.WriteTxBlock env J.GetNextBlockIndex.2.1 block
          bioList (io k)).1 = Error.Success := by simpa [Error.Ok] using hb
      obtain ⟨-, -, hp, hbl⟩ := WriteTxBlock_success _ _ _ _ _ _ hs
      obtain ⟨e, hall⟩ := ih _ _ _ h
      rw [e, hbl]
      refine ⟨?_, ?_⟩
      · simp [Journal.Advance, ExpectedStaging]
      · intro b hb'
        rcases List.mem_cons.mp hb' with rfl | hb'
        · exact hp
        · exact hall b hb'

theorem Advance_succ_right (J : Journal) (n : Nat) :
    Journal.Advance J (n + 1) = (Journal.Advance J n).GetNextBlockIndex.2.2 := by
  induction n generalizing J with
  | zero => rfl
  | succ n ih =>
    rw [Journal.Advance, ih]
    rfl

theorem ExpectedStaging_append (env : Env) (l1 l2 : List JournalTxBlock) (J : Journal) :
    ExpectedStaging env (l1 ++ l2) J =
      ExpectedStaging env l1 J ++ ExpectedStaging env l2 (Journal.Advance J l1.length) := by
  induction l1 generalizing J with
  | nil => rfl
  | cons b rest ih =>
    rw [List.cons_append, ExpectedStaging, ExpectedStaging, ih, List.length_cons,
      Journal.Advance, List.cons_append]

theorem ExpectedStaging_length (env : Env) (l : List JournalTxBlock) (J : Journal) :
    (ExpectedStaging env l J).length = l.length := by
  induction l generalizing J with
  | nil => rfl
  | cons b rest ih => simp only [ExpectedStaging, List.length_cons, ih]

theorem WriteTxFail_fst (J : Journal) (self : Nat) (tx : Transaction) (err : Error)
    (bioList : List Bio) : (Transaction.WriteTxFail J self tx err bioList).1 = err := by
  unfold Transaction.WriteTxFail
  rcases Transaction.OnCommitCompleteLocked J self tx err with ⟨J1, tx1⟩
  rfl


/-- The failure exit of `WriteTx` with an error that is not `Success`. -/
theorem WriteTxFail_eq (J : Journal) (self : Nat) (tx : Transaction) (err : Error)
    (bioList : List Bio) (h : (!err.Ok) = true) :
    Transaction.WriteTxFail J self tx err bioList =
      (err, J.UnlinkTx self tx.TxId,
       { tx with State := TxState.Canceled, CommitResult := err, CommitEvent := true },
       bioList) := by
  unfold Transaction.WriteTxFail Transaction.OnCommitCompleteLocked
  rw [if_pos h]

theorem not_Ok_ne_Success {err : Error} (h : (!err.Ok) = true) : err ≠ Error.Success := by
  intro e
  rw [e] at h
  exact absurd h (by decide)

theorem Ok_eq_Success {err : Error} (h : ¬ (!err.Ok) = true) : err = Error.Success := by
  simpa [Error.Ok] using h

/-- A successful end of `WriteTx`. -/
theorem WriteTxCommit_success (env : Env) (J : Journal) (self : Nat) (tx : Transaction)
    (bioList : List Bio) (o : StageOutcome)
    (h : (Transaction.WriteTxCommit env J self tx bioList o).1 = Error.Success) :
    Transaction.WriteTxCommit env J self tx bioList o =
      (Error.Success, J.GetNextBlockIndex.2.2,
       { tx with CommitBlock := tx.SealedCommitBlock env },
       bioList ++ ExpectedStaging env [tx.SealedCommitBlock env] J) ∧
    (Journal.WriteTxBlockPrepare env (tx.SealedCommitBlock env)).1 = Error.Success := by
  unfold Transaction.WriteTxCommit at h ⊢
  have h0 := GetNextBlockIndex_ok J
  rcases hg : J.GetNextBlockIndex with ⟨err, idx, J1⟩
  rw [hg] at h0 h
  simp only at h0 h ⊢
  rw [h0] at h ⊢
  simp only [Bool.false_eq_true, if_false] at h ⊢
  have hb := WriteTxBlock_success env J1 idx (tx.SealedCommitBlock env) bioList o
  rcases hw : J1.WriteTxBlock env idx (tx.SealedCommitBlock env) bioList o with ⟨err1, bl1⟩
  rw [hw] at h hb
  simp only at h hb ⊢
  by_cases he : (!err1.Ok) = true
  · rw [if_pos he, WriteTxFail_fst] at h
    exact absurd h (not_Ok_ne_Success he)
  · rw [if_neg he] at h ⊢
    simp only at h
    obtain ⟨-, -, hp, hbl⟩ := hb h
    subst h
    rw [hbl]
    exact ⟨by simp [ExpectedStaging, hg], hp⟩

/-- A successful `WriteTx`: the journal has advanced by one index per block,
the commit block of the transaction is sealed, and the bios staged are the
expected ones for begin block, data blocks and commit block. -/
theorem WriteTx_success (env : Env) (J : Journal) (self : Nat) (tx : Transaction)
    (bioList : List Bio) (io : Nat → StageOutcome) (hState : tx.State = TxState.Commiting)
    (h : (Transaction.WriteTx env J self tx bioList io).1 = Error.Success) :
    Transaction.WriteTx env J self tx bioList io =
      (Error.Success, Journal.Advance J (tx.DataBlockList.length + 2),
       { tx with CommitBlock := tx.SealedCommitBlock env },
       bioList ++ ExpectedStaging env (tx.Blocks env) J) ∧
    ∀ b ∈ tx.Blocks env, (Journal.WriteTxBlockPrepare env b).1 = Error.Success := by
  unfold Transaction.WriteTx at h ⊢
  rw [if_neg (by simp [hState])] at h ⊢
  have h0 := GetNextBlockIndex_ok J
  rcases hg : J.GetNextBlockIndex with ⟨err, idx, J1⟩
  rw [hg] at h0 h
  simp only at h0 h ⊢
  rw [h0] at h ⊢
  simp only [Bool.false_eq_true, if_false] at h ⊢
  have hb := WriteTxBlock_success env J1 idx tx.BeginBlock bioList (io 0)
  rcases hw : J1.WriteTxBlock env idx tx.BeginBlock bioList (io 0) with ⟨err1, bl1⟩
  rw [hw] at h hb
  simp only at h hb ⊢
  by_cases he : (!err1.Ok) = true
  · rw [if_pos he, WriteTxFail_fst] at h
    exact absurd h (not_Ok_ne_Success he)
  rw [if_neg he] at h ⊢
  obtain ⟨-, -, hp, hbl⟩ := hb (Ok_eq_Success he)
  have hd := WriteTxData_success env io tx.DataBlockList 1 J1 bl1
  rcases hwd : Transaction.WriteTxData env io tx.DataBlockList 1 J1 bl1 with ⟨err2, J2, bl2⟩
  rw [hwd] at h hd
  simp only at h hd ⊢
  by_cases he2 : (!err2.Ok) = true
  · rw [if_pos he2, WriteTxFail_fst] at h
    exact absurd h (not_Ok_ne_Success he2)
  rw [if_neg he2] at h ⊢
  obtain ⟨hd1, hd2⟩ := hd (Ok_eq_Success he2)
  obtain ⟨hc1, hc2⟩ := WriteTxCommit_success env J2 self tx bl2 _ h
  rw [hc1]
  simp only [Prod.mk.injEq] at hd1
  obtain ⟨-, hJ2, hbl2⟩ := hd1
  have hJ1 : J1 = J.GetNextBlockIndex.2.2 := by rw [hg]
  have hidx : idx = J.GetNextBlockIndex.2.1 := by rw [hg]
  refine ⟨?_, ?_⟩
  · subst hJ2 hbl2 hbl
    rw [hJ1, hidx]
    simp only [Prod.mk.injEq, true_and]
    refine ⟨?_, ?_⟩
    · rw [Advance_succ_right]
      rfl
    · simp only [Transaction.Blocks, ExpectedStaging, ExpectedStaging_append, List.append_assoc,
        List.singleton_append, List.cons_append, List.nil_append]
  · intro b hb'
    unfold Transaction.Blocks at hb'
    rcases List.mem_cons.mp hb' with rfl | hb'
    · exact hp
    · rcases List.mem_append.mp hb' with hb' | hb'
      · exact hd2 b hb'
      · rw [List.mem_singleton] at hb'
        rw [hb']; exact hc2



/-- Every block the loop of `Write` adds is a TxData block of the transaction. -/
theorem WriteLoop_blocks (env : Env) (txId : Nat) (page : List Nat) (alloc : Nat → Bool)
    (fuel off position k : Nat) (acc out : List JournalTxBlock) (err : Error)
    (h : Transaction.WriteLoop env txId page alloc fuel off position k acc = some (err, out)) :
    ∀ b ∈ out, b ∈ acc ∨ (b.TxId = txId ∧ b.BlockType = env.JournalBlockTypeTxData) := by
  induction fuel generalizing off position k acc with
  | zero =>
    simp only [Transaction.WriteLoop] at h
    split_ifs at h
    simp only [Option.some.injEq, Prod.mk.injEq] at h
    intro b hb
    rw [← h.2] at hb
    exact Or.inl hb
  | succ fuel ih =>
    by_cases hlt : off < page.length
    · rw [WriteLoop_succ _ _ _ _ _ _ _ _ _ hlt] at h
      split_ifs at h
      · simp only [Option.some.injEq, Prod.mk.injEq] at h
        intro b hb
        rw [← h.2] at hb
        exact Or.inl hb
      · simp only [Option.some.injEq, Prod.mk.injEq] at h
        intro b hb
        rw [← h.2] at hb
        exact Or.inl hb
      · intro b hb
        rcases ih _ _ _ _ h b hb with h1 | h1
        · rcases List.mem_append.mp h1 with h2 | h2
          · exact Or.inl h2
          · rw [List.mem_singleton] at h2
            rw [h2]
            exact Or.inr ⟨rfl, rfl⟩
        · exact Or.inr h1
    · rw [WriteLoop_done _ _ _ _ _ _ _ _ _ hlt] at h
      simp only [Option.some.injEq, Prod.mk.injEq] at h
      intro b hb
      rw [← h.2] at hb
      exact Or.inl hb

/-- The transaction a `Write` returns differs from the given one at most in
its data block list, which has gained TxData blocks of the transaction. -/
theorem Write_shape (env : Env) (J : Journal) (tx : Transaction) (page : List Nat)
    (position : Nat) (alloc : Nat → Bool) (err : Error) (tx1 : Transaction)
    (h : Transaction.Write env J tx page position alloc = some (err, tx1)) :
    ∃ bl, tx1 = { tx with DataBlockList := tx.DataBlockList ++ bl } ∧
      ∀ b ∈ bl, b.TxId = tx.TxId ∧ b.BlockType = env.JournalBlockTypeTxData := by
  by_cases he : err = Error.Success
  · subst he
    obtain ⟨-, -, bl, hloop, htx⟩ := Write_success env J tx page position alloc tx1 h
    refine ⟨bl, htx, fun b hb => ?_⟩
    rcases WriteLoop_blocks _ _ _ _ _ _ _ _ _ _ _ hloop b hb with h1 | h1
    · simp at h1
    · exact h1
  · have := Write_error_stages_nothing_aux env J tx page position alloc err tx1 h he
    exact ⟨[], by rw [this, List.append_nil], by simp⟩

theorem OnCommitCompleteLocked_eq (J : Journal) (self : Nat) (tx : Transaction)
    (result : Error) :
    Transaction.OnCommitCompleteLocked J self tx result =
      (if (!result.Ok) = true then J.UnlinkTx self tx.TxId else J,
       { tx with State := if (!result.Ok) = true then TxState.Canceled else TxState.Commited,
                 CommitResult := result, CommitEvent := true }) := by
  unfold Transaction.OnCommitCompleteLocked
  split <;> rfl

theorem WriteTxFail_SameBlocks (env : Env) (J : Journal) (self : Nat) (tx : Transaction)
    (err : Error) (bioList : List Bio) :
    SameBlocks env tx (Transaction.WriteTxFail J self tx err bioList).2.2.1 := by
  unfold Transaction.WriteTxFail
  rw [OnCommitCompleteLocked_eq]
  exact ⟨rfl, rfl, rfl, Or.inl rfl⟩

theorem WriteTxCommit_SameBlocks (env : Env) (J : Journal) (self : Nat) (tx : Transaction)
    (bioList : List Bio) (o : StageOutcome) :
    SameBlocks env tx (Transaction.WriteTxCommit env J self tx bioList o).2.2.1 := by
  unfold Transaction.WriteTxCommit
  rcases J.GetNextBlockIndex with ⟨err, idx, J1⟩
  simp only
  split
  · exact WriteTxFail_SameBlocks _ _ _ _ _ _
  · rcases J1.WriteTxBlock env idx (tx.SealedCommitBlock env) bioList o with ⟨err1, bl1⟩
    simp only
    split
    · have := WriteTxFail_SameBlocks env J1 self
        { tx with CommitBlock := tx.SealedCommitBlock env } err1 bl1
      exact ⟨this.1, this.2.1, this.2.2.1, Or.inr (by
        rcases this.2.2.2 with h | h
        · exact h
        · rw [h]; rfl)⟩
    · exact ⟨rfl, rfl, rfl, Or.inr rfl⟩

theorem WriteTx_SameBlocks (env : Env) (J : Journal) (self : Nat) (tx : Transaction)
    (bioList : List Bio) (io : Nat → StageOutcome) :
    SameBlocks env tx (Transaction.WriteTx env J self tx bioList io).2.2.1 := by
  unfold Transaction.WriteTx
  split
  · exact WriteTxFail_SameBlocks _ _ _ _ _ _
  · rcases J.GetNextBlockIndex with ⟨err, idx, J1⟩
    simp only
    split
    · exact WriteTxFail_SameBlocks _ _ _ _ _ _
    · rcases J1.WriteTxBlock env idx tx.BeginBlock bioList (io 0) with ⟨err1, bl1⟩
      simp only
      split
      · exact WriteTxFail_SameBlocks _ _ _ _ _ _
      · rcases Transaction.WriteTxData env io tx.DataBlockList 1 J1 bl1 with ⟨err2, J2, bl2⟩
        simp only
        split
        · exact WriteTxFail_SameBlocks _ _ _ _ _ _
        · exact WriteTxCommit_SameBlocks _ _ _ _ _ _

theorem WellFormed_of_SameBlocks (env : Env) (tx tx1 : Transaction)
    (h : SameBlocks env tx tx1) (hwf : tx.WellFormed env) : tx1.WellFormed env := by
  obtain ⟨h1, h2, h3, h4⟩ := h
  obtain ⟨w1, w2, w3, w4, w5⟩ := hwf
  unfold Transaction.WellFormed
  rw [h1, h2, h3]
  refine ⟨w1, w2, ?_, ?_, w5⟩
  · rcases h4 with h | h <;> rw [h]
    · exact w3
    · exact w3
  · rcases h4 with h | h <;> rw [h]
    · exact w4
    · exact w4

/-- Every transaction the code can produce is well formed. -/
theorem Reachable_WellFormed (env : Env) (tx : Transaction)
    (h : Transaction.Reachable env tx) : tx.WellFormed env := by
  induction h with
  | Create txId generate allocBegin allocCommit err tx h =>
    unfold Transaction.Create Transaction.CreateTxBlock at h
    split_ifs at h <;> simp at h
    obtain ⟨-, rfl⟩ := h
    exact ⟨rfl, rfl, rfl, rfl, by simp⟩
  | Write J tx page position alloc err tx1 _ h ih =>
    obtain ⟨bl, htx, hbl⟩ := Write_shape env J tx page position alloc err tx1 h
    obtain ⟨w1, w2, w3, w4, w5⟩ := ih
    rw [htx]
    refine ⟨w1, w2, w3, w4, fun b hb => ?_⟩
    rcases List.mem_append.mp hb with h1 | h1
    · exact w5 b h1
    · exact hbl b h1
  | Commit J self tx addTail _ ih =>
    apply WellFormed_of_SameBlocks env tx _ _ ih
    unfold Transaction.Commit
    split
    · exact ⟨rfl, rfl, rfl, Or.inl rfl⟩
    · rcases J.StartCommitTx self tx.TxId addTail with ⟨err, J1⟩
      simp only
      split <;> exact ⟨rfl, rfl, rfl, Or.inl rfl⟩
  | Cancel J self tx _ ih =>
    exact WellFormed_of_SameBlocks env tx _ ⟨rfl, rfl, rfl, Or.inl rfl⟩ ih
  | WriteTx J self tx bioList io _ ih =>
    exact WellFormed_of_SameBlocks env tx _ (WriteTx_SameBlocks _ _ _ _ _ _) ih
  | OnCommitComplete J self tx result _ ih =>
    apply WellFormed_of_SameBlocks env tx _ _ ih
    unfold Transaction.OnCommitComplete
    rw [OnCommitCompleteLocked_eq]
    exact ⟨rfl, rfl, rfl, Or.inl rfl⟩



/-- A `Write` that needs exactly two blocks, every allocation succeeding. -/
theorem Write_two_blocks (env : Env) (J : Journal) (tx : Transaction)
    (page : List Nat) (position : Nat) (alloc : Nat → Bool)
    (hNew : tx.State = TxState.New) (hpos : ¬ position < page.length)
    (hci : CheckIntersection position (add64 position page.length)
      (mul64 J.Start env.BlockSize) (mul64 (add64 J.Start J.Size) env.BlockSize) = false)
    (hD : 0 < env.DataCapacity) (hlen : env.DataCapacity < page.length)
    (hlen2 : page.length ≤ 2 * env.DataCapacity) (hA : ∀ i, alloc i = true) :
    Transaction.Write env J tx page position alloc =
      some (Error.Success,
        { tx with DataBlockList := tx.DataBlockList ++
            [Transaction.DataBlockAt env tx.TxId page 0 position,
             Transaction.DataBlockAt env tx.TxId page env.DataCapacity
               (add64 position env.DataCapacity)] }) := by
  have hr : (PageRead page env.DataCapacity 0).length = env.DataCapacity := by
    rw [PageRead_length]; omega
  have hr2 : (PageRead page env.DataCapacity env.DataCapacity).length =
      page.length - env.DataCapacity := by
    rw [PageRead_length]; omega
  have e : Transaction.WriteLoop env tx.TxId page alloc page.length 0 position 0 []
      = some (Error.Success,
          [Transaction.DataBlockAt env tx.TxId page 0 position,
           Transaction.DataBlockAt env tx.TxId page env.DataCapacity
             (add64 position env.DataCapacity)]) := by
    obtain ⟨m, hm⟩ : ∃ m, page.length = m + 2 := ⟨page.length - 2, by omega⟩
    have h1 := WriteLoop_succ env tx.TxId page alloc (m + 1) 0 position 0 [] (by omega)
    have h2 := WriteLoop_succ env tx.TxId page alloc m env.DataCapacity
      (add64 position env.DataCapacity) 1
      [Transaction.DataBlockAt env tx.TxId page 0 position] (by omega)
    have h3 := WriteLoop_done env tx.TxId page alloc m
      (env.DataCapacity + (PageRead page env.DataCapacity env.DataCapacity).length)
      (add64 (add64 position env.DataCapacity)
        (PageRead page env.DataCapacity env.DataCapacity).length) (1 + 1)
      ([Transaction.DataBlockAt env tx.TxId page 0 position] ++
        [Transaction.DataBlockAt env tx.TxId page env.DataCapacity
          (add64 position env.DataCapacity)]) (by rw [hr2]; omega)
    rw [hA, hA, if_neg (by simp), if_neg (by simp), h3] at h2
    rw [hA, hA, if_neg (by simp), if_neg (by simp), hr, Nat.zero_add, List.nil_append,
      Nat.zero_add, h2] at h1
    rw [hm]
    exact h1
  unfold Transaction.Write
  rw [if_neg (by simp [hNew]), if_neg hpos, if_neg (by simp [hci]), e]
  simp [Error.Ok]

theorem ExampleTx2_Write :
    Transaction.Write ExampleEnv ExampleJournal ExampleTx ExamplePage 69632 (fun _ => true)
      = some (Error.Success, ExampleTx2) := by
  have hlen : ExamplePage.length = 4096 := List.length_replicate _ _
  exact Write_two_blocks ExampleEnv ExampleJournal ExampleTx ExamplePage 69632 _ rfl
    (by rw [hlen]; decide) (by rw [hlen]; decide) (by decide) (by rw [hlen]; decide)
    (by rw [hlen]; decide) (fun _ => rfl)

theorem ExampleTx2_Reachable :
    Transaction.Reachable ExampleEnv { ExampleTx2 with State := TxState.Commiting } :=
  Transaction.Reachable.Commit ExampleJournalTx 0 ExampleTx2 true
    (Transaction.Reachable.Write ExampleJournal ExampleTx ExamplePage 69632 (fun _ => true)
      Error.Success ExampleTx2
      (Transaction.Reachable.Create 7 Error.Success true true Error.Success ExampleTx rfl)
      ExampleTx2_Write)

theorem WriteTxBlockPrepare_TxId (env : Env) (b : JournalTxBlock) :
    (Journal.WriteTxBlockPrepare env b).2.TxId = b.TxId := by
  unfold Journal.WriteTxBlockPrepare Journal.SealTxBlock
  split_ifs <;> rfl

theorem ExpectedStaging_getElem? (env : Env) (l : List JournalTxBlock) (J : Journal) (k : Nat) :
    (ExpectedStaging env l J)[k]? =
      l[k]?.map (fun b =>
        { Page := PageData.TxBlock (Journal.WriteTxBlockPrepare env b).2,
          Position := mul64 (Journal.Advance J k).GetNextBlockIndex.2.1 env.BlockSize,
          Write := true, Flush := false }) := by
  induction l generalizing J k with
  | nil => simp [ExpectedStaging]
  | cons b rest ih =>
    cases k with
    | zero => simp [ExpectedStaging, Journal.Advance]
    | succ k => simp [ExpectedStaging, Journal.Advance, ih]

/-- C2: for a transaction in state `Commiting` with `n` staged data blocks, a
`WriteTx` in which no step fails appends to the bio list exactly `n + 2` block
writes: the begin block (type TxBegin), the `n` data blocks (type TxData) in
the order `Write` staged them, and the commit block (type TxCommit) with
`State = Commited`.  Every block carries the TxId of the transaction, also
after `WriteTxBlockPrepare`, and the `k`-th write (from 0) is a write of the
`k`-th block, prepared, at the byte offset of the ring index that the `k`-th
call of `GetNextBlockIndex` returns; the journal has made `n + 2` such calls. -/
theorem WriteTx_stages_begin_data_commit (env : Env) (J : Journal) (self : Nat)
    (tx : Transaction) (bioList : List Bio) (io : Nat → StageOutcome)
    (hReach : Transaction.Reachable env tx) (hState : tx.State = TxState.Commiting)
    (hOk : (Transaction.WriteTx env J self tx bioList io).1 = Error.Success) :
    ∃ staged : List Bio,
      (Transaction.WriteTx env J self tx bioList io).2.2.2 = bioList ++ staged ∧
      staged.length = tx.DataBlockList.length + 2 ∧
      (∀ k : Nat, staged[k]? =
        (tx.BeginBlock :: (tx.DataBlockList ++ [tx.SealedCommitBlock env]))[k]?.map
          (fun b : JournalTxBlock =>
            ({ Page := PageData.TxBlock (Journal.WriteTxBlockPrepare env b).2,
               Position := mul64 (Journal.Advance J k).GetNextBlockIndex.2.1 env.BlockSize,
               Write := true, Flush := false } : Bio))) ∧
      tx.BeginBlock.BlockType = env.JournalBlockTypeTxBegin ∧
      (∀ b ∈ tx.DataBlockList, b.BlockType = env.JournalBlockTypeTxData) ∧
      (tx.SealedCommitBlock env).BlockType = env.JournalBlockTypeTxCommit ∧
      (tx.SealedCommitBlock env).State = env.TxStateCode TxState.Commited ∧
      (∀ b ∈ tx.BeginBlock :: (tx.DataBlockList ++ [tx.SealedCommitBlock env]),
        b.TxId = tx.TxId ∧
        (Journal.WriteTxBlockPrepare env b).1 = Error.Success ∧
        (Journal.WriteTxBlockPrepare env b).2.TxId = tx.TxId) ∧
      (Transaction.WriteTx env J self tx bioList io).2.1 =
        Journal.Advance J (tx.DataBlockList.length + 2) := by
  obtain ⟨w1, w2, w3, w4, w5⟩ := Reachable_WellFormed env tx hReach
  obtain ⟨e, hprep⟩ := WriteTx_success env J self tx bioList io hState hOk
  have hId : ∀ b ∈ tx.Blocks env, b.TxId = tx.TxId := by
    intro b hb
    unfold Transaction.Blocks at hb
    rcases List.mem_cons.mp hb with rfl | hb
    · exact w1
    · rcases List.mem_append.mp hb with hb | hb
      · exact (w5 b hb).1
      · rw [List.mem_singleton] at hb
        rw [hb]
        exact w3
  refine ⟨ExpectedStaging env (tx.Blocks env) J, by rw [e], ?_, ?_, w2,
    fun b hb => (w5 b hb).2, w4, rfl, ?_, by rw [e]⟩
  · rw [ExpectedStaging_length]
    simp [Transaction.Blocks]
  · intro k
    exact ExpectedStaging_getElem? env (tx.Blocks env) J k
  · intro b hb
    exact ⟨hId b hb, hprep b hb, by rw [WriteTxBlockPrepare_TxId]; exact hId b hb⟩

/-- Witness for C2: the example transaction with its two data blocks, committing
in the example journal: four writes, to blocks 2, 3, 4 and 5. -/
theorem WriteTx_stages_begin_data_commit_witness :
    (∃ staged : List Bio,
      (Transaction.WriteTx ExampleEnv ExampleJournalTx 0
        { ExampleTx2 with State := TxState.Commiting } [] (fun _ => StageOutcome.AllOk)).2.2.2
        = [] ++ staged ∧
      staged.length = 4) ∧
    (Transaction.WriteTx ExampleEnv ExampleJournalTx 0
      { ExampleTx2 with State := TxState.Commiting } []
      (fun _ => StageOutcome.AllOk)).2.2.2.map Bio.Position = [8192, 12288, 16384, 20480] := by
  obtain ⟨staged, h1, h2, -⟩ := WriteTx_stages_begin_data_commit ExampleEnv ExampleJournalTx 0
    { ExampleTx2 with State := TxState.Commiting } [] (fun _ => StageOutcome.AllOk)
    ExampleTx2_Reachable rfl (by decide)
  exact ⟨⟨staged, h1, h2⟩, by decide⟩



/-! ## The tx table invariant -/

theorem UnlinkTx_frame (J : Journal) (self txId : Nat) :
    (J.UnlinkTx self txId).Start = J.Start ∧ (J.UnlinkTx self txId).Size = J.Size ∧
    (J.UnlinkTx self txId).TxList = J.TxList ∧
    (J.UnlinkTx self txId).CurrBlockIndex = J.CurrBlockIndex := by
  unfold Journal.UnlinkTx
  split <;> exact ⟨rfl, rfl, rfl, rfl⟩

theorem UnlinkTx_TxTable (J : Journal) (self txId : Nat) :
    (J.UnlinkTx self txId).TxTable =
      if J.TxTable txId ≠ some self then J.TxTable
      else Function.update J.TxTable txId none := by
  unfold Journal.UnlinkTx
  split <;> rfl

theorem TableInv_step (table : Nat → Option Nat) (txs : Nat → Transaction) (next : Nat)
    (self : Nat) (table1 : Nat → Option Nat) (tx1 : Transaction)
    (hinv : TableInv table txs next)
    (heff : TableEffect table self (txs self) table1 tx1) :
    TableInv table1 (Function.update txs self tx1) next := by
  obtain ⟨hid, heff⟩ := heff
  intro k h hk
  rcases heff with ⟨rfl, hst⟩ | rfl
  · obtain ⟨h1, h2, h3⟩ := hinv k h hk
    by_cases e : h = self
    · subst e
      rw [Function.update_same]
      refine ⟨h1, by rw [hid]; exact h2, ?_⟩
      rcases hst with hst | hst
      · exact hst
      · rw [hst]; exact h3
    · rw [Function.update_noteq e]
      exact ⟨h1, h2, h3⟩
  · by_cases hc : table (txs self).TxId ≠ some self
    · rw [if_pos hc] at hk
      obtain ⟨h1, h2, h3⟩ := hinv k h hk
      have e : h ≠ self := by
        rintro rfl
        rw [h2] at hc
        exact hc hk
      rw [Function.update_noteq e]
      exact ⟨h1, h2, h3⟩
    · rw [if_neg hc] at hk
      have hkne : k ≠ (txs self).TxId := by
        rintro rfl
        rw [Function.update_same] at hk
        exact Option.noConfusion hk
      rw [Function.update_noteq hkne] at hk
      obtain ⟨h1, h2, h3⟩ := hinv k h hk
      have e : h ≠ self := by
        rintro rfl
        exact hkne h2.symm
      rw [Function.update_noteq e]
      exact ⟨h1, h2, h3⟩

theorem OnCommitCompleteLocked_effect (J : Journal) (self : Nat) (tx : Transaction)
    (result : Error) :
    TableEffect J.TxTable self tx
      (Transaction.OnCommitCompleteLocked J self tx result).1.TxTable
      (Transaction.OnCommitCompleteLocked J self tx result).2 := by
  rw [OnCommitCompleteLocked_eq]
  by_cases h : (!result.Ok) = true
  · simp only [if_pos h]
    exact ⟨rfl, Or.inr (UnlinkTx_TxTable _ _ _)⟩
  · simp only [if_neg h]
    exact ⟨rfl, Or.inl ⟨rfl, Or.inl (fun e => TxState.noConfusion e)⟩⟩

theorem WriteTxFail_effect (J0 J : Journal) (self : Nat) (tx : Transaction) (err : Error)
    (bioList : List Bio) (hJ : J.TxTable = J0.TxTable) :
    TableEffect J0.TxTable self tx
      (Transaction.WriteTxFail J self tx err bioList).2.1.TxTable
      (Transaction.WriteTxFail J self tx err bioList).2.2.1 := by
  unfold Transaction.WriteTxFail
  have := OnCommitCompleteLocked_effect J self tx err
  rw [hJ] at this
  exact this

theorem WriteTxData_frame (env : Env) (io : Nat → StageOutcome) (data : List JournalTxBlock)
    (k : Nat) (J : Journal) (bioList : List Bio) :
    (Transaction.WriteTxData env io data k J bioList).2.1.TxTable = J.TxTable ∧
    (Transaction.WriteTxData env io data k J bioList).2.1.TxList = J.TxList ∧
    (Transaction.WriteTxData env io data k J bioList).2.1.Start = J.Start ∧
    (Transaction.WriteTxData env io data k J bioList).2.1.Size = J.Size := by
  induction data generalizing k J bioList with
  | nil => exact ⟨rfl, rfl, rfl, rfl⟩
  | cons block rest ih =>
    rw [WriteTxData_cons]
    obtain ⟨-, f1, f2, f3, f4, -⟩ := GetNextBlockIndex_frame J
    split
    · exact ⟨f3, f4, f1, f2⟩
    · obtain ⟨i1, i2, i3, i4⟩ := ih (k + 1) J.GetNextBlockIndex.2.2
        (J.GetNextBlockIndex.2.2.WriteTxBlock env J.GetNextBlockIndex.2.1 block bioList
          (io k)).2
      exact ⟨i1.trans f3, i2.trans f4, i3.trans f1, i4.trans f2⟩

theorem WriteTxCommit_effect (env : Env) (J0 J : Journal) (self : Nat) (tx : Transaction)
    (bioList : List Bio) (o : StageOutcome) (hJ : J.TxTable = J0.TxTable) :
    TableEffect J0.TxTable self tx
      (Transaction.WriteTxCommit env J self tx bioList o).2.1.TxTable
      (Transaction.WriteTxCommit env J self tx bioList o).2.2.1 := by
  unfold Transaction.WriteTxCommit
  obtain ⟨-, -, -, f3, -⟩ := GetNextBlockIndex_frame J
  rcases hg : J.GetNextBlockIndex with ⟨err, idx, J1⟩
  rw [hg] at f3
  simp only at f3 ⊢
  split
  · exact WriteTxFail_effect J0 J1 self tx err bioList (f3.trans hJ)
  · rcases J1.WriteTxBlock env idx (tx.SealedCommitBlock env) bioList o with ⟨err1, bl1⟩
    simp only
    split
    · exact WriteTxFail_effect J0 J1 self { tx with CommitBlock := tx.SealedCommitBlock env }
        err1 bl1 (f3.trans hJ)
    · exact ⟨rfl, Or.inl ⟨f3.trans hJ, Or.inr rfl⟩⟩

theorem WriteTx_effect (env : Env) (J : Journal) (self : Nat) (tx : Transaction)
    (bioList : List Bio) (io : Nat → StageOutcome) :
    TableEffect J.TxTable self tx
      (Transaction.WriteTx env J self tx bioList io).2.1.TxTable
      (Transaction.WriteTx env J self tx bioList io).2.2.1 := by
  unfold Transaction.WriteTx
  split
  · exact WriteTxFail_effect J J self tx _ bioList rfl
  · obtain ⟨-, -, -, f3, -⟩ := GetNextBlockIndex_frame J
    rcases hg : J.GetNextBlockIndex with ⟨err, idx, J1⟩
    rw [hg] at f3
    simp only at f3 ⊢
    split
    · exact WriteTxFail_effect J J1 self tx err bioList f3
    · rcases J1.WriteTxBlock env idx tx.BeginBlock bioList (io 0) with ⟨err1, bl1⟩
      simp only
      split
      · exact WriteTxFail_effect J J1 self tx err1 bl1 f3
      · have fd := (WriteTxData_frame env io tx.DataBlockList 1 J1 bl1).1
        rcases hd : Transaction.WriteTxData env io tx.DataBlockList 1 J1 bl1 with
          ⟨err2, J2, bl2⟩
        rw [hd] at fd
        simp only at fd ⊢
        split
        · exact WriteTxFail_effect J J2 self tx err2 bl2 (fd.trans f3)
        · exact WriteTxCommit_effect env J J2 self tx bl2 _ (fd.trans f3)

theorem Commit_effect (J : Journal) (self : Nat) (tx : Transaction) (addTail : Bool) :
    TableEffect J.TxTable self tx (Transaction.Commit J self tx addTail).2.1.TxTable
      (Transaction.Commit J self tx addTail).2.2 := by
  unfold Transaction.Commit
  by_cases hs : tx.State ≠ TxState.New
  · rw [if_pos hs]
    exact ⟨rfl, Or.inl ⟨rfl, Or.inr rfl⟩⟩
  · rw [if_neg hs]
    unfold Journal.StartCommitTx
    by_cases ht : J.TxTable tx.TxId ≠ some self
    · simp only [if_pos ht]
      exact ⟨rfl, Or.inr (UnlinkTx_TxTable _ _ _)⟩
    · simp only [if_neg ht]
      cases addTail
      · exact ⟨rfl, Or.inr (UnlinkTx_TxTable _ _ _)⟩
      · exact ⟨rfl, Or.inl ⟨rfl, Or.inl (fun e => TxState.noConfusion e)⟩⟩

theorem Create_fields (env : Env) (txId : Nat) (generate : Error)
    (allocBegin allocCommit : Bool) (err : Error) (tx : Transaction)
    (h : Transaction.Create env Error.Success txId generate allocBegin allocCommit
      = (err, some tx)) : tx.TxId = txId ∧ tx.State = TxState.New := by
  unfold Transaction.Create Transaction.CreateTxBlock at h
  split_ifs at h <;> simp at h
  obtain ⟨-, rfl⟩ := h
  exact ⟨rfl, rfl⟩

theorem BeginTx_Inv (env : Env) (w : World) (txId : Nat) (o : BeginTxOutcome)
    (hinv : w.Inv) : (w.BeginTx env txId o).2.Inv := by
  unfold World.BeginTx
  split
  · exact hinv
  · split
    · exact hinv
    · rename_i err tx hc
      split
      · exact hinv
      · split
        · exact hinv
        · rename_i hne
          obtain ⟨hid, hst⟩ := Create_fields env txId _ _ _ err tx hc
          intro k h hk
          simp only at hk ⊢
          by_cases e : k = txId
          · subst e
            rw [Function.update_same] at hk
            simp only [Option.some.injEq] at hk
            subst hk
            rw [Function.update_same]
            exact ⟨Nat.lt_succ_self _, hid, by rw [hst]; exact fun e => TxState.noConfusion e⟩
          · rw [Function.update_noteq e] at hk
            obtain ⟨h1, h2, h3⟩ := hinv k h hk
            rw [Function.update_noteq (Nat.ne_of_lt h1)]
            exact ⟨Nat.lt_succ_of_lt h1, h2, h3⟩

theorem Write_Inv (env : Env) (w : World) (h : Nat) (page : List Nat) (position : Nat)
    (alloc : Nat → Bool) (err : Error) (w1 : World)
    (hw : w.Write env h page position alloc = some (err, w1)) (hinv : w.Inv) : w1.Inv := by
  unfold World.Write at hw
  split at hw
  · exact Option.noConfusion hw
  · rename_i err1 tx1 hWrite
    simp only [Option.some.injEq, Prod.mk.injEq] at hw
    obtain ⟨-, rfl⟩ := hw
    obtain ⟨bl, htx, -⟩ := Write_shape env w.J (w.Txs h) page position alloc err1 tx1 hWrite
    exact TableInv_step _ _ _ h _ tx1 hinv
      ⟨by rw [htx], Or.inl ⟨rfl, Or.inr (by rw [htx])⟩⟩

theorem Commit_Inv (w : World) (h : Nat) (addTail : Bool) (hinv : w.Inv) :
    (w.Commit h addTail).2.Inv := by
  unfold World.Commit
  have := Commit_effect w.J h (w.Txs h) addTail
  rcases hc : Transaction.Commit w.J h (w.Txs h) addTail with ⟨step, J1, tx1⟩
  rw [hc] at this
  exact TableInv_step _ _ _ h _ tx1 hinv this

theorem Cancel_Inv (w : World) (h : Nat) (hinv : w.Inv) : (w.Cancel h).Inv := by
  unfold World.Cancel Transaction.Cancel
  exact TableInv_step _ _ _ h _ _ hinv ⟨rfl, Or.inr (UnlinkTx_TxTable _ _ _)⟩

theorem Destroy_Inv (w : World) (h : Nat) (hinv : w.Inv) : (w.Destroy h).Inv := by
  have := TableInv_step _ _ _ h (w.J.UnlinkTx h (w.Txs h).TxId).TxTable (w.Txs h) hinv
    ⟨rfl, Or.inr (UnlinkTx_TxTable _ _ _)⟩
  rw [Function.update_eq_self] at this
  exact this

theorem OnCommitComplete_Inv (w : World) (h : Nat) (result : Error) (hinv : w.Inv) :
    (w.OnCommitComplete h result).Inv ∧ (w.OnCommitComplete h result).Next = w.Next := by
  unfold World.OnCommitComplete Transaction.OnCommitComplete
  have := OnCommitCompleteLocked_effect w.J h (w.Txs h) result
  rcases hc : Transaction.OnCommitCompleteLocked w.J h (w.Txs h) result with ⟨J1, tx1⟩
  rw [hc] at this
  exact ⟨TableInv_step _ _ _ h _ tx1 hinv this, rfl⟩

/-- `Journal::WriteTx` does not return when the staging of the transaction
fails: the failure exit asks for the journal lock it holds. -/
theorem World_WriteTx_none (env : Env) (w : World) (h : Nat) (bioList : List Bio)
    (io : Nat → StageOutcome)
    (hf : (Transaction.WriteTx env w.J h (w.Txs h) bioList io).1 ≠ Error.Success) :
    w.WriteTx env h bioList io = none := by
  unfold World.WriteTx
  rcases hc : Transaction.WriteTx env w.J h (w.Txs h) bioList io with ⟨err, J1, tx1, bl1⟩
  rw [hc] at hf
  have : (!err.Ok) = true := by simpa [Error.Ok] using hf
  simp only [this]
  rfl

/-- A call of `Journal::WriteTx` that returns has staged the transaction. -/
theorem World_WriteTx_some (env : Env) (w : World) (h : Nat) (bioList : List Bio)
    (io : Nat → StageOutcome) (err : Error) (w1 : World) (bl1 : List Bio)
    (hw : w.WriteTx env h bioList io = some (err, w1, bl1)) :
    err = Error.Success ∧
    (Transaction.WriteTx env w.J h (w.Txs h) bioList io).1 = Error.Success ∧
    w1 = { w with J := (Transaction.WriteTx env w.J h (w.Txs h) bioList io).2.1,
                  Txs := Function.update w.Txs h
                    (Transaction.WriteTx env w.J h (w.Txs h) bioList io).2.2.1 } ∧
    bl1 = (Transaction.WriteTx env w.J h (w.Txs h) bioList io).2.2.2 := by
  by_cases hs : (Transaction.WriteTx env w.J h (w.Txs h) bioList io).1 = Error.Success
  · unfold World.WriteTx at hw
    rcases hc : Transaction.WriteTx env w.J h (w.Txs h) bioList io with ⟨e, J1, tx1, bl⟩
    rw [hc] at hw hs
    simp only at hs
    subst hs
    have hc0 : (!Error.Success.Ok && !LockState.Exclusive.SharedGranted) = false := by decide
    simp only [hc0, Bool.false_eq_true, if_false, Option.some.injEq, Prod.mk.injEq] at hw
    obtain ⟨h1, h2, h3⟩ := hw
    exact ⟨h1.symm, rfl, h2.symm, h3.symm⟩
  · rw [World_WriteTx_none env w h bioList io hs] at hw
    exact Option.noConfusion hw

/-- A property that every returning `Journal::WriteTx` keeps holds after the
staging loop when it returns. -/
theorem WriteTxList_some_induction (env : Env) (io : Nat → Nat → StageOutcome)
    (P : World → List Bio → Prop)
    (hstep : ∀ (w : World) (h : Nat) (bl : List Bio) (ioo : Nat → StageOutcome) (err : Error)
      (w1 : World) (bl1 : List Bio), P w bl → w.WriteTx env h bl ioo = some (err, w1, bl1) →
      P w1 bl1)
    (txList : List Nat) (i : Nat) (err : Error) (w : World) (bioList : List Bio) (e : Error)
    (w1 : World) (bl1 : List Bio) (h0 : P w bioList)
    (hl : World.WriteTxList env io txList i err w bioList = some (e, w1, bl1)) :
    P w1 bl1 := by
  induction txList generalizing i err w bioList with
  | nil =>
    unfold World.WriteTxList at hl
    simp only [Option.some.injEq, Prod.mk.injEq] at hl
    obtain ⟨-, rfl, rfl⟩ := hl
    exact h0
  | cons h rest ih =>
    unfold World.WriteTxList at hl
    rcases hc : w.WriteTx env h bioList (io i) with _ | ⟨e2, w2, bl2⟩
    · rw [hc] at hl
      exact Option.noConfusion hl
    · rw [hc] at hl
      simp only at hl
      have h2 := hstep w h bioList (io i) e2 w2 bl2 h0 hc
      by_cases hok : (!e2.Ok) = true
      · rw [if_pos hok] at hl
        simp only [Option.some.injEq, Prod.mk.injEq] at hl
        obtain ⟨-, rfl, rfl⟩ := hl
        exact h2
      · rw [if_neg hok] at hl
        exact ih _ _ _ _ h2 hl

/-- The staging loop, when it returns, has staged every transaction of a
non-empty batch. -/
theorem WriteTxList_some_Success (env : Env) (io : Nat → Nat → StageOutcome)
    (txList : List Nat) (i : Nat) (err : Error) (w : World) (bioList : List Bio) (e : Error)
    (w1 : World) (bl1 : List Bio) (hne : txList ≠ [])
    (hl : World.WriteTxList env io txList i err w bioList = some (e, w1, bl1)) :
    e = Error.Success := by
  induction txList generalizing i err w bioList with
  | nil => exact absurd rfl hne
  | cons h rest ih =>
    unfold World.WriteTxList at hl
    rcases hc : w.WriteTx env h bioList (io i) with _ | ⟨e2, w2, bl2⟩
    · rw [hc] at hl
      exact Option.noConfusion hl
    · rw [hc] at hl
      simp only at hl
      have he2 := (World_WriteTx_some env w h bioList (io i) e2 w2 bl2 hc).1
      subst he2
      simp only [Error.Ok, decide_True, Bool.not_true, Bool.false_eq_true, if_false] at hl
      cases rest with
      | nil =>
        unfold World.WriteTxList at hl
        simp only [Option.some.injEq, Prod.mk.injEq] at hl
        exact hl.1.symm
      | cons h2 rest2 => exact ih _ _ _ _ (List.cons_ne_nil _ _) hl

theorem WriteTx_Inv (env : Env) (w : World) (h : Nat) (bioList : List Bio)
    (io : Nat → StageOutcome) (err : Error) (w1 : World) (bl1 : List Bio)
    (hw : w.WriteTx env h bioList io = some (err, w1, bl1)) (hinv : w.Inv) : w1.Inv := by
  obtain ⟨-, -, e, -⟩ := World_WriteTx_some env w h bioList io err w1 bl1 hw
  have := WriteTx_effect env w.J h (w.Txs h) bioList io
  rw [e]
  exact TableInv_step _ _ _ h _ _ hinv this

theorem WriteTxList_Inv (env : Env) (io : Nat → Nat → StageOutcome) (txList : List Nat)
    (i : Nat) (err : Error) (w : World) (bioList : List Bio) (e : Error) (w1 : World)
    (bl1 : List Bio) (hl : World.WriteTxList env io txList i err w bioList = some (e, w1, bl1))
    (hinv : w.Inv) : w1.Inv :=
  WriteTxList_some_induction env io (fun w2 _ => w2.Inv)
    (fun w2 h bl ioo err2 w3 bl3 hp hw => WriteTx_Inv env w2 h bl ioo err2 w3 bl3 hw hp)
    txList i err w bioList e w1 bl1 hinv hl

theorem CompleteAll_Inv (err : Error) (txList : List Nat) (w : World) (hinv : w.Inv) :
    (World.CompleteAll err txList w).Inv := by
  induction txList generalizing w with
  | nil => exact hinv
  | cons h rest ih =>
    unfold World.CompleteAll
    exact ih _ (OnCommitComplete_Inv w h err hinv).1

theorem RunBatch_Inv (env : Env) (w : World) (err : Error) (o : BatchOutcome) (e : Error)
    (w1 : World) (hb : w.RunBatch env err o = some (e, w1)) (hinv : w.Inv) : w1.Inv := by
  unfold World.RunBatch at hb
  by_cases hne : w.J.TxList = []
  · rw [if_pos hne] at hb
    simp only [Option.some.injEq, Prod.mk.injEq] at hb
    rw [← hb.2]
    exact hinv
  · rw [if_neg hne] at hb
    have h0 : World.Inv { w with J := { w.J with TxList := [] } } := hinv
    simp only at hb
    rcases hl : World.WriteTxList env o.Stage w.J.TxList 0 err
      { w with J := { w.J with TxList := [] } } [] with _ | ⟨e1, w2, bl⟩
    · rw [hl] at hb
      exact Option.noConfusion hb
    · rw [hl] at hb
      have h1 := WriteTxList_Inv env o.Stage w.J.TxList 0 err _ [] e1 w2 bl hl h0
      simp only at hb
      split at hb
      · simp only [Option.some.injEq, Prod.mk.injEq] at hb
        rw [← hb.2]
        exact CompleteAll_Inv _ _ _ h1
      · split at hb
        · simp only [Option.some.injEq, Prod.mk.injEq] at hb
          rw [← hb.2]
          exact CompleteAll_Inv _ _ _ h1
        · simp only [Option.some.injEq, Prod.mk.injEq] at hb
          rw [← hb.2]
          exact CompleteAll_Inv _ _ _ h1

/-- The tx table invariant holds in every reachable world. -/
theorem Reachable_Inv (env : Env) (w : World) (h : World.Reachable env w) : w.Inv := by
  induction h with
  | Init w hTable hList =>
    intro k h hk
    rw [hTable k] at hk
    exact Option.noConfusion hk
  | Step w w1 _ hs ih =>
    cases hs with
    | BeginTx txId o => exact BeginTx_Inv env w txId o ih
    | Write h page position alloc err _ hh hw =>
      exact Write_Inv env w h page position alloc err w1 hw ih
    | Commit h addTail hh => exact Commit_Inv w h addTail ih
    | Cancel h hh => exact Cancel_Inv w h ih
    | RunBatch err o err1 _ hb => exact RunBatch_Inv env w err o err1 w1 hb ih
    | Destroy h hh => exact Destroy_Inv w h ih



theorem getD_of_isSome {α : Type} (o : Option α) (d : α) (h : o.isSome = true) :
    o = some (o.getD d) := by
  cases o with
  | none => exact Bool.noConfusion h
  | some x => rfl

/-- The batch that commits the example transaction returns, with `Success`. -/
theorem ExampleWorldCommitted_RunBatch :
    (((ExampleWorld.BeginTx ExampleEnv 7 BeginTxOutcome.AllOk).2).Commit 0 true).2.RunBatch
      ExampleEnv Error.Success BatchOutcome.AllOk = some (Error.Success, ExampleWorldCommitted) := by
  have h := getD_of_isSome
    ((((ExampleWorld.BeginTx ExampleEnv 7 BeginTxOutcome.AllOk).2).Commit 0 true).2.RunBatch
      ExampleEnv Error.Success BatchOutcome.AllOk) (Error.Success, ExampleWorld) (by decide)
  rw [h]
  exact congrArg some (Prod.ext (by decide) rfl)

/-- Counterexample for C10: after `BeginTx`, `Commit` and one successful batch
of the writer, the tx table still holds the transaction, whose state is
`Commited`, neither `New` nor `Commiting`. -/
theorem TxTable_entry_Commited_counterexample :
    World.Reachable ExampleEnv ExampleWorldCommitted ∧
    ExampleWorldCommitted.J.TxTable 7 = some 0 ∧
    (ExampleWorldCommitted.Txs 0).State = TxState.Commited ∧
    ¬ ((ExampleWorldCommitted.Txs 0).State = TxState.New ∨
       (ExampleWorldCommitted.Txs 0).State = TxState.Commiting) := by
  refine ⟨?_, by decide, by decide, by decide⟩
  exact World.Reachable.Step _ _
    (World.Reachable.Step _ _
      (World.Reachable.Step _ _
        (World.Reachable.Init ExampleWorld (fun _ => rfl) rfl)
        (World.Step.BeginTx ExampleWorld 7 BeginTxOutcome.AllOk))
      (World.Step.Commit _ 0 true (by decide)))
    (World.Step.RunBatch _ Error.Success BatchOutcome.AllOk Error.Success _
      ExampleWorldCommitted_RunBatch)

/-- C10, amended: in every journal state reachable through `BeginTx`, `Write`,
`Commit`, `Cancel`, the writer's completion of a batch and transaction
destruction, every transaction present in the tx table is in state `New`,
`Commiting` or `Commited`, never `Canceled`, and is filed under its own TxId. -/
theorem TxTable_entries_never_Canceled (env : Env) (w : World)
    (hReach : World.Reachable env w) (k h : Nat) (hk : w.J.TxTable k = some h) :
    ((w.Txs h).State = TxState.New ∨ (w.Txs h).State = TxState.Commiting ∨
      (w.Txs h).State = TxState.Commited) ∧
    (w.Txs h).TxId = k := by
  obtain ⟨-, h2, h3⟩ := Reachable_Inv env w hReach k h hk
  refine ⟨?_, h2⟩
  cases hs : (w.Txs h).State
  · exact Or.inl rfl
  · exact Or.inr (Or.inl rfl)
  · exact Or.inr (Or.inr rfl)
  · exact absurd hs h3

/-- Witness for the amended C10: the entry of the committed example world. -/
theorem TxTable_entries_never_Canceled_witness :
    ExampleWorldCommitted.J.TxTable 7 = some 0 ∧
    (ExampleWorldCommitted.Txs 0).TxId = 7 :=
  ⟨by decide,
   (TxTable_entries_never_Canceled ExampleEnv ExampleWorldCommitted
      (World.Reachable.Step _ _
        (World.Reachable.Step _ _
          (World.Reachable.Step _ _
            (World.Reachable.Init ExampleWorld (fun _ => rfl) rfl)
            (World.Step.BeginTx ExampleWorld 7 BeginTxOutcome.AllOk))
          (World.Step.Commit _ 0 true (by decide)))
        (World.Step.RunBatch _ Error.Success BatchOutcome.AllOk Error.Success _
          ExampleWorldCommitted_RunBatch))
      7 0 (by decide)).2⟩

/-! ## Transaction states -/

/-- C9, the code at the failing input: a transaction is committed (`Commit`
enqueues it, `WriteTx` stages it, `OnCommitComplete(Success)` makes it
`Commited`); `Cancel` then moves it from `Commited` to `Canceled` and stores
`Cancelled` as its commit result.  Likewise `OnCommitComplete(Success)` moves a
`Canceled` transaction to `Commited`. -/
theorem Cancel_moves_Commited_to_Canceled :
    ExampleCommit.1 = CommitStep.Waiting ∧
    ExampleCommit.2.2.State = TxState.Commiting ∧
    ExampleWriteTx.1 = Error.Success ∧
    ExampleWriteTx.2.2.1.State = TxState.Commiting ∧
    ExampleComplete.2.State = TxState.Commited ∧
    ExampleCancel.2.State = TxState.Canceled ∧
    ExampleCancel.2.CommitResult = Error.Cancelled ∧
    (Transaction.OnCommitComplete ExampleCancel.1 0 ExampleCancel.2 Error.Success).2.State
      = TxState.Commited := by
  decide


/-! ## The commit path writes journal blocks only -/

theorem WriteTxBlock_snd (env : Env) (J : Journal) (index : Nat) (block : JournalTxBlock)
    (bioList : List Bio) (o : StageOutcome) :
    (J.WriteTxBlock env index block bioList o).2 = bioList ∨
    (J.WriteTxBlock env index block bioList o).1 = Error.Success := by
  unfold Journal.WriteTxBlock
  split
  · exact Or.inl rfl
  · split
    · exact Or.inl rfl
    · split
      · exact Or.inl rfl
      · rcases Journal.WriteTxBlockPrepare env block with ⟨err, prepared⟩
        simp only
        split
        · exact Or.inl rfl
        · split
          · exact Or.inl rfl
          · exact Or.inr rfl

theorem WriteTxBlock_ring (env : Env) (J : Journal) (index : Nat) (block : JournalTxBlock)
    (bioList : List Bio) (o : StageOutcome)
    (hFit : (J.Start + J.Size) * env.BlockSize < 2 ^ 64)
    (hbl : BiosInRing env J.Start J.Size bioList) :
    BiosInRing env J.Start J.Size (J.WriteTxBlock env index block bioList o).2 := by
  rcases WriteTxBlock_snd env J index block bioList o with h | h
  · rw [h]; exact hbl
  · obtain ⟨h1, h2, -, h4⟩ := WriteTxBlock_success env J index block bioList o h
    rw [h4]
    intro bio hb
    rcases List.mem_append.mp hb with hb | hb
    · exact hbl bio hb
    · rw [List.mem_singleton] at hb
      have hlt : index < J.Start + J.Size := Nat.lt_of_lt_of_le h2 (add64_le _ _)
      have hmul : index * env.BlockSize ≤ (J.Start + J.Size) * env.BlockSize :=
        Nat.mul_le_mul_right _ (Nat.le_of_lt hlt)
      refine ⟨index, Nat.le_of_lt h1, hlt, ?_⟩
      rw [hb]
      exact Nat.mod_eq_of_lt (by omega)

theorem WriteTxData_ring (env : Env) (io : Nat → StageOutcome) (data : List JournalTxBlock)
    (k : Nat) (J : Journal) (bioList : List Bio)
    (hFit : (J.Start + J.Size) * env.BlockSize < 2 ^ 64)
    (hbl : BiosInRing env J.Start J.Size bioList) :
    BiosInRing env J.Start J.Size (Transaction.WriteTxData env io data k J bioList).2.2 := by
  induction data generalizing k J bioList with
  | nil => exact hbl
  | cons block rest ih =>
    rw [WriteTxData_cons]
    obtain ⟨-, f1, f2, -⟩ := GetNextBlockIndex_frame J
    have hw := WriteTxBlock_ring env J.GetNextBlockIndex.2.2 J.GetNextBlockIndex.2.1 block
      bioList (io k) (by rw [f1, f2]; exact hFit) (by rw [f1, f2]; exact hbl)
    split
    · rw [f1, f2] at hw; exact hw
    · have := ih (k + 1) J.GetNextBlockIndex.2.2 _ (by rw [f1, f2]; exact hFit) hw
      rw [f1, f2] at this
      exact this

theorem WriteTxFail_frame (J : Journal) (self : Nat) (tx : Transaction) (err : Error)
    (bioList : List Bio) :
    (Transaction.WriteTxFail J self tx err bioList).2.1.Start = J.Start ∧
    (Transaction.WriteTxFail J self tx err bioList).2.1.Size = J.Size ∧
    (Transaction.WriteTxFail J self tx err bioList).2.2.2 = bioList := by
  unfold Transaction.WriteTxFail
  rw [OnCommitCompleteLocked_eq]
  obtain ⟨u1, u2, -⟩ := UnlinkTx_frame J self tx.TxId
  simp only
  by_cases h : (!err.Ok) = true
  · rw [if_pos h]; exact ⟨u1, u2, trivial⟩
  · rw [if_neg h]; exact ⟨rfl, rfl, trivial⟩

theorem WriteTxCommit_ring (env : Env) (J : Journal) (self : Nat) (tx : Transaction)
    (bioList : List Bio) (o : StageOutcome)
    (hFit : (J.Start + J.Size) * env.BlockSize < 2 ^ 64)
    (hbl : BiosInRing env J.Start J.Size bioList) :
    (Transaction.WriteTxCommit env J self tx bioList o).2.1.Start = J.Start ∧
    (Transaction.WriteTxCommit env J self tx bioList o).2.1.Size = J.Size ∧
    BiosInRing env J.Start J.Size (Transaction.WriteTxCommit env J self tx bioList o).2.2.2 := by
  unfold Transaction.WriteTxCommit
  obtain ⟨-, f1, f2, -⟩ := GetNextBlockIndex_frame J
  rcases hg : J.GetNextBlockIndex with ⟨err, idx, J1⟩
  rw [hg] at f1 f2
  simp only at f1 f2 ⊢
  split
  · obtain ⟨a1, a2, a3⟩ := WriteTxFail_frame J1 self tx err bioList
    exact ⟨a1.trans f1, a2.trans f2, by rw [a3]; exact hbl⟩
  · have hw := WriteTxBlock_ring env J1 idx (tx.SealedCommitBlock env) bioList o
      (by rw [f1, f2]; exact hFit) (by rw [f1, f2]; exact hbl)
    rcases hb : J1.WriteTxBlock env idx (tx.SealedCommitBlock env) bioList o with ⟨err1, bl1⟩
    rw [hb, f1, f2] at hw
    simp only at hw ⊢
    split
    · obtain ⟨a1, a2, a3⟩ := WriteTxFail_frame J1 self
        { tx with CommitBlock := tx.SealedCommitBlock env } err1 bl1
      exact ⟨a1.trans f1, a2.trans f2, by rw [a3]; exact hw⟩
    · exact ⟨f1, f2, hw⟩

theorem WriteTx_ring (env : Env) (J : Journal) (self : Nat) (tx : Transaction)
    (bioList : List Bio) (io : Nat → StageOutcome)
    (hFit : (J.Start + J.Size) * env.BlockSize < 2 ^ 64)
    (hbl : BiosInRing env J.Start J.Size bioList) :
    (Transaction.WriteTx env J self tx bioList io).2.1.Start = J.Start ∧
    (Transaction.WriteTx env J self tx bioList io).2.1.Size = J.Size ∧
    BiosInRing env J.Start J.Size (Transaction.WriteTx env J self tx bioList io).2.2.2 := by
  unfold Transaction.WriteTx
  split
  · obtain ⟨a1, a2, a3⟩ := WriteTxFail_frame J self tx Error.InvalidState bioList
    exact ⟨a1, a2, by rw [a3]; exact hbl⟩
  · obtain ⟨-, f1, f2, -⟩ := GetNextBlockIndex_frame J
    rcases hg : J.GetNextBlockIndex with ⟨err, idx, J1⟩
    rw [hg] at f1 f2
    simp only at f1 f2 ⊢
    split
    · obtain ⟨a1, a2, a3⟩ := WriteTxFail_frame J1 self tx err bioList
      exact ⟨a1.trans f1, a2.trans f2, by rw [a3]; exact hbl⟩
    · have hw := WriteTxBlock_ring env J1 idx tx.BeginBlock bioList (io 0)
        (by rw [f1, f2]; exact hFit) (by rw [f1, f2]; exact hbl)
      rcases hb : J1.WriteTxBlock env idx tx.BeginBlock bioList (io 0) with ⟨err1, bl1⟩
      rw [hb] at hw
      simp only at hw ⊢
      split
      · obtain ⟨a1, a2, a3⟩ := WriteTxFail_frame J1 self tx err1 bl1
        rw [f1, f2] at hw
        exact ⟨a1.trans f1, a2.trans f2, by rw [a3]; exact hw⟩
      · have hd := WriteTxData_ring env io tx.DataBlockList 1 J1 bl1
          (by rw [f1, f2]; exact hFit) hw
        obtain ⟨-, -, d1, d2⟩ := WriteTxData_frame env io tx.DataBlockList 1 J1 bl1
        rcases hwd : Transaction.WriteTxData env io tx.DataBlockList 1 J1 bl1 with
          ⟨err2, J2, bl2⟩
        rw [hwd] at hd d1 d2
        simp only at hd d1 d2 ⊢
        split
        · obtain ⟨a1, a2, a3⟩ := WriteTxFail_frame J2 self tx err2 bl2
          rw [f1, f2] at hd
          exact ⟨a1.trans (d1.trans f1), a2.trans (d2.trans f2), by rw [a3]; exact hd⟩
        · obtain ⟨c1, c2, c3⟩ := WriteTxCommit_ring env J2 self tx bl2
            (io (tx.DataBlockList.length + 1))
            (by rw [d1, d2, f1, f2]; exact hFit) (by rw [d1, d2]; exact hd)
          rw [d1, d2, f1, f2] at c3
          exact ⟨c1.trans (d1.trans f1), c2.trans (d2.trans f2), c3⟩

/-- Executing bios that all start at journal blocks changes no byte outside
the journal's byte range. -/
theorem BioListExec_outside (env : Env) (res : Nat → Error) (start size : Nat)
    (hPS : env.PageSize ≤ env.BlockSize) (a : Nat)
    (ha : a < start * env.BlockSize ∨ (start + size) * env.BlockSize ≤ a)
    (bioList : List Bio) (i : Nat) (dev : Device)
    (hbl : BiosInRing env start size bioList) :
    (BioListExec env res bioList i dev).2 a = dev a := by
  induction bioList generalizing i dev with
  | nil => rfl
  | cons bio rest ih =>
    unfold BioListExec
    simp only
    rw [ih _ _ (fun b hb => hbl b (List.mem_cons_of_mem _ hb))]
    split
    · obtain ⟨index, h1, h2, h3⟩ := hbl bio (List.mem_cons_self _ _)
      unfold Device.WritePage
      rw [if_neg]
      rw [h3]
      have e1 : start * env.BlockSize ≤ index * env.BlockSize := Nat.mul_le_mul_right _ h1
      have e2 : (index + 1) * env.BlockSize ≤ (start + size) * env.BlockSize :=
        Nat.mul_le_mul_right _ h2
      rw [Nat.add_mul, Nat.one_mul] at e2
      omega
    · rfl


theorem World_WriteTx_ring (env : Env) (w : World) (h : Nat) (bioList : List Bio)
    (io : Nat → StageOutcome) (err : Error) (w1 : World) (bl1 : List Bio)
    (hw : w.WriteTx env h bioList io = some (err, w1, bl1))
    (hFit : (w.J.Start + w.J.Size) * env.BlockSize < 2 ^ 64)
    (hbl : BiosInRing env w.J.Start w.J.Size bioList) :
    w1.J.Start = w.J.Start ∧ w1.J.Size = w.J.Size ∧ w1.Dev = w.Dev ∧
    BiosInRing env w.J.Start w.J.Size bl1 := by
  obtain ⟨-, -, e1, e2⟩ := World_WriteTx_some env w h bioList io err w1 bl1 hw
  obtain ⟨a1, a2, a3⟩ := WriteTx_ring env w.J h (w.Txs h) bioList io hFit hbl
  rw [e1, e2]
  exact ⟨a1, a2, rfl, a3⟩

theorem WriteTxList_ring (env : Env) (io : Nat → Nat → StageOutcome) (txList : List Nat)
    (i : Nat) (err : Error) (w : World) (bioList : List Bio) (e : Error) (w1 : World)
    (bl1 : List Bio) (hl : World.WriteTxList env io txList i err w bioList = some (e, w1, bl1))
    (hFit : (w.J.Start + w.J.Size) * env.BlockSize < 2 ^ 64)
    (hbl : BiosInRing env w.J.Start w.J.Size bioList) :
    w1.J.Start = w.J.Start ∧ w1.J.Size = w.J.Size ∧ w1.Dev = w.Dev ∧
    BiosInRing env w.J.Start w.J.Size bl1 :=
  WriteTxList_some_induction env io
    (fun w2 bl2 => w2.J.Start = w.J.Start ∧ w2.J.Size = w.J.Size ∧ w2.Dev = w.Dev ∧
      BiosInRing env w.J.Start w.J.Size bl2)
    (fun w2 h bl ioo err2 w3 bl3 hp hw => by
      obtain ⟨p1, p2, p3, p4⟩ := hp
      obtain ⟨a1, a2, a3, a4⟩ := World_WriteTx_ring env w2 h bl ioo err2 w3 bl3 hw
        (by rw [p1, p2]; exact hFit) (by rw [p1, p2]; exact p4)
      rw [p1, p2] at a4
      exact ⟨a1.trans p1, a2.trans p2, a3.trans p3, a4⟩)
    txList i err w bioList e w1 bl1 ⟨rfl, rfl, rfl, hbl⟩ hl

theorem CompleteAll_Dev (err : Error) (txList : List Nat) (w : World) :
    (World.CompleteAll err txList w).Dev = w.Dev := by
  induction txList generalizing w with
  | nil => rfl
  | cons h rest ih =>
    unfold World.CompleteAll
    rw [ih]
    unfold World.OnCommitComplete
    rcases Transaction.OnCommitComplete w.J h (w.Txs h) err with ⟨J1, tx1⟩
    rfl

theorem Flush_ring (env : Env) (J : Journal) (bioList : List Bio) (o : StageOutcome)
    (hSize : 1 ≤ J.Size) (hFit : (J.Start + J.Size) * env.BlockSize < 2 ^ 64)
    (hbl : BiosInRing env J.Start J.Size bioList) :
    BiosInRing env J.Start J.Size (J.Flush env bioList o).2 := by
  unfold Journal.Flush
  split
  · exact hbl
  · simp only
    split
    · exact hbl
    · intro bio hb
      rcases List.mem_append.mp hb with hb | hb
      · exact hbl bio hb
      · rw [List.mem_singleton] at hb
        refine ⟨J.Start, Nat.le_refl _, by omega, ?_⟩
        rw [hb]
        exact (journal_range_no_overflow J env.BlockSize hFit).1

/-- A batch over a non-empty pending list that ends: every transaction was
staged, the error is the one of `Flush` or of `Exec`, and the world is the
staged one, with the device as `Exec` leaves it, after the completion loop. -/
theorem RunBatch_some (env : Env) (w : World) (err : Error) (o : BatchOutcome) (e : Error)
    (w1 : World) (hne : w.J.TxList ≠ []) (hb : w.RunBatch env err o = some (e, w1)) :
    ∃ w2 bl dev,
      World.WriteTxList env o.Stage w.J.TxList 0 err
        { w with J := { w.J with TxList := [] } } [] = some (Error.Success, w2, bl) ∧
      e = World.BatchError env w2 bl o ∧
      w1 = World.CompleteAll e w.J.TxList { w2 with Dev := dev } ∧
      (dev = w2.Dev ∨ dev = (BioListExec env o.Exec (w2.J.Flush env bl o.Flush).2 0 w2.Dev).2) := by
  unfold World.RunBatch at hb
  rw [if_neg hne] at hb
  simp only at hb
  rcases hl : World.WriteTxList env o.Stage w.J.TxList 0 err
    { w with J := { w.J with TxList := [] } } [] with _ | ⟨e1, w2, bl⟩
  · rw [hl] at hb
    exact Option.noConfusion hb
  · rw [hl] at hb
    have he1 := WriteTxList_some_Success env o.Stage w.J.TxList 0 err _ [] e1 w2 bl hne hl
    subst he1
    simp only at hb
    rw [if_neg (by decide)] at hb
    rcases hf : w2.J.Flush env bl o.Flush with ⟨err2, bl2⟩
    rw [hf] at hb
    simp only at hb
    have hBE : World.BatchError env w2 bl o =
        if ¬ err2 = Error.Success then err2 else (BioListExec env o.Exec bl2 0 w2.Dev).1 := by
      unfold World.BatchError
      rw [hf]
    by_cases h2 : (!err2.Ok) = true
    · rw [if_pos h2] at hb
      rw [if_pos (not_Ok_ne_Success h2)] at hBE
      simp only [Option.some.injEq, Prod.mk.injEq] at hb
      refine ⟨w2, bl, w2.Dev, rfl, by rw [hBE]; exact hb.1.symm, ?_, Or.inl rfl⟩
      rw [← hb.2, ← hb.1]
    · rw [if_neg h2] at hb
      rw [if_neg (fun hn => hn (Ok_eq_Success h2))] at hBE
      simp only [Option.some.injEq, Prod.mk.injEq] at hb
      refine ⟨w2, bl, (BioListExec env o.Exec bl2 0 w2.Dev).2, rfl,
        by rw [hBE]; exact hb.1.symm, ?_, Or.inr (by rw [hf])⟩
      rw [← hb.2, ← hb.1]

/-- One batch of the writer changes no device byte outside the journal's byte
range `[Start * bs, (Start + Size) * bs)`. -/
theorem RunBatch_outside (env : Env) (w : World) (err : Error) (o : BatchOutcome) (e : Error)
    (w1 : World) (hb : w.RunBatch env err o = some (e, w1))
    (hPS : env.PageSize ≤ env.BlockSize) (hSize : 1 ≤ w.J.Size)
    (hFit : (w.J.Start + w.J.Size) * env.BlockSize < 2 ^ 64) (a : Nat)
    (ha : a < w.J.Start * env.BlockSize ∨ (w.J.Start + w.J.Size) * env.BlockSize ≤ a) :
    w1.Dev a = w.Dev a := by
  by_cases hne : w.J.TxList = []
  · unfold World.RunBatch at hb
    rw [if_pos hne] at hb
    simp only [Option.some.injEq, Prod.mk.injEq] at hb
    rw [← hb.2]
  · obtain ⟨w2, bl, dev, hl, -, hw1, hdev⟩ := RunBatch_some env w err o e w1 hne hb
    obtain ⟨a1, a2, a3, a4⟩ := WriteTxList_ring env o.Stage w.J.TxList 0 err
      { w with J := { w.J with TxList := [] } } [] _ w2 bl hl hFit
      (fun _ hb => absurd hb (List.not_mem_nil _))
    simp only at a1 a2 a3 a4
    rw [hw1, CompleteAll_Dev]
    simp only
    rcases hdev with hdev | hdev
    · rw [hdev, a3]
    · have hf := Flush_ring env w2.J bl o.Flush (by rw [a2]; exact hSize)
        (by rw [a1, a2]; exact hFit) (by rw [a1, a2]; exact a4)
      rw [a1, a2] at hf
      rw [hdev, BioListExec_outside env o.Exec w.J.Start w.J.Size hPS a ha _ _ _ hf, a3]

theorem Commit_frame (J : Journal) (self : Nat) (tx : Transaction) (addTail : Bool) :
    (Transaction.Commit J self tx addTail).2.1.Start = J.Start ∧
    (Transaction.Commit J self tx addTail).2.1.Size = J.Size := by
  unfold Transaction.Commit
  obtain ⟨u1, u2, -⟩ := UnlinkTx_frame J self tx.TxId
  by_cases hs : tx.State ≠ TxState.New
  · rw [if_pos hs]
    exact ⟨rfl, rfl⟩
  · rw [if_neg hs]
    unfold Journal.StartCommitTx
    by_cases ht : J.TxTable tx.TxId ≠ some self
    · simp only [if_pos ht]
      exact ⟨u1, u2⟩
    · simp only [if_neg ht]
      cases addTail
      · exact ⟨u1, u2⟩
      · exact ⟨rfl, rfl⟩

theorem World_Commit_frame (w : World) (h : Nat) (addTail : Bool) :
    (w.Commit h addTail).2.Dev = w.Dev ∧ (w.Commit h addTail).2.J.Start = w.J.Start ∧
    (w.Commit h addTail).2.J.Size = w.J.Size := by
  unfold World.Commit
  obtain ⟨c1, c2⟩ := Commit_frame w.J h (w.Txs h) addTail
  rcases hc : Transaction.Commit w.J h (w.Txs h) addTail with ⟨step, J1, tx1⟩
  rw [hc] at c1 c2
  exact ⟨rfl, c1, c2⟩

theorem World_Write_frame (env : Env) (w : World) (h : Nat) (page : List Nat) (position : Nat)
    (alloc : Nat → Bool) (err : Error) (w1 : World)
    (hw : w.Write env h page position alloc = some (err, w1)) :
    w1.Dev = w.Dev ∧ w1.J = w.J := by
  unfold World.Write at hw
  split at hw
  · exact Option.noConfusion hw
  · simp only [Option.some.injEq, Prod.mk.injEq] at hw
    obtain ⟨-, rfl⟩ := hw
    exact ⟨rfl, rfl⟩

theorem World_BeginTx_frame (env : Env) (w : World) (txId : Nat) (o : BeginTxOutcome) :
    (w.BeginTx env txId o).2.Dev = w.Dev ∧ (w.BeginTx env txId o).2.J.Start = w.J.Start ∧
    (w.BeginTx env txId o).2.J.Size = w.J.Size := by
  unfold World.BeginTx
  split
  · exact ⟨rfl, rfl, rfl⟩
  · split
    · exact ⟨rfl, rfl, rfl⟩
    · split
      · exact ⟨rfl, rfl, rfl⟩
      · split <;> exact ⟨rfl, rfl, rfl⟩



theorem ReadBytes_getElem? (dev : Device) (pos len i : Nat) (h : i < len) :
    (dev.ReadBytes pos len)[i]? = some (dev (pos + i)) := by
  unfold Device.ReadBytes
  rw [List.getElem?_map, List.getElem?_range h]
  rfl

/-- A successful `Write` found no intersection with the journal range. -/
theorem Write_success_checks (env : Env) (J : Journal) (tx : Transaction) (page : List Nat)
    (position : Nat) (alloc : Nat → Bool) (tx1 : Transaction)
    (h : Transaction.Write env J tx page position alloc = some (Error.Success, tx1)) :
    ¬ position < page.length ∧
    CheckIntersection position (add64 position page.length)
      (mul64 J.Start env.BlockSize) (mul64 (add64 J.Start J.Size) env.BlockSize) = false := by
  unfold Transaction.Write at h
  split_ifs at h with h1 h2 h3
  · simp at h
  · simp at h
  · simp at h
  · exact ⟨h2, by simpa using h3⟩

/-- The bytes at the target of a `Write`, after `BeginTx`, a successful `Write`,
`Commit` and one batch of the writer that ends, whatever its error, are the bytes the
device had before `BeginTx`: the batch writes journal blocks only, and
`Load` with its `Replay` writes nothing. -/
theorem Commit_flow_keeps_target_bytes (env : Env) (w0 : World) (txId : Nat)
    (bo : BeginTxOutcome) (h : Nat) (w1 : World) (page : List Nat) (position : Nat)
    (alloc : Nat → Bool) (w2 : World) (addTail : Bool) (err0 : Error) (o : BatchOutcome)
    (e : Error) (w3 : World)
    (hPS : env.PageSize ≤ env.BlockSize) (hSize : 1 ≤ w0.J.Size)
    (hFitJ : (w0.J.Start + w0.J.Size) * env.BlockSize < 2 ^ 64)
    (hFitP : position + page.length < 2 ^ 64)
    (hBegin : w0.BeginTx env txId bo = (some h, w1))
    (hWrite : w1.Write env h page position alloc = some (Error.Success, w2))
    (hBatch : (w2.Commit h addTail).2.RunBatch env err0 o = some (e, w3)) :
    w3.Dev.ReadBytes position page.length = w0.Dev.ReadBytes position page.length := by
  obtain ⟨b1, b2, b3⟩ := World_BeginTx_frame env w0 txId bo
  rw [hBegin] at b1 b2 b3
  simp only at b1 b2 b3
  obtain ⟨f1, f2⟩ := World_Write_frame env w1 h page position alloc _ w2 hWrite
  obtain ⟨c1, c2, c3⟩ := World_Commit_frame w2 h addTail
  have hS : (w2.Commit h addTail).2.J.Start = w0.J.Start := by rw [c2, f2, b2]
  have hZ : (w2.Commit h addTail).2.J.Size = w0.J.Size := by rw [c3, f2, b3]
  have hchk : ¬ position < page.length ∧
      CheckIntersection position (add64 position page.length)
        (mul64 w1.J.Start env.BlockSize) (mul64 (add64 w1.J.Start w1.J.Size) env.BlockSize)
        = false := by
    unfold World.Write at hWrite
    split at hWrite
    · exact Option.noConfusion hWrite
    · rename_i err tx1 hw
      simp only [Option.some.injEq, Prod.mk.injEq] at hWrite
      rw [hWrite.1] at hw
      exact Write_success_checks env w1.J (w1.Txs h) page position alloc tx1 hw
  obtain ⟨-, hci⟩ := hchk
  have hFit1 : (w1.J.Start + w1.J.Size) * env.BlockSize < 2 ^ 64 := by
    rw [b2, b3]; exact hFitJ
  obtain ⟨e1, e2⟩ := journal_range_no_overflow w1.J env.BlockSize hFit1
  rw [e1, e2, add64_eq_of_lt hFitP, b2, b3] at hci
  have hno : ¬ (position < position + page.length ∧
      w0.J.Start * env.BlockSize < (w0.J.Start + w0.J.Size) * env.BlockSize ∧
      w0.J.Start * env.BlockSize < position + page.length ∧
      position < (w0.J.Start + w0.J.Size) * env.BlockSize) := by
    rw [← CheckIntersection_iff, hci]
    decide
  unfold Device.ReadBytes
  apply List.map_congr_left
  intro i hi
  rw [List.mem_range] at hi
  rw [RunBatch_outside env _ err0 o e w3 hBatch hPS (by rw [hZ]; exact hSize)
    (by rw [hS, hZ]; exact hFitJ) (position + i) (by rw [hS, hZ]; omega), c1, f1, b1]


theorem ExampleWorldWritten_Write :
    ExampleWorldBegun.Write ExampleEnv 0 ExamplePage 69632 (fun _ => true)
      = some (Error.Success, ExampleWorldWritten) := by
  have hlen : ExamplePage.length = 4096 := List.length_replicate _ _
  have h := Write_two_blocks ExampleEnv ExampleWorldBegun.J (ExampleWorldBegun.Txs 0)
    ExamplePage 69632 (fun _ => true) rfl
    (by rw [hlen]; decide) (by rw [hlen]; decide) (by decide) (by rw [hlen]; decide)
    (by rw [hlen]; decide) (fun _ => rfl)
  unfold World.Write
  rw [h]
  rfl

set_option maxRecDepth 100000 in
/-- C1, the code at the failing input: on the zeroed example device with the
journal at `Start = 1`, `Size = 16` and 4096-byte blocks, `BeginTx`, `Write` of
a page of 4096 bytes `0xAB` at position 69632 (accepted, `Success`) and `Commit`
(the writer's batch succeeds and `Commit` returns `Success`) are followed by a
crash and a successful `Load` on the same device.  The device bytes
`[69632, 69632 + 4096)` are then still the bytes from before `BeginTx`, byte
69632 is 0, and the range does not hold the page. -/
theorem Load_after_commit_does_not_restore_page :
    ExampleWorld.BeginTx ExampleEnv 7 BeginTxOutcome.AllOk = (some 0, ExampleWorldBegun) ∧
    ExampleWorldBegun.Write ExampleEnv 0 ExamplePage 69632 (fun _ => true)
      = some (Error.Success, ExampleWorldWritten) ∧
    (ExampleWorldWritten.Commit 0 true).1 = CommitStep.Waiting ∧
    (ExampleWorldWritten.Commit 0 true).2.J.TxList = [0] ∧
    (ExampleWorldWritten.Commit 0 true).2.RunBatch ExampleEnv Error.Success
      BatchOutcome.AllOk = some (Error.Success, ExampleWorldDurable) ∧
    (ExampleWorldDurable.Txs 0).CommitEvent = true ∧
    (ExampleWorldDurable.Txs 0).CommitWake = Error.Success ∧
    (Journal.Load ExampleEnv (Journal.Create 0) ExampleWorldDurable.Dev 1
      LoadOutcome.AllOk).1 = Error.Success ∧
    ExampleWorldDurable.Dev.ReadBytes 69632 4096 = ExampleDevice.ReadBytes 69632 4096 ∧
    ExampleWorldDurable.Dev 69632 = 0 ∧
    ExamplePage[0]? = some 0xAB ∧
    ExampleWorldDurable.Dev.ReadBytes 69632 4096 ≠ ExamplePage := by
  have hlen : ExamplePage.length = 4096 := List.length_replicate _ _
  have hbatch : (ExampleWorldWritten.Commit 0 true).2.RunBatch ExampleEnv Error.Success
      BatchOutcome.AllOk = some (Error.Success, ExampleWorldDurable) := by
    have h := getD_of_isSome
      ((ExampleWorldWritten.Commit 0 true).2.RunBatch ExampleEnv Error.Success
        BatchOutcome.AllOk) (Error.Success, ExampleWorld) (by decide)
    rw [h]
    exact congrArg some (Prod.ext (by decide) rfl)
  have hflow := Commit_flow_keeps_target_bytes ExampleEnv ExampleWorld 7 BeginTxOutcome.AllOk 0
    ExampleWorldBegun ExamplePage 69632 (fun _ => true) ExampleWorldWritten true Error.Success
    BatchOutcome.AllOk Error.Success ExampleWorldDurable (by decide) (by decide) (by decide)
    (by rw [hlen]; decide) rfl ExampleWorldWritten_Write hbatch
  rw [hlen] at hflow
  have hbyte : (ExampleWorldDurable.Dev.ReadBytes 69632 4096)[0]? = some 0 := by
    rw [hflow, ReadBytes_getElem? _ _ _ _ (by decide)]
    decide
  have hpage : ExamplePage[0]? = some 0xAB :=
    List.getElem?_replicate_of_lt (by decide)
  refine ⟨rfl, ExampleWorldWritten_Write, by decide, by decide, hbatch, by decide, by decide,
    by decide, hflow, ?_, hpage, ?_⟩
  · rw [ReadBytes_getElem? _ _ _ _ (by decide)] at hbyte
    simpa using hbyte
  · intro e
    rw [e, hpage] at hbyte
    exact absurd hbyte (by decide)


/-! ## The header staged by `Flush` -/

theorem Flush_HeaderFor (env : Env) (J : Journal) (bioList : List Bio) (o : StageOutcome)
    (h : (J.Flush env bioList o).1 = Error.Success) :
    (J.Flush env bioList o).2 = bioList ++
      [{ Page := PageData.Header (Journal.HeaderFor env J.Size),
         Position := mul64 J.Start env.BlockSize, Write := true, Flush := false }] := by
  unfold Journal.Flush at h ⊢
  split at h
  · rename_i h1
    simp only at h
    rw [h] at h1
    exact absurd h1 (by decide)
  · simp only at h ⊢
    rw [if_neg (by assumption)]
    split at h
    · rename_i h1
      simp only at h
      rw [h] at h1
      exact absurd h1 (by decide)
    · rename_i h2
      rw [if_neg h2]
      rfl

/-! ## Block serialization -/

/-- The hash `WriteTxBlockPrepare` stores is the hash of the fields before it. -/
theorem SealTxBlock_Hash (env : Env) (b : JournalTxBlock) :
    (Journal.SealTxBlock env b).Hash = env.XXHashSum (Journal.SealTxBlock env b).HashedPart :=
  rfl

/-- C13: for a block of type TxBegin, TxData or TxCommit whose fields hold
host-order values of their width, the byte-order conversions being inverse to
each other on 32-bit and on 64-bit values, `WriteTxBlockPrepare` returns
`Success` and its output carries as `Hash` the xxHash of the fields before
`Hash`; `ReadTxBlockComplete` on that output returns `Success` and gives back
the block with `Type`, `Position`, `DataSize`, `State`, `Time` (and TxId and
data) as they were, the hash being the one `WriteTxBlockPrepare` stored. -/
theorem Prepare_then_Complete_restores (env : Env) (b : JournalTxBlock)
    (h32 : ∀ x, x < 2 ^ 32 → env.Le32ToCpu (env.CpuToLe32 x) = x)
    (h64 : ∀ x, x < 2 ^ 64 → env.Le64ToCpu (env.CpuToLe64 x) = x)
    (hType : b.BlockType = env.JournalBlockTypeTxBegin ∨
      b.BlockType = env.JournalBlockTypeTxData ∨
      b.BlockType = env.JournalBlockTypeTxCommit)
    (hT : b.BlockType < 2 ^ 32) (hP : b.Position < 2 ^ 64) (hD : b.DataSize < 2 ^ 32)
    (hS : b.State < 2 ^ 32) (hTm : b.Time < 2 ^ 64) :
    (Journal.WriteTxBlockPrepare env b).1 = Error.Success ∧
    (Journal.WriteTxBlockPrepare env b).2.Hash =
      env.XXHashSum (Journal.WriteTxBlockPrepare env b).2.HashedPart ∧
    (Journal.ReadTxBlockComplete env (Journal.WriteTxBlockPrepare env b).2).1
      = Error.Success ∧
    (Journal.ReadTxBlockComplete env (Journal.WriteTxBlockPrepare env b).2).2 =
      { b with Hash := (Journal.WriteTxBlockPrepare env b).2.Hash } ∧
    (Journal.ReadTxBlockComplete env (Journal.WriteTxBlockPrepare env b).2).2.BlockType
      = b.BlockType ∧
    (Journal.ReadTxBlockComplete env (Journal.WriteTxBlockPrepare env b).2).2.Position
      = b.Position ∧
    (Journal.ReadTxBlockComplete env (Journal.WriteTxBlockPrepare env b).2).2.DataSize
      = b.DataSize ∧
    (Journal.ReadTxBlockComplete env (Journal.WriteTxBlockPrepare env b).2).2.State
      = b.State ∧
    (Journal.ReadTxBlockComplete env (Journal.WriteTxBlockPrepare env b).2).2.Time
      = b.Time := by
  obtain ⟨d1, d2, d3⟩ := env.types_distinct
  have key : (Journal.WriteTxBlockPrepare env b).1 = Error.Success ∧
      (Journal.ReadTxBlockComplete env (Journal.WriteTxBlockPrepare env b).2) =
        (Error.Success, { b with Hash := (Journal.WriteTxBlockPrepare env b).2.Hash }) := by
    have eT := h32 b.BlockType hT
    rcases hType with h | h | h
    · have e : Journal.WriteTxBlockPrepare env b = (Error.Success, Journal.SealTxBlock env b) := by
        unfold Journal.WriteTxBlockPrepare
        rw [if_pos h]
      rw [e]
      refine ⟨rfl, ?_⟩
      unfold Journal.ReadTxBlockComplete
      rw [if_neg (by rw [SealTxBlock_Hash]; exact fun hne => hne rfl)]
      simp only [Journal.SealTxBlock, eT]
      rw [if_pos h]
    · have e : Journal.WriteTxBlockPrepare env b = (Error.Success, Journal.SealTxBlock env
          { b with Position := env.CpuToLe64 b.Position,
                   DataSize := env.CpuToLe32 b.DataSize }) := by
        unfold Journal.WriteTxBlockPrepare
        rw [if_neg (by rw [h]; exact fun e => d1 e.symm), if_pos h]
      rw [e]
      refine ⟨rfl, ?_⟩
      unfold Journal.ReadTxBlockComplete
      rw [if_neg (by rw [SealTxBlock_Hash]; exact fun hne => hne rfl)]
      simp only [Journal.SealTxBlock, eT, h64 b.Position hP, h32 b.DataSize hD]
      rw [if_neg (by rw [h]; exact fun e => d1 e.symm), if_pos h]
    · have e : Journal.WriteTxBlockPrepare env b = (Error.Success, Journal.SealTxBlock env
          { b with State := env.CpuToLe32 b.State,
                   Time := env.CpuToLe64 b.Time }) := by
        unfold Journal.WriteTxBlockPrepare
        rw [if_neg (by rw [h]; exact fun e => d2 e.symm),
          if_neg (by rw [h]; exact fun e => d3 e.symm), if_pos h]
      rw [e]
      refine ⟨rfl, ?_⟩
      unfold Journal.ReadTxBlockComplete
      rw [if_neg (by rw [SealTxBlock_Hash]; exact fun hne => hne rfl)]
      simp only [Journal.SealTxBlock, eT, h64 b.Time hTm, h32 b.State hS]
      rw [if_neg (by rw [h]; exact fun e => d2 e.symm),
        if_neg (by rw [h]; exact fun e => d3 e.symm), if_pos h]
  obtain ⟨k1, k2⟩ := key
  have hHash : (Journal.WriteTxBlockPrepare env b).2.Hash =
      env.XXHashSum (Journal.WriteTxBlockPrepare env b).2.HashedPart := by
    unfold Journal.WriteTxBlockPrepare
    split_ifs
    · rfl
    · rfl
    · rfl
    · rcases hType with h | h | h <;> contradiction
  rw [k2]
  exact ⟨k1, hHash, rfl, rfl, rfl, rfl, rfl, rfl, rfl⟩

/-- Witness for C13: the example data block is prepared and read back in the
example environment. -/
theorem Prepare_then_Complete_restores_witness :
    (Journal.WriteTxBlockPrepare ExampleEnv ExampleDataBlock).1 = Error.Success ∧
    (Journal.WriteTxBlockPrepare ExampleEnv ExampleDataBlock).2.Hash =
      List.replicate 32 18 ∧
    (Journal.ReadTxBlockComplete ExampleEnv
      (Journal.WriteTxBlockPrepare ExampleEnv ExampleDataBlock).2) =
      (Error.Success, { ExampleDataBlock with Hash := List.replicate 32 18 }) :=
  ⟨(Prepare_then_Complete_restores ExampleEnv ExampleDataBlock (fun _ _ => rfl)
      (fun _ _ => rfl) (Or.inr (Or.inl rfl)) (by decide) (by decide) (by decide) (by decide)
      (by decide)).1,
   by decide, by decide⟩

/-- C14: `ReadTxBlockComplete` returns `DataCorrupt` whenever the stored `Hash`
differs from the xxHash of the fields before it; when the hash matches it
returns `InvalidValue` if the decoded `Type` is none of TxBegin, TxData,
TxCommit and `Success` if it is one of them.  `WriteTxBlockPrepare` returns
`InvalidValue` for every block whose `Type` is none of the three. -/
theorem ReadTxBlockComplete_and_Prepare_error_kinds (env : Env) (block : JournalTxBlock) :
    (env.XXHashSum block.HashedPart ≠ block.Hash →
      (Journal.ReadTxBlockComplete env block).1 = Error.DataCorrupt) ∧
    (env.XXHashSum block.HashedPart = block.Hash →
      ((env.Le32ToCpu block.BlockType ≠ env.JournalBlockTypeTxBegin ∧
        env.Le32ToCpu block.BlockType ≠ env.JournalBlockTypeTxData ∧
        env.Le32ToCpu block.BlockType ≠ env.JournalBlockTypeTxCommit) →
        (Journal.ReadTxBlockComplete env block).1 = Error.InvalidValue) ∧
      ((env.Le32ToCpu block.BlockType = env.JournalBlockTypeTxBegin ∨
        env.Le32ToCpu block.BlockType = env.JournalBlockTypeTxData ∨
        env.Le32ToCpu block.BlockType = env.JournalBlockTypeTxCommit) →
        (Journal.ReadTxBlockComplete env block).1 = Error.Success)) ∧
    ((block.BlockType ≠ env.JournalBlockTypeTxBegin ∧
      block.BlockType ≠ env.JournalBlockTypeTxData ∧
      block.BlockType ≠ env.JournalBlockTypeTxCommit) →
      (Journal.WriteTxBlockPrepare env block).1 = Error.InvalidValue) := by
  refine ⟨?_, ?_, ?_⟩
  · intro h
    unfold Journal.ReadTxBlockComplete
    rw [if_pos h]
  · intro h
    refine ⟨?_, ?_⟩
    · rintro ⟨n1, n2, n3⟩
      unfold Journal.ReadTxBlockComplete
      rw [if_neg (fun hne => hne h)]
      simp only
      rw [if_neg n1, if_neg n2, if_neg n3]
    · intro ht
      unfold Journal.ReadTxBlockComplete
      rw [if_neg (fun hne => hne h)]
      simp only
      split_ifs
      · rfl
      · rfl
      · rfl
      · rcases ht with h1 | h1 | h1 <;> contradiction
  · rintro ⟨n1, n2, n3⟩
    unfold Journal.WriteTxBlockPrepare
    rw [if_neg n1, if_neg n2, if_neg n3]

/-- C15: for every `start` and every `size <= 1`, `Format(start, size)` returns
`InvalidValue`, leaves the device as it was (no write is issued) and leaves the
journal, in particular `Start` and `Size`, unchanged. -/
theorem Format_size_le_one_InvalidValue (env : Env) (J : Journal) (dev : Device)
    (start size : Nat) (o : FormatOutcome) (h : size ≤ 1) :
    Journal.Format env J dev start size o = (Error.InvalidValue, J, dev) ∧
    (Journal.Format env J dev start size o).1 = Error.InvalidValue ∧
    (Journal.Format env J dev start size o).2.2 = dev ∧
    (Journal.Format env J dev start size o).2.1.Start = J.Start ∧
    (Journal.Format env J dev start size o).2.1.Size = J.Size := by
  have e : Journal.Format env J dev start size o = (Error.InvalidValue, J, dev) := by
    unfold Journal.Format
    rw [if_pos h]
  rw [e]
  exact ⟨rfl, rfl, rfl, rfl, rfl⟩

/-- `Format(1, 0)` and `Format(1, 1)` on the example journal. -/
theorem Format_size_le_one_InvalidValue_witness :
    (Journal.Format ExampleEnv ExampleJournal ExampleDevice 1 0
      ⟨Error.Success, Error.Success⟩).1 = Error.InvalidValue ∧
    (Journal.Format ExampleEnv ExampleJournal ExampleDevice 1 1
      ⟨Error.Success, Error.Success⟩).1 = Error.InvalidValue :=
  ⟨(Format_size_le_one_InvalidValue ExampleEnv ExampleJournal ExampleDevice 1 0
      ⟨Error.Success, Error.Success⟩ (by decide)).2.1,
   (Format_size_le_one_InvalidValue ExampleEnv ExampleJournal ExampleDevice 1 1
      ⟨Error.Success, Error.Success⟩ (by decide)).2.1⟩

/-- C17: `Load` having read the header page (page allocation and read
succeeding): if the decoded `Magic` differs from `JournalMagic`, `Load` returns
`BadMagic`; otherwise if the stored `Hash` differs from the xxHash of the
fields before it, `Load` returns `DataCorrupt`; otherwise if the decoded `Size`
is at most 1, `Load` returns `BadSize`; in all three cases the journal is left
as it was: `Start`, `Size`, `CurrBlockIndex`, `State` are unchanged and no
writer thread is started. -/
theorem Load_rejects_bad_header (env : Env) (J : Journal) (dev : Device) (start : Nat)
    (o : LoadOutcome) (hp : o.PageCreate = Error.Success) (hr : o.Read = Error.Success) :
    (env.Le32ToCpu (env.HeaderView
        (dev.ReadBytes (mul64 start env.BlockSize) env.PageSize)).Magic ≠ env.JournalMagic →
      Journal.Load env J dev start o = (Error.BadMagic, J)) ∧
    (env.Le32ToCpu (env.HeaderView
        (dev.ReadBytes (mul64 start env.BlockSize) env.PageSize)).Magic = env.JournalMagic →
      env.XXHashSum (env.HeaderView
        (dev.ReadBytes (mul64 start env.BlockSize) env.PageSize)).HashedPart ≠
        (env.HeaderView (dev.ReadBytes (mul64 start env.BlockSize) env.PageSize)).Hash →
      Journal.Load env J dev start o = (Error.DataCorrupt, J)) ∧
    (env.Le32ToCpu (env.HeaderView
        (dev.ReadBytes (mul64 start env.BlockSize) env.PageSize)).Magic = env.JournalMagic →
      env.XXHashSum (env.HeaderView
        (dev.ReadBytes (mul64 start env.BlockSize) env.PageSize)).HashedPart =
        (env.HeaderView (dev.ReadBytes (mul64 start env.BlockSize) env.PageSize)).Hash →
      env.Le64ToCpu (env.HeaderView
        (dev.ReadBytes (mul64 start env.BlockSize) env.PageSize)).Size ≤ 1 →
      Journal.Load env J dev start o = (Error.BadSize, J)) := by
  have h1 : (!o.PageCreate.Ok) = false := by rw [hp]; rfl
  have h2 : (!o.Read.Ok) = false := by rw [hr]; rfl
  refine ⟨?_, ?_, ?_⟩
  · intro hm
    unfold Journal.Load
    simp only [h1, h2, Bool.false_eq_true, if_false]
    rw [if_pos hm]
  · intro hm hh
    unfold Journal.Load
    simp only [h1, h2, Bool.false_eq_true, if_false]
    rw [if_neg (fun hne => hne hm), if_pos hh]
  · intro hm hh hs
    unfold Journal.Load
    simp only [h1, h2, Bool.false_eq_true, if_false]
    rw [if_neg (fun hne => hne hm), if_neg (fun hne => hne hh), if_pos hs]

set_option maxRecDepth 100000 in
/-- `Load(1)` of a fresh journal on a zeroed device, on a device whose header
has a wrong hash, and on a device whose header has size 1. -/
theorem Load_rejects_bad_header_witness :
    Journal.Load ExampleEnv (Journal.Create 0) (fun _ => 0) 1 LoadOutcome.AllOk
      = (Error.BadMagic, Journal.Create 0) ∧
    Journal.Load ExampleEnv (Journal.Create 0) (ExampleDeviceWith 16 0) 1 LoadOutcome.AllOk
      = (Error.DataCorrupt, Journal.Create 0) ∧
    Journal.Load ExampleEnv (Journal.Create 0) (ExampleDeviceWith 1 219) 1 LoadOutcome.AllOk
      = (Error.BadSize, Journal.Create 0) :=
  ⟨(Load_rejects_bad_header ExampleEnv (Journal.Create 0) (fun _ => 0) 1 LoadOutcome.AllOk
      rfl rfl).1 (by decide),
   (Load_rejects_bad_header ExampleEnv (Journal.Create 0) (ExampleDeviceWith 16 0) 1
      LoadOutcome.AllOk rfl rfl).2.1 (by decide) (by decide),
   (Load_rejects_bad_header ExampleEnv (Journal.Create 0) (ExampleDeviceWith 1 219) 1
      LoadOutcome.AllOk rfl rfl).2.2 (by decide) (by decide) (by decide)⟩

/-- A block with a wrong hash, one with a right hash and an unknown type, one
with a right hash and type TxData, and a block of unknown type handed to
`WriteTxBlockPrepare`, in the example environment. -/
theorem ReadTxBlockComplete_and_Prepare_error_kinds_witness :
    (Journal.ReadTxBlockComplete ExampleEnv (ExampleBlockWith 2 0)).1 = Error.DataCorrupt ∧
    (Journal.ReadTxBlockComplete ExampleEnv (ExampleBlockWith 9 16)).1 = Error.InvalidValue ∧
    (Journal.ReadTxBlockComplete ExampleEnv (ExampleBlockWith 2 9)).1 = Error.Success ∧
    (Journal.WriteTxBlockPrepare ExampleEnv (ExampleBlockWith 9 0)).1 = Error.InvalidValue :=
  ⟨(ReadTxBlockComplete_and_Prepare_error_kinds ExampleEnv (ExampleBlockWith 2 0)).1
      (by decide),
   ((ReadTxBlockComplete_and_Prepare_error_kinds ExampleEnv (ExampleBlockWith 9 16)).2.1
      (by decide)).1 (by decide),
   ((ReadTxBlockComplete_and_Prepare_error_kinds ExampleEnv (ExampleBlockWith 2 9)).2.1
      (by decide)).2 (by decide),
   (ReadTxBlockComplete_and_Prepare_error_kinds ExampleEnv (ExampleBlockWith 9 0)).2.2
      (by decide)⟩

/-! ## Completion of a batch -/

theorem OnCommitComplete_Txs (w : World) (h : Nat) (err : Error) :
    (w.OnCommitComplete h err).Txs = Function.update w.Txs h
      { w.Txs h with
        State := if err = Error.Success then TxState.Commited else TxState.Canceled,
        CommitResult := err, CommitEvent := true } := by
  unfold World.OnCommitComplete Transaction.OnCommitComplete
  rw [OnCommitCompleteLocked_eq]
  simp only
  cases err <;> rfl

/-- After the completion loop every transaction of the list is completed with
the error of the batch. -/
theorem CompleteAll_completed (err : Error) (txList : List Nat) (w : World) (h : Nat)
    (hh : h ∈ txList ∨ (w.Txs h).CompletedWith err) :
    ((World.CompleteAll err txList w).Txs h).CompletedWith err := by
  induction txList generalizing w with
  | nil =>
    rcases hh with hh | hh
    · exact absurd hh (List.not_mem_nil _)
    · exact hh
  | cons h1 rest ih =>
    unfold World.CompleteAll
    apply ih
    by_cases e : h = h1
    · right
      rw [OnCommitComplete_Txs, e, Function.update_same]
      exact ⟨rfl, rfl, rfl⟩
    · rcases hh with hh | hh
      · rcases List.mem_cons.mp hh with hh | hh
        · exact absurd hh e
        · exact Or.inl hh
      · right
        rw [OnCommitComplete_Txs, Function.update_noteq e]
        exact hh

/-- The staging loop does not return when the staging of its first
transaction fails. -/
theorem WriteTxList_none_of_first (env : Env) (io : Nat → Nat → StageOutcome) (h : Nat)
    (rest : List Nat) (i : Nat) (err : Error) (w : World) (bioList : List Bio)
    (hf : (Transaction.WriteTx env w.J h (w.Txs h) bioList (io i)).1 ≠ Error.Success) :
    World.WriteTxList env io (h :: rest) i err w bioList = none := by
  unfold World.WriteTxList
  rw [World_WriteTx_none env w h bioList (io i) hf]

/-- C11: a batch in which the staging of a transaction fails does not end.
`Journal::WriteTx` holds the journal's `Lock` exclusively, and the failure exit
of `Transaction::WriteTx` asks for its shared side in `UnlinkTx`, before
`CommitResult` is assigned and the commit event is signalled: the call does not
return, the batch does not end, and no transaction of the batch is completed.
In the example the page for the begin block cannot be allocated, staging fails
with `NoMemory`, and the batch does not end; the commit event of the
transaction is unsignalled.  A batch that ends has staged every transaction;
its error is the error of staging the header, else of executing the bio list,
and every transaction of the batch then has its commit event signalled and
that error as `CommitResult`, in state `Commited` for `Success` and `Canceled`
otherwise; in the example with `Success`, and with `IoError` from `Exec`. -/
theorem RunBatch_does_not_end_when_staging_fails :
    (∀ (env : Env) (w : World) (h : Nat) (bioList : List Bio) (io : Nat → StageOutcome),
      (Transaction.WriteTx env w.J h (w.Txs h) bioList io).1 ≠ Error.Success →
      w.WriteTx env h bioList io = none) ∧
    (∀ (env : Env) (w : World) (err : Error) (o : BatchOutcome) (h : Nat) (rest : List Nat),
      w.J.TxList = h :: rest →
      (Transaction.WriteTx env { w.J with TxList := [] } h (w.Txs h) []
        (o.Stage 0)).1 ≠ Error.Success →
      w.RunBatch env err o = none) ∧
    (∀ (env : Env) (w : World) (err : Error) (o : BatchOutcome),
      w.J.TxList ≠ [] →
      World.WriteTxList env o.Stage w.J.TxList 0 err
        { w with J := { w.J with TxList := [] } } [] = none →
      w.RunBatch env err o = none) ∧
    ExampleWorldWaiting.J.TxList = [0] ∧
    (Transaction.WriteTx ExampleEnv { ExampleWorldWaiting.J with TxList := [] } 0
      (ExampleWorldWaiting.Txs 0) [] (BatchOutcome.StageFails.Stage 0)).1 = Error.NoMemory ∧
    ExampleWorldWaiting.RunBatch ExampleEnv Error.Success BatchOutcome.StageFails = none ∧
    (ExampleWorldWaiting.Txs 0).CommitEvent = false ∧
    (∀ (env : Env) (w : World) (err : Error) (o : BatchOutcome) (e : Error) (w1 : World),
      w.J.TxList ≠ [] → w.RunBatch env err o = some (e, w1) →
      (∃ w2 bl,
        World.WriteTxList env o.Stage w.J.TxList 0 err
          { w with J := { w.J with TxList := [] } } [] = some (Error.Success, w2, bl) ∧
        e = World.BatchError env w2 bl o) ∧
      ∀ h ∈ w.J.TxList,
        (w1.Txs h).CommitEvent = true ∧ (w1.Txs h).CommitResult = e ∧
        (e = Error.Success → (w1.Txs h).State = TxState.Commited) ∧
        (e ≠ Error.Success → (w1.Txs h).State = TxState.Canceled)) ∧
    ((ExampleWorldWaiting.RunBatch ExampleEnv Error.Success BatchOutcome.AllOk).map
      (fun r => (r.1, (r.2.Txs 0).State, (r.2.Txs 0).CommitResult, (r.2.Txs 0).CommitEvent)))
      = some (Error.Success, TxState.Commited, Error.Success, true) ∧
    ((ExampleWorldWaiting.RunBatch ExampleEnv Error.Success BatchOutcome.ExecFails).map
      (fun r => (r.1, (r.2.Txs 0).State, (r.2.Txs 0).CommitResult, (r.2.Txs 0).CommitEvent)))
      = some (Error.IoError, TxState.Canceled, Error.IoError, true) := by
  have hlist : ∀ (env : Env) (w : World) (err : Error) (o : BatchOutcome),
      w.J.TxList ≠ [] →
      World.WriteTxList env o.Stage w.J.TxList 0 err
        { w with J := { w.J with TxList := [] } } [] = none →
      w.RunBatch env err o = none := by
    intro env w err o hne hl
    unfold World.RunBatch
    rw [if_neg hne]
    simp only
    rw [hl]
  refine ⟨World_WriteTx_none, fun env w err o h rest hw hf => ?_, hlist, by decide, by decide,
    ?_, by decide, fun env w err o e w1 hne hb => ?_, by decide, by decide⟩
  · refine hlist env w err o (by rw [hw]; exact List.cons_ne_nil _ _) ?_
    rw [hw]
    exact WriteTxList_none_of_first env o.Stage h rest 0 err _ [] hf
  · exact Option.not_isSome_iff_eq_none.mp (by decide)
  · obtain ⟨w2, bl, dev, hl, he, hw1, -⟩ := RunBatch_some env w err o e w1 hne hb
    refine ⟨⟨w2, bl, hl, he⟩, fun h hh => ?_⟩
    obtain ⟨c1, c2, c3⟩ : (w1.Txs h).CompletedWith e := by
      rw [hw1]
      exact CompleteAll_completed _ _ _ _ (Or.inl hh)
    refine ⟨c1, c2, fun hs => ?_, fun hs => ?_⟩
    · rw [c3, if_pos hs]
    · rw [c3, if_neg hs]

/-! ## Shutdown of the writer -/

theorem Cancel_CommitEvent (w : World) (h1 h : Nat) :
    ((w.Cancel h1).Txs h).CommitEvent = (w.Txs h).CommitEvent := by
  unfold World.Cancel Transaction.Cancel
  simp only
  by_cases e : h = h1
  · rw [e, Function.update_same]
  · rw [Function.update_noteq e]

/-- The shutdown loop signals no commit event. -/
theorem CancelAll_CommitEvent (txList : List Nat) (w : World) (h : Nat) :
    ((World.CancelAll txList w).Txs h).CommitEvent = (w.Txs h).CommitEvent := by
  induction txList generalizing w with
  | nil => rfl
  | cons h1 rest ih =>
    unfold World.CancelAll
    rw [ih, Cancel_CommitEvent]

/-- C12: shutdown of the writer leaves the commit event of every transaction
as it was, so a transaction still queued is cancelled without being signalled.
In the example, the transaction blocked in `Commit` (the first part of `Commit`
ended waiting, its event not signalled) is, after the shutdown, in state
`Canceled` with `CommitResult` `Cancelled` and out of the tx table, but its
commit event is still not signalled: the wait in `Commit` does not end. -/
theorem RunStop_cancels_without_signalling :
    (∀ (env : Env) (w : World) (o : StageOutcome) (h : Nat),
      ((w.RunStop env o).2.Txs h).CommitEvent = (w.Txs h).CommitEvent) ∧
    (ExampleWorldBegun.Commit 0 true).1 = CommitStep.Waiting ∧
    ExampleWorldWaiting.J.TxList = [0] ∧
    (ExampleWorldWaiting.Txs 0).CommitEvent = false ∧
    ExampleWorldStopped.J.TxList = [] ∧
    (ExampleWorldStopped.Txs 0).State = TxState.Canceled ∧
    (ExampleWorldStopped.Txs 0).CommitResult = Error.Cancelled ∧
    ExampleWorldStopped.J.TxTable 7 = none ∧
    (ExampleWorldStopped.Txs 0).CommitEvent = false := by
  refine ⟨fun env w o h => ?_, by decide, by decide, by decide, by decide, by decide,
    by decide, by decide, by decide⟩
  unfold World.RunStop
  exact CancelAll_CommitEvent _ _ _

/-! ## Writes of a transaction that is dropped -/

/-- With a positive data capacity, enough fuel lets the loop of `Write` end,
whatever the allocations answer. -/
theorem WriteLoop_returns (env : Env) (txId : Nat) (page : List Nat) (alloc : Nat → Bool)
    (hD : 0 < env.DataCapacity)
    (fuel off position k : Nat) (acc : List JournalTxBlock) (hf : page.length - off ≤ fuel) :
    ∃ r, Transaction.WriteLoop env txId page alloc fuel off position k acc = some r := by
  induction fuel generalizing off position k acc with
  | zero => exact ⟨_, WriteLoop_done _ _ _ _ _ _ _ _ _ (by omega)⟩
  | succ fuel ih =>
    by_cases hlt : off < page.length
    · unfold Transaction.WriteLoop
      rw [if_pos hlt]
      rcases Transaction.CreateTxBlock env txId env.JournalBlockTypeTxData (alloc (2 * k)) with
        _ | blockPtr
      · exact ⟨_, rfl⟩
      · simp only
        by_cases ha : (!alloc (2 * k + 1)) = true
        · rw [if_pos ha]
          exact ⟨_, rfl⟩
        · rw [if_neg ha]
          apply ih
          rw [PageRead_length]
          have : 0 < min env.DataCapacity (page.length - off) := by
            rw [Nat.lt_min]; omega
          omega
    · exact ⟨_, WriteLoop_done _ _ _ _ _ _ _ _ _ hlt⟩

/-- With a positive data capacity `Write` returns. -/
theorem Write_returns (env : Env) (J : Journal) (tx : Transaction) (page : List Nat)
    (position : Nat) (alloc : Nat → Bool) (hD : 0 < env.DataCapacity) :
    ∃ r, Transaction.Write env J tx page position alloc = some r := by
  obtain ⟨r, hr⟩ := WriteLoop_returns env tx.TxId page alloc hD page.length 0 position 0 []
    (by omega)
  obtain ⟨err, blockList⟩ := r
  unfold Transaction.Write
  rw [hr]
  simp only
  split_ifs <;> exact ⟨_, rfl⟩

/-- Any number of `Write` calls on one transaction return, and leave the device
and the journal as they were. -/
theorem WriteAll_frame (env : Env) (h : Nat) (hD : 0 < env.DataCapacity)
    (writes : List (List Nat × Nat × (Nat → Bool))) (w : World) :
    ∃ w1, World.WriteAll env h writes w = some w1 ∧ w1.Dev = w.Dev ∧ w1.J = w.J := by
  induction writes generalizing w with
  | nil => exact ⟨w, rfl, rfl, rfl⟩
  | cons a rest ih =>
    obtain ⟨page, position, alloc⟩ := a
    obtain ⟨r, hr⟩ := Write_returns env w.J (w.Txs h) page position alloc hD
    obtain ⟨err, tx1⟩ := r
    have hw : w.Write env h page position alloc =
        some (err, { w with Txs := Function.update w.Txs h tx1 }) := by
      unfold World.Write
      rw [hr]
    obtain ⟨w1, e1, e2, e3⟩ := ih { w with Txs := Function.update w.Txs h tx1 }
    refine ⟨w1, ?_, e2, e3⟩
    unfold World.WriteAll
    rw [hw]
    exact e1

/-- C20: for every device state and a positive data capacity of the blocks,
`BeginTx` followed by any number of `Write` calls on a transaction `h` (in
particular the one `BeginTx` returned) and then the destructor of `h`, without
`Commit`, returns and leaves the device as it was before `BeginTx`: every read
of any position, and every `Load` of any journal instance, gives what it gives
on the device before `BeginTx`. -/
theorem BeginTx_Writes_Destroy_write_nothing (env : Env) (w : World) (txId : Nat)
    (o : BeginTxOutcome) (h : Nat) (writes : List (List Nat × Nat × (Nat → Bool)))
    (hD : 0 < env.DataCapacity) :
    ∃ w1, World.WriteAll env h writes (w.BeginTx env txId o).2 = some w1 ∧
      (w1.Destroy h).Dev = w.Dev ∧
      (∀ pos len, (w1.Destroy h).Dev.ReadBytes pos len = w.Dev.ReadBytes pos len) ∧
      (∀ J start lo, Journal.Load env J (w1.Destroy h).Dev start lo =
        Journal.Load env J w.Dev start lo) := by
  obtain ⟨w1, e1, e2, -⟩ := WriteAll_frame env h hD writes (w.BeginTx env txId o).2
  have hdev : (w1.Destroy h).Dev = w.Dev := by
    rw [← (World_BeginTx_frame env w txId o).1, ← e2]
    rfl
  refine ⟨w1, e1, hdev, fun pos len => ?_, fun J start lo => ?_⟩
  · rw [hdev]
  · rw [hdev]

/-- Witness for C20: on the example device, `BeginTx`, `Write` of a page of
4096 bytes `0xAB` at position 69632 and then the destructor: the 4096 bytes at
69632 are the ones of the example device. -/
theorem BeginTx_Writes_Destroy_write_nothing_witness :
    ∃ w1, World.WriteAll ExampleEnv 0 [(ExamplePage, 69632, fun _ => true)]
        (ExampleWorld.BeginTx ExampleEnv 7 BeginTxOutcome.AllOk).2 = some w1 ∧
      (w1.Destroy 0).Dev.ReadBytes 69632 4096 = ExampleDevice.ReadBytes 69632 4096 :=
  match BeginTx_Writes_Destroy_write_nothing ExampleEnv ExampleWorld 7 BeginTxOutcome.AllOk 0
    [(ExamplePage, 69632, fun _ => true)] (by decide) with
  | ⟨w1, e1, _, e3, _⟩ => ⟨w1, e1, e3 69632 4096⟩

/-! ## `Format` followed by `Load` -/

/-- A page read back from where it was written. -/
theorem WritePage_ReadBytes (env : Env) (dev : Device) (pos : Nat) (page : PageData) :
    (Device.WritePage env dev pos page).ReadBytes pos env.PageSize = PageData.Image env page := by
  unfold Device.ReadBytes PageData.Image Device.WritePage
  apply List.map_congr_left
  intro i hi
  rw [List.mem_range] at hi
  rw [if_pos ⟨by omega, by omega⟩, Nat.add_sub_cancel_left]

/-- What a successful `Format` does. -/
theorem Format_success (env : Env) (J : Journal) (dev : Device) (start size : Nat)
    (o : FormatOutcome) (h : (Journal.Format env J dev start size o).1 = Error.Success) :
    2 ≤ size ∧
    Journal.Format env J dev start size o =
      (Error.Success, { J with Start := start, Size := size },
       Device.WritePage env dev (mul64 start env.BlockSize)
         (PageData.Header (Journal.HeaderFor env size))) := by
  unfold Journal.Format at h ⊢
  by_cases hs : size ≤ 1
  · rw [if_pos hs] at h
    exact Error.noConfusion h
  · rw [if_neg hs] at h ⊢
    by_cases hp : (!o.PageCreate.Ok) = true
    · rw [if_pos hp] at h
      exact absurd h (not_Ok_ne_Success hp)
    · rw [if_neg hp] at h ⊢
      refine ⟨by omega, ?_⟩
      unfold BioListAddExec BioListExec BioListExec at h ⊢
      simp only at h ⊢
      by_cases ha : (!o.AddExec.Ok) = true
      · rw [if_pos ha, if_pos ha] at h
        exact absurd h (not_Ok_ne_Success ha)
      · have e := Ok_eq_Success ha
        rw [e]
        rfl

/-- C16: if `Format(start, size)` succeeds on a device, then `Load(start)` of a
journal with an empty tx table on the device `Format` leaves, page allocation,
read and thread creation succeeding, returns `Success` with `Start = start`,
`Size = size >= 2`, `CurrBlockIndex = Start + 1` (the 64-bit sum, which is the
plain sum when that fits in 64 bits), state `Running`, a writer thread and an
empty tx table.  The byte-order conversions are taken to be inverse to each
other on the 32-bit magic and the 64-bit size, and the header structure read
from the page to be the one stored on it. -/
theorem Format_then_Load_succeeds (env : Env) (J J2 : Journal) (dev : Device)
    (start size : Nat) (fo : FormatOutcome) (lo : LoadOutcome)
    (hMagic : env.Le32ToCpu (env.CpuToLe32 env.JournalMagic) = env.JournalMagic)
    (hSize : env.Le64ToCpu (env.CpuToLe64 size) = size)
    (hView : env.HeaderView (PageData.Image env (PageData.Header (Journal.HeaderFor env size)))
      = Journal.HeaderFor env size)
    (hFormat : (Journal.Format env J dev start size fo).1 = Error.Success)
    (hPage : lo.PageCreate = Error.Success) (hRead : lo.Read = Error.Success)
    (hThread : lo.ThreadCreated = true) (hEmpty : ∀ k, J2.TxTable k = none) :
    2 ≤ size ∧
    (Journal.Load env J2 (Journal.Format env J dev start size fo).2.2 start lo).1
      = Error.Success ∧
    (Journal.Load env J2 (Journal.Format env J dev start size fo).2.2 start lo).2.Start
      = start ∧
    (Journal.Load env J2 (Journal.Format env J dev start size fo).2.2 start lo).2.Size
      = size ∧
    (Journal.Load env J2 (Journal.Format env J dev start size fo).2.2 start lo).2.CurrBlockIndex
      = add64 start 1 ∧
    (start + 1 < 2 ^ 64 →
      (Journal.Load env J2 (Journal.Format env J dev start size fo).2.2 start
        lo).2.CurrBlockIndex = start + 1) ∧
    (Journal.Load env J2 (Journal.Format env J dev start size fo).2.2 start lo).2.State
      = JournalState.Running ∧
    (Journal.Load env J2 (Journal.Format env J dev start size fo).2.2 start lo).2.TxThread
      = true ∧
    ∀ k, (Journal.Load env J2 (Journal.Format env J dev start size fo).2.2 start
      lo).2.TxTable k = none := by
  obtain ⟨h2, hf⟩ := Format_success env J dev start size fo hFormat
  have hl : Journal.Load env J2 (Journal.Format env J dev start size fo).2.2 start lo =
      (Error.Success, { J2 with Start := start, Size := size,
                                CurrBlockIndex := add64 start 1, TxThread := true,
                                State := JournalState.Running }) := by
    rw [hf]
    unfold Journal.Load
    simp only [hPage, hRead, hThread, WritePage_ReadBytes, hView]
    unfold Journal.HeaderFor JournalHeader.HashedPart Journal.Replay
    simp only [hMagic, hSize]
    simp [Error.Ok]
    omega
  rw [hl]
  refine ⟨h2, rfl, rfl, rfl, rfl, fun hs => ?_, rfl, rfl, hEmpty⟩
  exact add64_eq_of_lt hs

set_option maxRecDepth 100000 in
/-- Witness for C16: `Format(1, 16)` of a fresh journal on a zeroed device, then
`Load(1)` of another fresh journal, in the example environment. -/
theorem Format_then_Load_succeeds_witness :
    (Journal.Load ExampleEnv (Journal.Create 0)
      (Journal.Format ExampleEnv (Journal.Create 0) (fun _ => 0) 1 16
        ⟨Error.Success, Error.Success⟩).2.2 1 LoadOutcome.AllOk).1 = Error.Success ∧
    (Journal.Load ExampleEnv (Journal.Create 0)
      (Journal.Format ExampleEnv (Journal.Create 0) (fun _ => 0) 1 16
        ⟨Error.Success, Error.Success⟩).2.2 1 LoadOutcome.AllOk).2.Size = 16 ∧
    (Journal.Load ExampleEnv (Journal.Create 0)
      (Journal.Format ExampleEnv (Journal.Create 0) (fun _ => 0) 1 16
        ⟨Error.Success, Error.Success⟩).2.2 1 LoadOutcome.AllOk).2.CurrBlockIndex = 2 :=
  have h := Format_then_Load_succeeds ExampleEnv (Journal.Create 0) (Journal.Create 0)
    (fun _ => 0) 1 16 ⟨Error.Success, Error.Success⟩ LoadOutcome.AllOk rfl rfl (by decide)
    (by decide) rfl rfl rfl (fun _ => rfl)
  ⟨h.2.1, h.2.2.2.1, h.2.2.2.2.2.1 (by decide)⟩

/-! ## The pending queue -/

theorem WriteTxFail_TxList (J : Journal) (self : Nat) (tx : Transaction) (err : Error)
    (bioList : List Bio) :
    (Transaction.WriteTxFail J self tx err bioList).2.1.TxList = J.TxList := by
  unfold Transaction.WriteTxFail
  rw [OnCommitCompleteLocked_eq]
  simp only
  split
  · exact (UnlinkTx_frame J self tx.TxId).2.2.1
  · rfl

theorem WriteTxCommit_TxList (env : Env) (J : Journal) (self : Nat) (tx : Transaction)
    (bioList : List Bio) (o : StageOutcome) :
    (Transaction.WriteTxCommit env J self tx bioList o).2.1.TxList = J.TxList := by
  unfold Transaction.WriteTxCommit
  have hf := (GetNextBlockIndex_frame J).2.2.2.2.1
  rcases hg : J.GetNextBlockIndex with ⟨err, idx, J1⟩
  rw [hg] at hf
  simp only at hf ⊢
  split
  · rw [WriteTxFail_TxList]; exact hf
  · rcases J1.WriteTxBlock env idx (tx.SealedCommitBlock env) bioList o with ⟨err1, bl1⟩
    simp only
    split
    · rw [WriteTxFail_TxList]; exact hf
    · exact hf

theorem WriteTx_TxList (env : Env) (J : Journal) (self : Nat) (tx : Transaction)
    (bioList : List Bio) (io : Nat → StageOutcome) :
    (Transaction.WriteTx env J self tx bioList io).2.1.TxList = J.TxList := by
  unfold Transaction.WriteTx
  split
  · exact WriteTxFail_TxList _ _ _ _ _
  · have hf := (GetNextBlockIndex_frame J).2.2.2.2.1
    rcases hg : J.GetNextBlockIndex with ⟨err, idx, J1⟩
    rw [hg] at hf
    simp only at hf ⊢
    split
    · rw [WriteTxFail_TxList]; exact hf
    · rcases J1.WriteTxBlock env idx tx.BeginBlock bioList (io 0) with ⟨err1, bl1⟩
      simp only
      split
      · rw [WriteTxFail_TxList]; exact hf
      · have hd := (WriteTxData_frame env io tx.DataBlockList 1 J1 bl1).2.1
        rcases hw : Transaction.WriteTxData env io tx.DataBlockList 1 J1 bl1 with
          ⟨err2, J2, bl2⟩
        rw [hw] at hd
        simp only at hd ⊢
        split
        · rw [WriteTxFail_TxList, hd]; exact hf
        · rw [WriteTxCommit_TxList, hd]; exact hf

theorem WriteTxList_TxList (env : Env) (io : Nat → Nat → StageOutcome) (txList : List Nat)
    (i : Nat) (err : Error) (w : World) (bioList : List Bio) (e : Error) (w1 : World)
    (bl1 : List Bio)
    (hl : World.WriteTxList env io txList i err w bioList = some (e, w1, bl1)) :
    w1.J.TxList = w.J.TxList :=
  WriteTxList_some_induction env io (fun w2 _ => w2.J.TxList = w.J.TxList)
    (fun w2 h bl ioo err2 w3 bl3 hp hw => by
      obtain ⟨-, -, e1, -⟩ := World_WriteTx_some env w2 h bl ioo err2 w3 bl3 hw
      rw [e1]
      exact (WriteTx_TxList env w2.J h (w2.Txs h) bl ioo).trans hp)
    txList i err w bioList e w1 bl1 rfl hl

theorem CompleteAll_TxList (err : Error) (txList : List Nat) (w : World) :
    (World.CompleteAll err txList w).J.TxList = w.J.TxList := by
  induction txList generalizing w with
  | nil => rfl
  | cons h rest ih =>
    unfold World.CompleteAll
    rw [ih]
    unfold World.OnCommitComplete Transaction.OnCommitComplete
    rw [OnCommitCompleteLocked_eq]
    simp only
    split
    · exact (UnlinkTx_frame _ _ _).2.2.1
    · rfl

/-- A batch of the writer that ends leaves the pending queue empty. -/
theorem RunBatch_TxList (env : Env) (w : World) (err : Error) (o : BatchOutcome) (e : Error)
    (w1 : World) (hb : w.RunBatch env err o = some (e, w1)) : w1.J.TxList = [] := by
  by_cases hne : w.J.TxList = []
  · unfold World.RunBatch at hb
    rw [if_pos hne] at hb
    simp only [Option.some.injEq, Prod.mk.injEq] at hb
    rw [← hb.2]
    exact hne
  · obtain ⟨w2, bl, dev, hl, -, hw1, -⟩ := RunBatch_some env w err o e w1 hne hb
    have h1 := WriteTxList_TxList env o.Stage w.J.TxList 0 err _ [] _ w2 bl hl
    rw [hw1, CompleteAll_TxList]
    exact h1

/-- `Commit` leaves the transaction in a state other than `New`, and the
pending queue as it was or with the transaction added at its end. -/
theorem Commit_queue (J : Journal) (self : Nat) (tx : Transaction) (addTail : Bool) :
    (Transaction.Commit J self tx addTail).2.2.State ≠ TxState.New ∧
    ((Transaction.Commit J self tx addTail).2.1.TxList = J.TxList ∨
     (Transaction.Commit J self tx addTail).2.1.TxList = J.TxList ++ [self]) := by
  unfold Transaction.Commit
  by_cases hs : tx.State ≠ TxState.New
  · rw [if_pos hs]
    exact ⟨hs, Or.inl rfl⟩
  · rw [if_neg hs]
    unfold Journal.StartCommitTx
    by_cases ht : J.TxTable tx.TxId ≠ some self
    · simp only [if_pos ht]
      exact ⟨fun e => TxState.noConfusion e, Or.inl (UnlinkTx_frame _ _ _).2.2.1⟩
    · simp only [if_neg ht]
      cases addTail
      · exact ⟨fun e => TxState.noConfusion e, Or.inl (UnlinkTx_frame _ _ _).2.2.1⟩
      · exact ⟨fun e => TxState.noConfusion e, Or.inr rfl⟩

/-- Every transaction in the pending queue of a reachable world has been
created and has left the state `New`. -/
theorem Reachable_QueueInv (env : Env) (w : World) (h : World.Reachable env w) :
    w.QueueInv := by
  induction h with
  | Init w hTable hList =>
    intro h hh
    rw [hList] at hh
    exact absurd hh (List.not_mem_nil _)
  | Step w w1 _ hs ih =>
    cases hs with
    | BeginTx txId o =>
      unfold World.BeginTx
      split
      · exact ih
      · split
        · exact ih
        · split
          · exact ih
          · split
            · exact ih
            · intro h hh
              obtain ⟨a, b⟩ := ih h hh
              refine ⟨Nat.lt_succ_of_lt a, ?_⟩
              show (Function.update w.Txs w.Next _ h).State ≠ TxState.New
              rw [Function.update_noteq (Nat.ne_of_lt a)]
              exact b
    | Write h page position alloc err _ hh hw =>
      unfold World.Write at hw
      rcases hc : Transaction.Write env w.J (w.Txs h) page position alloc with _ | ⟨e, tx1⟩
      · rw [hc] at hw
        exact Option.noConfusion hw
      · rw [hc] at hw
        simp only [Option.some.injEq, Prod.mk.injEq] at hw
        obtain ⟨-, rfl⟩ := hw
        obtain ⟨bl, hbl, -⟩ := Write_shape env w.J (w.Txs h) page position alloc e tx1 hc
        intro h1 hh1
        obtain ⟨a, b⟩ := ih h1 hh1
        refine ⟨a, ?_⟩
        show (Function.update w.Txs h tx1 h1).State ≠ TxState.New
        by_cases e1 : h1 = h
        · rw [e1, Function.update_same, hbl]
          rw [e1] at b
          exact b
        · rw [Function.update_noteq e1]
          exact b
    | Commit h addTail hh =>
      unfold World.Commit
      obtain ⟨c1, c2⟩ := Commit_queue w.J h (w.Txs h) addTail
      rcases hc : Transaction.Commit w.J h (w.Txs h) addTail with ⟨step, J1, tx1⟩
      rw [hc] at c1 c2
      simp only at c1 c2
      intro h1 hh1
      change h1 ∈ J1.TxList at hh1
      show h1 < w.Next ∧ (Function.update w.Txs h tx1 h1).State ≠ TxState.New
      by_cases e1 : h1 = h
      · rw [e1, Function.update_same]
        exact ⟨hh, c1⟩
      · rw [Function.update_noteq e1]
        rcases c2 with c2 | c2
        · rw [c2] at hh1
          exact ih h1 hh1
        · rw [c2, List.mem_append, List.mem_singleton] at hh1
          rcases hh1 with hh1 | hh1
          · exact ih h1 hh1
          · exact absurd hh1 e1
    | Cancel h hh =>
      unfold World.Cancel Transaction.Cancel
      intro h1 hh1
      change h1 ∈ (w.J.UnlinkTx h (w.Txs h).TxId).TxList at hh1
      rw [(UnlinkTx_frame _ _ _).2.2.1] at hh1
      obtain ⟨a, b⟩ := ih h1 hh1
      refine ⟨a, ?_⟩
      show (Function.update w.Txs h _ h1).State ≠ TxState.New
      by_cases e1 : h1 = h
      · rw [e1, Function.update_same]
        exact fun e => TxState.noConfusion e
      · rw [Function.update_noteq e1]
        exact b
    | RunBatch err o err1 _ hb =>
      intro h1 hh1
      rw [RunBatch_TxList env w err o err1 w1 hb] at hh1
      exact absurd hh1 (List.not_mem_nil _)
    | Destroy h hh =>
      intro h1 hh1
      change h1 ∈ (w.J.UnlinkTx h (w.Txs h).TxId).TxList at hh1
      rw [(UnlinkTx_frame _ _ _).2.2.1] at hh1
      exact ih h1 hh1

/-- C18: in every reachable world, for a transaction in state `New` whose
enqueue fails (`StartCommitTx` returns an error, which is `NotFound` or
`NoMemory`), `Commit` returns that same error from its first critical section,
without reaching the wait on the commit event and without signalling it; the
transaction ends in state `Canceled`; the pending queue is left as it was and
does not contain the transaction. -/
theorem Commit_enqueue_failure_cancels (env : Env) (w : World) (h : Nat) (addTail : Bool)
    (hr : World.Reachable env w) (hNew : (w.Txs h).State = TxState.New)
    (hFail : (w.J.StartCommitTx h (w.Txs h).TxId addTail).1 ≠ Error.Success) :
    ((w.J.StartCommitTx h (w.Txs h).TxId addTail).1 = Error.NotFound ∨
     (w.J.StartCommitTx h (w.Txs h).TxId addTail).1 = Error.NoMemory) ∧
    (w.Commit h addTail).1 =
      CommitStep.Returned (w.J.StartCommitTx h (w.Txs h).TxId addTail).1 ∧
    ((w.Commit h addTail).2.Txs h).State = TxState.Canceled ∧
    ((w.Commit h addTail).2.Txs h).CommitEvent = (w.Txs h).CommitEvent ∧
    (w.Commit h addTail).2.J.TxList = w.J.TxList ∧
    h ∉ (w.Commit h addTail).2.J.TxList := by
  have hq : h ∉ w.J.TxList := fun hin => (Reachable_QueueInv env w hr h hin).2 hNew
  have key : ((w.J.StartCommitTx h (w.Txs h).TxId addTail).1 = Error.NotFound ∨
      (w.J.StartCommitTx h (w.Txs h).TxId addTail).1 = Error.NoMemory) ∧
      w.Commit h addTail =
        (CommitStep.Returned (w.J.StartCommitTx h (w.Txs h).TxId addTail).1,
         { w with J := w.J.UnlinkTx h (w.Txs h).TxId,
                  Txs := Function.update w.Txs h
                    { w.Txs h with State := TxState.Canceled } }) := by
    unfold World.Commit Transaction.Commit
    rw [if_neg (fun hn => hn hNew)]
    unfold Journal.StartCommitTx at hFail ⊢
    by_cases ht : w.J.TxTable (w.Txs h).TxId ≠ some h
    · simp only [if_pos ht]
      exact ⟨Or.inl trivial, rfl⟩
    · rw [if_neg ht] at hFail
      simp only [if_neg ht]
      cases addTail
      · exact ⟨Or.inr rfl, rfl⟩
      · exact absurd rfl hFail
  obtain ⟨k1, k2⟩ := key
  rw [k2]
  refine ⟨k1, rfl, ?_, ?_, ?_, ?_⟩
  · show (Function.update w.Txs h _ h).State = TxState.Canceled
    rw [Function.update_same]
  · show (Function.update w.Txs h _ h).CommitEvent = (w.Txs h).CommitEvent
    rw [Function.update_same]
  · exact (UnlinkTx_frame _ _ _).2.2.1
  · show h ∉ (w.J.UnlinkTx h (w.Txs h).TxId).TxList
    rw [(UnlinkTx_frame _ _ _).2.2.1]
    exact hq

/-- Witness for C18: in the example world after `BeginTx`, `Commit` with a
failing `AddTail` returns `NoMemory`; after the destructor has unlinked the
transaction, `Commit` returns `NotFound`; both leave the transaction `Canceled`
and the pending queue without it. -/
theorem Commit_enqueue_failure_cancels_witness :
    (ExampleWorldBegun.Commit 0 false).1 = CommitStep.Returned Error.NoMemory ∧
    ((ExampleWorldBegun.Commit 0 false).2.Txs 0).State = TxState.Canceled ∧
    0 ∉ (ExampleWorldBegun.Commit 0 false).2.J.TxList ∧
    (ExampleWorldDropped.Commit 0 true).1 = CommitStep.Returned Error.NotFound ∧
    ((ExampleWorldDropped.Commit 0 true).2.Txs 0).State = TxState.Canceled ∧
    0 ∉ (ExampleWorldDropped.Commit 0 true).2.J.TxList :=
  have r1 : World.Reachable ExampleEnv ExampleWorldBegun :=
    World.Reachable.Step _ _ (World.Reachable.Init ExampleWorld (fun _ => rfl) rfl)
      (World.Step.BeginTx ExampleWorld 7 BeginTxOutcome.AllOk)
  have r2 : World.Reachable ExampleEnv ExampleWorldDropped :=
    World.Reachable.Step _ _ r1 (World.Step.Destroy ExampleWorldBegun 0 (by decide))
  have a := Commit_enqueue_failure_cancels ExampleEnv ExampleWorldBegun 0 false r1
    (by decide) (by decide)
  have b := Commit_enqueue_failure_cancels ExampleEnv ExampleWorldDropped 0 true r2
    (by decide) (by decide)
  ⟨a.2.1.trans (by decide), a.2.2.1, a.2.2.2.2.2, b.2.1.trans (by decide), b.2.2.1,
   b.2.2.2.2.2⟩

/-! ## The bio list of a batch -/

/-- When the header of a batch is staged, it is the last bio of the list: the
header page for block `Start` with the little-endian magic, the current `Size`
and the hash of the two, appended by `AddIo(page, Start * BlockSize, true)`. -/
theorem BatchBios_header_last (env : Env) (w : World) (err : Error) (o : BatchOutcome)
    (e : Error) (w1 : World) (bl : List Bio)
    (hFit : (w.J.Start + w.J.Size) * env.BlockSize < 2 ^ 64)
    (hl : World.WriteTxList env o.Stage w.J.TxList 0 err
      { w with J := { w.J with TxList := [] } } [] = some (e, w1, bl))
    (hFlush : (w1.J.Flush env bl o.Flush).1 = Error.Success) :
    w.BatchBios env err o = some (bl ++
      [{ Page := PageData.Header (Journal.HeaderFor env w.J.Size),
         Position := mul64 w.J.Start env.BlockSize, Write := true, Flush := false }]) ∧
    (Journal.HeaderFor env w.J.Size).Hash =
      env.XXHashSum (Journal.HeaderFor env w.J.Size).HashedPart := by
  obtain ⟨a1, a2, -, -⟩ := WriteTxList_ring env o.Stage w.J.TxList 0 err
    { w with J := { w.J with TxList := [] } } [] e w1 bl hl hFit
    (fun _ hb => absurd hb (List.not_mem_nil _))
  simp only at a1 a2
  unfold World.BatchBios
  rw [hl]
  simp only
  rw [Flush_HeaderFor env _ _ _ hFlush, a1, a2]
  exact ⟨rfl, rfl⟩

/-! ## The ring as a cycle -/

theorem succ_mod_eq (x m : Nat) (hm : 0 < m) :
    (x + 1) % m = if x % m + 1 = m then 0 else x % m + 1 := by
  have hr : x % m < m := Nat.mod_lt _ hm
  rw [Nat.add_mod]
  by_cases h1 : m = 1
  · subst h1
    simp [Nat.mod_one]
  · have e1 : 1 % m = 1 := Nat.mod_eq_of_lt (by omega)
    rw [e1]
    by_cases h : x % m + 1 = m
    · rw [if_pos h, h, Nat.mod_self]
    · rw [if_neg h, Nat.mod_eq_of_lt (by omega)]

/-- A journal whose fields are `uint64_t` values and whose next index lies
inside the ring as the code computes its end has `Start + Size` below `2^64`. -/
theorem ring_end_no_wrap (J : Journal) (hS64 : J.Size < 2 ^ 64)
    (hLow : J.Start < J.CurrBlockIndex) (hHigh : J.CurrBlockIndex < add64 J.Start J.Size) :
    add64 J.Start J.Size = J.Start + J.Size := by
  have hlt : add64 J.Start J.Size < 2 ^ 64 := add64_lt _ _
  unfold add64 at hHigh hlt ⊢
  by_cases hw : J.Start + J.Size < 2 ^ 64
  · exact Nat.mod_eq_of_lt hw
  · have e : (J.Start + J.Size) % 2 ^ 64 = J.Start + J.Size - 2 ^ 64 := by
      rw [Nat.mod_eq_sub_mod (by omega)]
      exact Nat.mod_eq_of_lt (by omega)
    omega

/-- The journal after `k` allocations, in closed form. -/
theorem Advance_closed_form (J : Journal) (hSize : 2 ≤ J.Size) (hS64 : J.Size < 2 ^ 64)
    (hLow : J.Start < J.CurrBlockIndex) (hHigh : J.CurrBlockIndex < add64 J.Start J.Size)
    (k : Nat) :
    Journal.Advance J k =
      { J with CurrBlockIndex :=
          J.Start + 1 + (J.CurrBlockIndex - J.Start - 1 + k) % (J.Size - 1) } := by
  have hE := ring_end_no_wrap J hS64 hLow hHigh
  rw [hE] at hHigh
  induction k with
  | zero =>
    have : J.Start + 1 + (J.CurrBlockIndex - J.Start - 1 + 0) % (J.Size - 1) =
        J.CurrBlockIndex := by
      rw [Nat.add_zero, Nat.mod_eq_of_lt (by omega)]
      omega
    rw [this]
    rfl
  | succ k ih =>
    have hm : (J.CurrBlockIndex - J.Start - 1 + k) % (J.Size - 1) < J.Size - 1 :=
      Nat.mod_lt _ (by omega)
    rw [Advance_succ_right, ih, GetNextBlockIndex_eq _ (by simp only; omega)
      (by simp only; rw [hE]; omega)]
    simp only [hE]
    rw [← Nat.add_assoc, succ_mod_eq _ _ (by omega)]
    congr 1
    split_ifs <;> omega

theorem NthIndex_closed_form (J : Journal) (hSize : 2 ≤ J.Size) (hS64 : J.Size < 2 ^ 64)
    (hLow : J.Start < J.CurrBlockIndex) (hHigh : J.CurrBlockIndex < add64 J.Start J.Size)
    (k : Nat) :
    J.NthIndex k = J.Start + 1 + (J.CurrBlockIndex - J.Start - 1 + k) % (J.Size - 1) := by
  unfold Journal.NthIndex
  rw [Advance_closed_form J hSize hS64 hLow hHigh k]
  unfold Journal.GetNextBlockIndex
  simp only
  split <;> rfl

/-- C25: in a journal with `Size >= 2` (a `uint64_t` value) and
`Start < CurrBlockIndex < Start + Size` (the sum as the code forms it, which
then does not wrap), consecutive calls of `GetNextBlockIndex` starting at any
call `n`: the indices of `Size - 1` consecutive calls are pairwise distinct,
they are exactly the blocks `Start + 1 .. Start + Size - 1`, and the call
`Size - 1` places after call `k` returns the same index as call `k`. -/
theorem GetNextBlockIndex_cycles_through_ring (J : Journal) (hSize : 2 ≤ J.Size)
    (hS64 : J.Size < 2 ^ 64) (hLow : J.Start < J.CurrBlockIndex)
    (hHigh : J.CurrBlockIndex < add64 J.Start J.Size) :
    (∀ n i j, i < J.Size - 1 → j < J.Size - 1 →
      J.NthIndex (n + i) = J.NthIndex (n + j) → i = j) ∧
    (∀ n b, (J.Start + 1 ≤ b ∧ b ≤ J.Start + J.Size - 1) ↔
      ∃ i, i < J.Size - 1 ∧ J.NthIndex (n + i) = b) ∧
    (∀ k, J.NthIndex (J.Size - 1 + k) = J.NthIndex k) := by
  have hcf := NthIndex_closed_form J hSize hS64 hLow hHigh
  have hm : 0 < J.Size - 1 := by omega
  refine ⟨fun n i j hi hj h => ?_, fun n b => ⟨fun hb => ?_, fun hb => ?_⟩, fun k => ?_⟩
  · rw [hcf, hcf] at h
    have h1 : (J.CurrBlockIndex - J.Start - 1 + (n + i)) % (J.Size - 1) =
        (J.CurrBlockIndex - J.Start - 1 + (n + j)) % (J.Size - 1) := by omega
    rw [← Nat.add_assoc, ← Nat.add_assoc] at h1
    have h2 : i % (J.Size - 1) = j % (J.Size - 1) := Nat.ModEq.add_left_cancel' _ h1
    rwa [Nat.mod_eq_of_lt hi, Nat.mod_eq_of_lt hj] at h2
  · have hr : (J.CurrBlockIndex - J.Start - 1 + n) % (J.Size - 1) < J.Size - 1 :=
      Nat.mod_lt _ hm
    have key : ∀ i, (J.CurrBlockIndex - J.Start - 1 + (n + i)) % (J.Size - 1) =
        ((J.CurrBlockIndex - J.Start - 1 + n) % (J.Size - 1) + i) % (J.Size - 1) := by
      intro i
      rw [← Nat.add_assoc]
      exact (Nat.ModEq.add_right i (Nat.mod_modEq _ _)).symm
    by_cases hc : (J.CurrBlockIndex - J.Start - 1 + n) % (J.Size - 1) ≤ b - J.Start - 1
    · refine ⟨b - J.Start - 1 - (J.CurrBlockIndex - J.Start - 1 + n) % (J.Size - 1),
        by omega, ?_⟩
      rw [hcf, key, Nat.mod_eq_of_lt (by omega)]
      omega
    · refine ⟨b - J.Start - 1 + (J.Size - 1) -
        (J.CurrBlockIndex - J.Start - 1 + n) % (J.Size - 1), by omega, ?_⟩
      rw [hcf, key]
      have e : (J.CurrBlockIndex - J.Start - 1 + n) % (J.Size - 1) +
          (b - J.Start - 1 + (J.Size - 1) -
            (J.CurrBlockIndex - J.Start - 1 + n) % (J.Size - 1)) =
          b - J.Start - 1 + (J.Size - 1) := by omega
      rw [e, Nat.add_mod_right, Nat.mod_eq_of_lt (by omega)]
      omega
  · obtain ⟨i, hi, hb⟩ := hb
    rw [hcf] at hb
    have hr : (J.CurrBlockIndex - J.Start - 1 + (n + i)) % (J.Size - 1) < J.Size - 1 :=
      Nat.mod_lt _ hm
    omega
  · rw [hcf, hcf]
    have e : J.CurrBlockIndex - J.Start - 1 + (J.Size - 1 + k) =
        J.CurrBlockIndex - J.Start - 1 + k + (J.Size - 1) := by omega
    rw [e, Nat.add_mod_right]

/-- Witness for C25: in the example journal (`Start = 1`, `Size = 16`,
`CurrBlockIndex = 2`) the calls 3 and 9 return different indices, block 9 is
returned by one of the first 15 calls, and call 15 returns what call 0 returns. -/
theorem GetNextBlockIndex_cycles_through_ring_witness :
    ExampleJournal.NthIndex 3 ≠ ExampleJournal.NthIndex 9 ∧
    (∃ i, i < 15 ∧ ExampleJournal.NthIndex (0 + i) = 9) ∧
    ExampleJournal.NthIndex (15 + 0) = ExampleJournal.NthIndex 0 :=
  have h := GetNextBlockIndex_cycles_through_ring ExampleJournal (by decide) (by decide)
    (by decide) (by decide)
  ⟨fun e => absurd (h.1 0 3 9 (by decide) (by decide) (by simpa using e)) (by decide),
   (h.2.1 0 9).mp (by decide), h.2.2 0⟩

/-! ## The hash table as a finite map -/

theorem Find_eq_none {K V : Type} (cmp : K → K → Int) (key : K) (l : List (K × V)) :
    HashTable.Find cmp key l = none ↔ ∀ e ∈ l, cmp e.1 key ≠ 0 := by
  induction l with
  | nil => simp [HashTable.Find]
  | cons e rest ih =>
    unfold HashTable.Find
    by_cases h : cmp e.1 key = 0
    · rw [if_pos h]
      simp only [List.mem_cons, forall_eq_or_imp]
      exact ⟨fun hn => Option.noConfusion hn, fun hn => absurd h hn.1⟩
    · rw [if_neg h, ih]
      simp only [List.mem_cons, forall_eq_or_imp]
      exact ⟨fun hn => ⟨h, hn⟩, fun hn => hn.2⟩

theorem Find_append_single {K V : Type} (cmp : K → K → Int) (key : K) (l : List (K × V))
    (e : K × V) :
    HashTable.Find cmp key (l ++ [e]) =
      match HashTable.Find cmp key l with
      | some x => some x
      | none => if cmp e.1 key = 0 then some e else none := by
  induction l with
  | nil => rfl
  | cons a rest ih =>
    rw [List.cons_append]
    unfold HashTable.Find
    by_cases h : cmp a.1 key = 0
    · rw [if_pos h, if_pos h]
    · rw [if_neg h, if_neg h, ih]

theorem EraseFirst_fst {K V : Type} (cmp : K → K → Int) (key : K) (l : List (K × V)) :
    (HashTable.EraseFirst cmp key l).1 = (HashTable.Find cmp key l).isSome := by
  induction l with
  | nil => rfl
  | cons a rest ih =>
    unfold HashTable.EraseFirst HashTable.Find
    by_cases h : cmp a.1 key = 0
    · rw [if_pos h, if_pos h]; rfl
    · rw [if_neg h, if_neg h]; exact ih

theorem EraseFirst_mem {K V : Type} (cmp : K → K → Int) (key : K) (l : List (K × V))
    (e : K × V) (he : e ∈ (HashTable.EraseFirst cmp key l).2) : e ∈ l := by
  induction l with
  | nil => exact he
  | cons a rest ih =>
    unfold HashTable.EraseFirst at he
    by_cases h : cmp a.1 key = 0
    · rw [if_pos h] at he
      exact List.mem_cons_of_mem _ he
    · rw [if_neg h] at he
      rcases List.mem_cons.mp he with h1 | h1
      · rw [h1]; exact List.mem_cons_self _ _
      · exact List.mem_cons_of_mem _ (ih h1)

theorem EraseFirst_Pairwise {K V : Type} (cmp : K → K → Int) (key : K) (l : List (K × V))
    (hp : l.Pairwise (fun a b => cmp a.1 b.1 ≠ 0)) :
    (HashTable.EraseFirst cmp key l).2.Pairwise (fun a b => cmp a.1 b.1 ≠ 0) := by
  induction l with
  | nil => exact List.Pairwise.nil
  | cons a rest ih =>
    rw [List.pairwise_cons] at hp
    unfold HashTable.EraseFirst
    by_cases h : cmp a.1 key = 0
    · rw [if_pos h]; exact hp.2
    · rw [if_neg h, List.pairwise_cons]
      exact ⟨fun e he => hp.1 e (EraseFirst_mem cmp key rest e he), ih hp.2⟩

/-- After `Remove(key)` no entry of the bucket compares equal to `key`. -/
theorem Find_EraseFirst_self {K V : Type} (cmp : K → K → Int) (key : K) (l : List (K × V))
    (hSymm : ∀ a b, cmp a b = 0 → cmp b a = 0)
    (hTrans : ∀ a b c, cmp a b = 0 → cmp b c = 0 → cmp a c = 0)
    (hp : l.Pairwise (fun a b => cmp a.1 b.1 ≠ 0)) :
    HashTable.Find cmp key (HashTable.EraseFirst cmp key l).2 = none := by
  induction l with
  | nil => rfl
  | cons a rest ih =>
    rw [List.pairwise_cons] at hp
    unfold HashTable.EraseFirst
    by_cases h : cmp a.1 key = 0
    · rw [if_pos h, Find_eq_none]
      exact fun e he hk => hp.1 e he (hTrans _ _ _ h (hSymm _ _ hk))
    · rw [if_neg h]
      unfold HashTable.Find
      rw [if_neg h]
      exact ih hp.2

/-- `Remove(key)` leaves the search for a key that does not compare equal to
`key` as it was. -/
theorem Find_EraseFirst_other {K V : Type} (cmp : K → K → Int) (key key1 : K)
    (l : List (K × V)) (hSymm : ∀ a b, cmp a b = 0 → cmp b a = 0)
    (hTrans : ∀ a b c, cmp a b = 0 → cmp b c = 0 → cmp a c = 0)
    (hne : cmp key key1 ≠ 0) :
    HashTable.Find cmp key1 (HashTable.EraseFirst cmp key l).2 = HashTable.Find cmp key1 l := by
  induction l with
  | nil => rfl
  | cons a rest ih =>
    unfold HashTable.EraseFirst
    by_cases h : cmp a.1 key = 0
    · rw [if_pos h]
      have h1 : cmp a.1 key1 ≠ 0 := fun h1 => hne (hTrans _ _ _ (hSymm _ _ h) h1)
      conv_rhs => unfold HashTable.Find
      rw [if_neg h1]
    · rw [if_neg h]
      unfold HashTable.Find
      by_cases h1 : cmp a.1 key1 = 0
      · rw [if_pos h1, if_pos h1]
      · rw [if_neg h1, if_neg h1]
        exact ih

/-- Searching for two keys that compare equal finds the same entry. -/
theorem Find_congr {K V : Type} (cmp : K → K → Int) (key key1 : K) (l : List (K × V))
    (hSymm : ∀ a b, cmp a b = 0 → cmp b a = 0)
    (hTrans : ∀ a b c, cmp a b = 0 → cmp b c = 0 → cmp a c = 0)
    (he : cmp key key1 = 0) :
    HashTable.Find cmp key1 l = HashTable.Find cmp key l := by
  induction l with
  | nil => rfl
  | cons a rest ih =>
    unfold HashTable.Find
    by_cases h : cmp a.1 key = 0
    · rw [if_pos h, if_pos (hTrans _ _ _ h he)]
    · rw [if_neg h, if_neg (fun h1 => h (hTrans _ _ _ h1 (hSymm _ _ he)))]
      exact ih

theorem Bucket_set {K V : Type} (t : HashTable K V) (i j : Nat) (l : List (K × V))
    (hi : i < t.Buckets.length) :
    HashTable.Bucket { t with Buckets := t.Buckets.set i l } j =
      if i = j then l else t.Bucket j := by
  unfold HashTable.Bucket
  simp only [List.getElem?_set]
  by_cases h : i = j
  · rw [if_pos h, if_pos h, if_pos hi]
    rfl
  · rw [if_neg h, if_neg h]

theorem BucketIndex_lt {K V : Type} (t : HashTable K V) (key : K)
    (hLen : 0 < t.Buckets.length) : t.BucketIndex key < t.Buckets.length :=
  Nat.mod_lt _ hLen

/-- The constructed table has `nrBuckets` buckets, all empty. -/
theorem Create_Distinct {K V : Type} (nrBuckets : Nat) (keyCmp : K → K → Int)
    (keyHash : K → Nat) (emptyValue : V) :
    (HashTable.Create nrBuckets keyCmp keyHash emptyValue).Buckets.length = nrBuckets ∧
    (HashTable.Create nrBuckets keyCmp keyHash emptyValue).Distinct ∧
    ∀ key, (HashTable.Create nrBuckets keyCmp keyHash emptyValue).Exists key = false := by
  have hb : ∀ i, (HashTable.Create nrBuckets keyCmp keyHash emptyValue).Bucket i = [] := by
    intro i
    unfold HashTable.Bucket HashTable.Create
    simp only [List.getElem?_replicate]
    split <;> rfl
  refine ⟨List.length_replicate _ _, fun i => ?_, fun key => ?_⟩
  · rw [hb]; exact List.Pairwise.nil
  · unfold HashTable.Exists
    rw [hb]; rfl

theorem Exists_set {K V : Type} (t : HashTable K V) (i : Nat) (l : List (K × V)) (key1 : K)
    (hi : i < t.Buckets.length) :
    HashTable.Exists { t with Buckets := t.Buckets.set i l } key1 =
      (HashTable.Find t.KeyCmp key1
        (if i = t.BucketIndex key1 then l else t.Bucket (t.BucketIndex key1))).isSome := by
  unfold HashTable.Exists
  rw [Bucket_set t i _ l hi]
  unfold HashTable.BucketIndex
  simp only [List.length_set]

theorem Get_set {K V : Type} (t : HashTable K V) (i : Nat) (l : List (K × V)) (key1 : K)
    (hi : i < t.Buckets.length) :
    HashTable.Get { t with Buckets := t.Buckets.set i l } key1 =
      match HashTable.Find t.KeyCmp key1
        (if i = t.BucketIndex key1 then l else t.Bucket (t.BucketIndex key1)) with
      | some entry => entry.2
      | none => t.EmptyValue := by
  unfold HashTable.Get
  rw [Bucket_set t i _ l hi]
  unfold HashTable.BucketIndex
  simp only [List.length_set]

theorem Insert_absent {K V : Type} (t : HashTable K V) (key : K) (value : V)
    (h : t.Exists key = false) :
    t.Insert key value true =
      (true,
       { t with
         Buckets := t.Buckets.set (t.BucketIndex key)
           (t.Bucket (t.BucketIndex key) ++ [(key, value)]) }) := by
  unfold HashTable.Exists at h
  unfold HashTable.Insert
  simp only
  rcases hf : HashTable.Find t.KeyCmp key (t.Bucket (t.BucketIndex key)) with _ | x
  · rfl
  · rw [hf] at h
    exact Bool.noConfusion h

theorem Insert_present {K V : Type} (t : HashTable K V) (key : K) (value : V)
    (addTail : Bool) (h : t.Exists key = true) :
    t.Insert key value addTail = (false, t) := by
  unfold HashTable.Exists at h
  unfold HashTable.Insert
  simp only
  rcases hf : HashTable.Find t.KeyCmp key (t.Bucket (t.BucketIndex key)) with _ | x
  · rw [hf] at h
    exact Bool.noConfusion h
  · rfl

/-- C27: a table with at least one bucket whose buckets hold pairwise distinct
keys (as the constructed table does, and as `Insert` and `Remove` keep it),
with `KeyCmp(a, b) == 0` an equivalence of keys and `KeyHash` equal on keys
that compare equal: `Insert(k, v)` returns false and changes nothing when `k`
is present; otherwise, the append succeeding, it returns true and afterwards
`Exists(k)` holds and `Get(k) = v`; `Remove(k)` returns true exactly when `k`
was present, and afterwards `Exists(k)` is false; neither changes `Exists` or
`Get` of a key that does not compare equal to `k`; keys that compare equal
have the same `Exists` and `Get`. -/
theorem HashTable_behaves_as_finite_map {K V : Type} (t : HashTable K V) (key : K) (value : V)
    (hLen : 0 < t.Buckets.length) (hD : t.Distinct)
    (hRefl : ∀ a, t.KeyCmp a a = 0)
    (hSymm : ∀ a b, t.KeyCmp a b = 0 → t.KeyCmp b a = 0)
    (hTrans : ∀ a b c, t.KeyCmp a b = 0 → t.KeyCmp b c = 0 → t.KeyCmp a c = 0)
    (hHash : ∀ a b, t.KeyCmp a b = 0 → t.KeyHash a = t.KeyHash b) :
    (t.Exists key = true → ∀ addTail, t.Insert key value addTail = (false, t)) ∧
    (t.Exists key = false →
      (t.Insert key value true).1 = true ∧
      (t.Insert key value true).2.Exists key = true ∧
      (t.Insert key value true).2.Get key = value) ∧
    (t.Remove key).1 = t.Exists key ∧
    (t.Remove key).2.Exists key = false ∧
    (∀ key1, t.KeyCmp key key1 ≠ 0 →
      (t.Insert key value true).2.Exists key1 = t.Exists key1 ∧
      (t.Insert key value true).2.Get key1 = t.Get key1 ∧
      (t.Remove key).2.Exists key1 = t.Exists key1 ∧
      (t.Remove key).2.Get key1 = t.Get key1) ∧
    (∀ key1, t.KeyCmp key key1 = 0 →
      t.Exists key1 = t.Exists key ∧ t.Get key1 = t.Get key) ∧
    (t.Insert key value true).2.Distinct ∧ (t.Remove key).2.Distinct ∧
    (t.Insert key value true).2.Buckets.length = t.Buckets.length ∧
    (t.Remove key).2.Buckets.length = t.Buckets.length := by
  have hb := BucketIndex_lt t key hLen
  have hRem : (t.Remove key).2 =
      { t with
        Buckets := t.Buckets.set (t.BucketIndex key)
          (HashTable.EraseFirst t.KeyCmp key (t.Bucket (t.BucketIndex key))).2 } := rfl
  refine ⟨fun h addTail => Insert_present t key value addTail h, fun h => ?_, ?_, ?_,
    fun key1 hne => ⟨?_, ?_, ?_, ?_⟩, fun key1 he => ?_, ?_, ?_, ?_, ?_⟩
  · have hf : HashTable.Find t.KeyCmp key (t.Bucket (t.BucketIndex key)) = none := by
      unfold HashTable.Exists at h
      rcases hf : HashTable.Find t.KeyCmp key (t.Bucket (t.BucketIndex key)) with _ | x
      · rfl
      · rw [hf] at h; exact Bool.noConfusion h
    rw [Insert_absent t key value h]
    refine ⟨rfl, ?_, ?_⟩
    · simp only
      rw [Exists_set t _ _ key hb, if_pos rfl, Find_append_single, hf]
      simp only [hRefl key, if_true]
      rfl
    · simp only
      rw [Get_set t _ _ key hb, if_pos rfl, Find_append_single, hf]
      simp only [hRefl key, if_true]
  · exact EraseFirst_fst _ _ _
  · rw [hRem, Exists_set t _ _ key hb, if_pos rfl,
      Find_EraseFirst_self _ _ _ hSymm hTrans (hD _)]
    rfl
  · by_cases h : t.Exists key = true
    · rw [Insert_present t key value true h]
    · have h0 : t.Exists key = false := by simpa using h
      have hf : ∀ e ∈ t.Bucket (t.BucketIndex key), t.KeyCmp e.1 key ≠ 0 := by
        unfold HashTable.Exists at h0
        rcases hf : HashTable.Find t.KeyCmp key (t.Bucket (t.BucketIndex key)) with _ | x
        · exact (Find_eq_none _ _ _).mp hf
        · rw [hf] at h0; exact Bool.noConfusion h0
      rw [Insert_absent t key value h0]
      simp only
      rw [Exists_set t _ _ key1 hb]
      unfold HashTable.Exists
      by_cases hi : t.BucketIndex key = t.BucketIndex key1
      · rw [if_pos hi, Find_append_single, hi]
        rcases HashTable.Find t.KeyCmp key1 (t.Bucket (t.BucketIndex key1)) with _ | x
        · simp only [if_neg hne]
        · rfl
      · rw [if_neg hi]
  · by_cases h : t.Exists key = true
    · rw [Insert_present t key value true h]
    · have h0 : t.Exists key = false := by simpa using h
      rw [Insert_absent t key value h0]
      simp only
      rw [Get_set t _ _ key1 hb]
      unfold HashTable.Get
      by_cases hi : t.BucketIndex key = t.BucketIndex key1
      · rw [if_pos hi, Find_append_single, hi]
        rcases HashTable.Find t.KeyCmp key1 (t.Bucket (t.BucketIndex key1)) with _ | x
        · simp only [if_neg hne]
        · rfl
      · rw [if_neg hi]
  · rw [hRem, Exists_set t _ _ key1 hb]
    unfold HashTable.Exists
    by_cases hi : t.BucketIndex key = t.BucketIndex key1
    · rw [if_pos hi, Find_EraseFirst_other _ _ _ _ hSymm hTrans hne, hi]
    · rw [if_neg hi]
  · rw [hRem, Get_set t _ _ key1 hb]
    unfold HashTable.Get
    by_cases hi : t.BucketIndex key = t.BucketIndex key1
    · rw [if_pos hi, Find_EraseFirst_other _ _ _ _ hSymm hTrans hne, hi]
    · rw [if_neg hi]
  · have hi : t.BucketIndex key1 = t.BucketIndex key := by
      unfold HashTable.BucketIndex
      rw [hHash key key1 he]
    unfold HashTable.Exists HashTable.Get
    rw [hi, Find_congr _ key key1 _ hSymm hTrans he]
    exact ⟨rfl, rfl⟩
  · by_cases h : t.Exists key = true
    · rw [Insert_present t key value true h]
      exact hD
    · have h0 : t.Exists key = false := by simpa using h
      have hf : ∀ e ∈ t.Bucket (t.BucketIndex key), t.KeyCmp e.1 key ≠ 0 := by
        unfold HashTable.Exists at h0
        rcases hf : HashTable.Find t.KeyCmp key (t.Bucket (t.BucketIndex key)) with _ | x
        · exact (Find_eq_none _ _ _).mp hf
        · rw [hf] at h0; exact Bool.noConfusion h0
      rw [Insert_absent t key value h0]
      intro j
      rw [Bucket_set t _ j _ hb]
      by_cases hi : t.BucketIndex key = j
      · rw [if_pos hi, List.pairwise_append]
        refine ⟨hD _, List.pairwise_singleton _ _, fun a ha b hb1 => ?_⟩
        rw [List.mem_singleton] at hb1
        rw [hb1]
        exact hf a ha
      · rw [if_neg hi]
        exact hD j
  · rw [hRem]
    intro j
    rw [Bucket_set t _ j _ hb]
    by_cases hi : t.BucketIndex key = j
    · rw [if_pos hi]
      exact EraseFirst_Pairwise _ _ _ (hD _)
    · rw [if_neg hi]
      exact hD j
  · by_cases h : t.Exists key = true
    · rw [Insert_present t key value true h]
    · have h0 : t.Exists key = false := by simpa using h
      rw [Insert_absent t key value h0]
      exact List.length_set _ _ _
  · rw [hRem]
    exact List.length_set _ _ _

theorem ExampleKeyCmp_laws :
    (∀ a, ExampleKeyCmp a a = 0) ∧
    (∀ a b, ExampleKeyCmp a b = 0 → ExampleKeyCmp b a = 0) ∧
    (∀ a b c, ExampleKeyCmp a b = 0 → ExampleKeyCmp b c = 0 → ExampleKeyCmp a c = 0) ∧
    (∀ a b, ExampleKeyCmp a b = 0 → (fun x : Nat => x) a = (fun x : Nat => x) b) := by
  unfold ExampleKeyCmp
  refine ⟨fun a => ?_, fun a b h => ?_, fun a b c h1 h2 => ?_, fun a b h => ?_⟩
  · omega
  · omega
  · omega
  · show a = b
    omega

/-- Witness for C27: in the example table (keys 5 and 9 in one bucket),
`Insert(5, 7)` is refused and changes nothing, `Insert(13, 130)` makes
`Get(13) = 130` and keeps `Get(9) = 90`, `Remove(5)` removes 5 and keeps
`Get(9) = 90`. -/
theorem HashTable_behaves_as_finite_map_witness :
    ExampleTable.Insert 5 7 true = (false, ExampleTable) ∧
    (ExampleTable.Insert 13 130 true).2.Get 13 = 130 ∧
    (ExampleTable.Insert 13 130 true).2.Get 9 = 90 ∧
    (ExampleTable.Remove 5).1 = true ∧
    (ExampleTable.Remove 5).2.Exists 5 = false ∧
    (ExampleTable.Remove 5).2.Get 9 = 90 :=
  have d0 := Create_Distinct 4 ExampleKeyCmp (fun a => a) (0 : Nat)
  have h0 := HashTable_behaves_as_finite_map (HashTable.Create 4 ExampleKeyCmp (fun a => a) 0)
    5 50 (by decide) d0.2.1 ExampleKeyCmp_laws.1 ExampleKeyCmp_laws.2.1
    ExampleKeyCmp_laws.2.2.1 ExampleKeyCmp_laws.2.2.2
  have h1 := HashTable_behaves_as_finite_map
    ((HashTable.Create 4 ExampleKeyCmp (fun a => a) 0).Insert 5 50 true).2
    9 90 (by decide) h0.2.2.2.2.2.2.1 ExampleKeyCmp_laws.1 ExampleKeyCmp_laws.2.1
    ExampleKeyCmp_laws.2.2.1 ExampleKeyCmp_laws.2.2.2
  have hD : ExampleTable.Distinct := h1.2.2.2.2.2.2.1
  have a := HashTable_behaves_as_finite_map ExampleTable 5 7 (by decide) hD
    ExampleKeyCmp_laws.1 ExampleKeyCmp_laws.2.1 ExampleKeyCmp_laws.2.2.1
    ExampleKeyCmp_laws.2.2.2
  have b := HashTable_behaves_as_finite_map ExampleTable 13 130 (by decide) hD
    ExampleKeyCmp_laws.1 ExampleKeyCmp_laws.2.1 ExampleKeyCmp_laws.2.2.1
    ExampleKeyCmp_laws.2.2.2
  ⟨a.1 (by decide) true, (b.2.1 (by decide)).2.2,
   ((b.2.2.2.2.1 9 (by decide)).2.1).trans (by decide),
   a.2.2.1.trans (by decide), a.2.2.2.1,
   ((a.2.2.2.2.1 9 (by decide)).2.2.2).trans (by decide)⟩

/-! ## Mount, Unmount and Ioctl of the control device -/

/-- A `Mount` while a volume is registered. -/
theorem Mount_registered (cd : ControlDevice) (deviceName : List Nat) (format : Bool)
    (blockSize : Nat) (o : MountOutcome) (h : cd.VolumeRef ≠ none) :
    cd.Mount deviceName format blockSize o =
      { Err := Error.AlreadyExists, Device := cd, VolumeId := none, Calls := [] } := by
  unfold ControlDevice.Mount
  rw [if_pos h]

/-- An operation of `Ioctl` that ends with `Success` belongs to a known code
and was dispatched. -/
theorem Dispatch_Success (cd : ControlDevice) (code : IoctlCode) (cmd : Cmd)
    (o : IoctlOutcome) (compare : List Nat → List Nat → Int)
    (hs : (cd.Dispatch code cmd o compare).1 = Error.Success) :
    (cd.Dispatch code cmd o compare).2.2.2 = true ∧ code ≠ IoctlCode.Default := by
  cases code <;> simp only [ControlDevice.Dispatch] at hs ⊢ <;>
    (try split_ifs at hs ⊢) <;> simp_all [Error.Ok]

/-- C21: when a volume is registered, `Mount` returns `AlreadyExists` for every
device name, format flag, block size and every answer of the environment; it
makes no call on the volume class (no device is opened), assigns no volume id
and leaves the control device, hence the registered volume, as it was. -/
theorem Mount_AlreadyExists_when_registered (cd : ControlDevice) (deviceName : List Nat)
    (format : Bool) (blockSize : Nat) (o : MountOutcome) (h : cd.VolumeRef ≠ none) :
    (cd.Mount deviceName format blockSize o).Err = Error.AlreadyExists ∧
    (cd.Mount deviceName format blockSize o).Calls = [] ∧
    (cd.Mount deviceName format blockSize o).VolumeId = none ∧
    (cd.Mount deviceName format blockSize o).Device = cd ∧
    (cd.Mount deviceName format blockSize o).Device.VolumeRef = cd.VolumeRef := by
  rw [Mount_registered cd deviceName format blockSize o h]
  exact ⟨rfl, rfl, rfl, rfl, rfl⟩

/-- Witness for C21: a second `Mount`, with format, while the example volume is
registered. -/
theorem Mount_AlreadyExists_when_registered_witness :
    (ControlDevice.Mount ⟨some ExampleVolume⟩ [115, 100, 98] true 4096
      MountOutcome.AllOk).Err = Error.AlreadyExists ∧
    (ControlDevice.Mount ⟨some ExampleVolume⟩ [115, 100, 98] true 4096
      MountOutcome.AllOk).Device.VolumeRef = some ExampleVolume :=
  have h := Mount_AlreadyExists_when_registered ⟨some ExampleVolume⟩ [115, 100, 98] true 4096
    MountOutcome.AllOk (by decide)
  ⟨h.1, h.2.2.2.2⟩

/-- C22: a `Mount` that fails after the volume object is made leaves it
registered.  For every control device without a volume and every `Mount` on
it whose allocation succeeds and which returns an error (from the
constructor, `Format` or `Load`), the volume is registered afterwards and the
next `Mount` returns `AlreadyExists`; in the example, `Load` fails with
`DataCorrupt`.  A failing `Unmount`, by id or by name, and a `Mount` refused
with `AlreadyExists` or failing in the allocation do leave the reference. -/
theorem Mount_failure_leaves_volume_registered :
    (∀ (cd : ControlDevice) (deviceName : List Nat) (format : Bool) (blockSize : Nat)
      (o : MountOutcome), cd.VolumeRef = none → o.Alloc = true →
      (cd.Mount deviceName format blockSize o).Err ≠ Error.Success →
      (cd.Mount deviceName format blockSize o).Device.VolumeRef =
        some { DeviceName := deviceName, VolumeId := o.VolumeId } ∧
      ∀ name1 format1 blockSize1 o1,
        ((cd.Mount deviceName format blockSize o).Device.Mount name1 format1 blockSize1
          o1).Err = Error.AlreadyExists) ∧
    (ControlDevice.Mount ⟨none⟩ [100, 101, 118] false 4096 MountOutcome.LoadFails).Err
      = Error.DataCorrupt ∧
    (ControlDevice.Mount ⟨none⟩ [100, 101, 118] false 4096 MountOutcome.LoadFails).Device
      = ⟨some ExampleVolume⟩ ∧
    ((ControlDevice.Mount ⟨none⟩ [100, 101, 118] false 4096
      MountOutcome.LoadFails).Device.Mount [100, 101, 118] false 4096 MountOutcome.AllOk).Err
      = Error.AlreadyExists ∧
    (∀ (cd : ControlDevice) (volumeId : Nat),
      (cd.Unmount volumeId).1 ≠ Error.Success → (cd.Unmount volumeId).2 = cd) ∧
    (∀ (cd : ControlDevice) (deviceName : List Nat) (compare : List Nat → List Nat → Int),
      (cd.UnmountByName deviceName compare).1 ≠ Error.Success →
      (cd.UnmountByName deviceName compare).2 = cd) ∧
    (∀ (cd : ControlDevice) (deviceName : List Nat) (format : Bool) (blockSize : Nat)
      (o : MountOutcome), cd.VolumeRef ≠ none ∨ o.Alloc = false →
      (cd.Mount deviceName format blockSize o).Device = cd) := by
  refine ⟨fun cd deviceName format blockSize o hn ha he => ?_, by decide, by decide,
    by decide, fun cd volumeId he => ?_, fun cd deviceName compare he => ?_,
    fun cd deviceName format blockSize o h => ?_⟩
  · have key : (cd.Mount deviceName format blockSize o).Device.VolumeRef =
        some { DeviceName := deviceName, VolumeId := o.VolumeId } := by
      unfold ControlDevice.Mount at he ⊢
      rw [if_neg (fun h => h hn)] at he ⊢
      simp only [ha, Bool.not_true, Bool.false_eq_true, if_false] at he ⊢
      split_ifs <;> rfl
    refine ⟨key, fun name1 format1 blockSize1 o1 => ?_⟩
    rw [Mount_registered _ name1 format1 blockSize1 o1
      (by rw [key]; exact fun h => Option.noConfusion h)]
  · unfold ControlDevice.Unmount at he ⊢
    rcases hv : cd.VolumeRef with _ | volume
    · rfl
    · rw [hv] at he
      simp only at he ⊢
      by_cases hid : volume.VolumeId = volumeId
      · rw [if_pos hid] at he
        exact absurd rfl he
      · rw [if_neg hid]
  · unfold ControlDevice.UnmountByName at he ⊢
    rcases hv : cd.VolumeRef with _ | volume
    · rfl
    · rw [hv] at he
      simp only at he ⊢
      by_cases hid : compare volume.DeviceName deviceName = 0
      · rw [if_pos hid] at he
        exact absurd rfl he
      · rw [if_neg hid]
  · unfold ControlDevice.Mount
    by_cases hn : cd.VolumeRef ≠ none
    · rw [if_pos hn]
    · rw [if_neg hn]
      rcases h with h | h
      · exact absurd h hn
      · simp only [h, Bool.not_false, if_true]
        have : cd.VolumeRef = none := by
          by_contra hc
          exact hn hc
        cases cd
        simp only at this
        rw [this]

/-- C26: `Ioctl` returns `Success` when the command buffer cannot be allocated:
for every code and every control device it then returns `Success` with nothing
dispatched and nothing copied back.  When the buffer is allocated, `Success`
is returned only if the command was copied from user space, the code is a
known one, its operation was dispatched and succeeded, and the result was
copied back to user space. -/
theorem Ioctl_Success_without_buffer :
    (∀ (cd : ControlDevice) (code : IoctlCode) (o : IoctlOutcome)
      (compare : List Nat → List Nat → Int), o.Alloc = false →
      cd.Ioctl code o compare =
        { Err := Error.Success, Device := cd, Dispatched := false, CopiedBack := none }) ∧
    (ControlDevice.Ioctl ⟨none⟩ IoctlCode.Mount IoctlOutcome.NoBuffer (fun _ _ => 0)).Err
      = Error.Success ∧
    (ControlDevice.Ioctl ⟨none⟩ IoctlCode.Mount IoctlOutcome.NoBuffer
      (fun _ _ => 0)).Device.VolumeRef = none ∧
    (∀ (cd : ControlDevice) (code : IoctlCode) (o : IoctlOutcome)
      (compare : List Nat → List Nat → Int), o.Alloc = true →
      (cd.Ioctl code o compare).Err = Error.Success →
      o.CopyFromUser = Error.Success ∧ code ≠ IoctlCode.Default ∧
      (cd.Dispatch code o.UserCmd o compare).1 = Error.Success ∧
      (cd.Ioctl code o compare).Dispatched = true ∧
      o.CopyToUser = Error.Success ∧
      (cd.Ioctl code o compare).CopiedBack =
        some (cd.Dispatch code o.UserCmd o compare).2.1) := by
  refine ⟨fun cd code o compare ha => ?_, by decide, by decide,
    fun cd code o compare ha he => ?_⟩
  · unfold ControlDevice.Ioctl
    simp only [ha, Bool.not_false, if_true]
  · unfold ControlDevice.Ioctl at he ⊢
    simp only [ha, Bool.not_true, Bool.false_eq_true, if_false] at he ⊢
    by_cases h1 : (!o.CopyFromUser.Ok) = true
    · rw [if_pos h1] at he
      exact absurd he (not_Ok_ne_Success h1)
    · rw [if_neg h1] at he ⊢
      have hd := Dispatch_Success cd code o.UserCmd o compare
      rcases hg : cd.Dispatch code o.UserCmd o compare with ⟨err, cmd, cd1, dispatched⟩
      rw [hg] at he hd
      simp only at he hd ⊢
      by_cases h2 : (!err.Ok) = true
      · rw [if_pos h2] at he
        exact absurd he (not_Ok_ne_Success h2)
      · have e2 := Ok_eq_Success h2
        rw [if_neg h2] at he ⊢
        by_cases h3 : (!o.CopyToUser.Ok) = true
        · rw [if_pos h3] at he
          exact absurd he (not_Ok_ne_Success h3)
        · rw [if_neg h3]
          exact ⟨Ok_eq_Success h1, (hd e2).2, e2, (hd e2).1, Ok_eq_Success h3, rfl⟩

/-! ## The exit value of the control program -/

/-- The value of `main`, case by case: `errno` when the device cannot be
opened, the argument error if there is one, else the result of the `ioctl`. -/
theorem Main_eq (argv : List String) (atoi : String → Int) (einval : Int) (o : CtlOutcome)
    (hErrno : o.Open = -1 → o.Errno ≠ 0) :
    Ctl.Main argv atoi einval o =
      if o.Open = -1 then o.Errno
      else match Ctl.ArgError argv atoi einval with
        | some e => e
        | none => o.Ioctl := by
  unfold Ctl.Main Ctl.Create
  simp only [ne_eq, not_true_eq_false, if_false]
  by_cases ho : o.Open = -1
  · simp only [ho, if_true, hErrno ho, not_false_eq_true]
  · simp only [ho, if_false, not_true_eq_false]
    have hfin : Ctl.Finish o.Ioctl = o.Ioctl := by
      unfold Ctl.Finish
      split_ifs with h
      · rfl
      · simp only [ne_eq, not_not] at h
        exact h.symm
    rw [hfin]
    rcases argv with _ | ⟨a, _ | ⟨b, _ | ⟨c, _ | ⟨d, _ | ⟨e, rest⟩⟩⟩⟩⟩
    · rfl
    · rfl
    · simp only [List.length_cons, List.length_nil, List.getD_cons_succ, List.getD_cons_zero,
        Ctl.ArgError]
      by_cases h1 : b = "mount"
      · subst h1; simp
      by_cases h2 : b = "umount"
      · subst h2; simp
      by_cases h3 : b = "start-server"
      · subst h3; simp
      by_cases h4 : b = "stop-server"
      · subst h4; simp
      by_cases h5 : b = "test"
      · subst h5; simp
      by_cases h6 : b = "task-stack"
      · subst h6; simp
      simp [h1, h2, h3, h4, h5, h6]
    · simp only [List.length_cons, List.length_nil, List.getD_cons_succ, List.getD_cons_zero,
        Ctl.ArgError]
      by_cases h1 : b = "mount"
      · subst h1; simp
      by_cases h2 : b = "umount"
      · subst h2; simp
      by_cases h3 : b = "start-server"
      · subst h3; simp
      by_cases h4 : b = "stop-server"
      · subst h4; simp
      by_cases h5 : b = "test"
      · subst h5
        by_cases ht : 0 < atoi c
        · simp [ht, not_le.mpr ht]
        · simp [ht, not_lt.mp ht]
      by_cases h6 : b = "task-stack"
      · subst h6
        by_cases ht : 0 < atoi c
        · simp [ht, not_le.mpr ht]
        · simp [ht, not_lt.mp ht]
      simp [h1, h2, h3, h4, h5, h6]
    · simp only [List.length_cons, List.length_nil, List.getD_cons_succ, List.getD_cons_zero,
        Ctl.ArgError]
      by_cases h1 : b = "mount"
      · subst h1; simp
      by_cases h2 : b = "umount"
      · subst h2; simp
      by_cases h3 : b = "start-server"
      · subst h3
        by_cases ht : 0 < atoi d ∧ atoi d ≤ 65535
        · have : ¬ (atoi d ≤ 0 ∨ atoi d > 65535) := by omega
          simp [ht, this]
        · have : atoi d ≤ 0 ∨ atoi d > 65535 := by omega
          simp [ht, this]
      by_cases h4 : b = "stop-server"
      · subst h4; simp
      by_cases h5 : b = "test"
      · subst h5; simp
      by_cases h6 : b = "task-stack"
      · subst h6; simp
      simp [h1, h2, h3, h4, h5, h6]
    · simp only [List.length_cons, List.getD_cons_succ, List.getD_cons_zero, Ctl.ArgError]
      by_cases h1 : b = "mount"
      · subst h1; simp
      by_cases h2 : b = "umount"
      · subst h2; simp
      by_cases h3 : b = "start-server"
      · subst h3; simp
      by_cases h4 : b = "stop-server"
      · subst h4; simp
      by_cases h5 : b = "test"
      · subst h5; simp
      by_cases h6 : b = "task-stack"
      · subst h6; simp
      simp [h1, h2, h3, h4, h5, h6]

theorem ArgError_values (argv : List String) (atoi : String → Int) (einval e : Int)
    (h : Ctl.ArgError argv atoi einval = some e) : e = 1 ∨ e = einval := by
  unfold Ctl.ArgError at h
  split at h <;> (try split_ifs at h) <;> simp_all

/-- C24, the code at a failing `ioctl`: with the device opened and the
arguments of `stop-server` accepted, an `ioctl` that returns -1 makes `main`
return -1, which is not strictly positive. -/
theorem Main_returns_negative_ioctl_result :
    Ctl.Main ["kstor_ctl", "stop-server"] (fun _ => 0) 22 CtlOutcome.IoctlFails = -1 ∧
    ¬ 0 < Ctl.Main ["kstor_ctl", "stop-server"] (fun _ => 0) 22 CtlOutcome.IoctlFails := by
  decide

/-- C24, amended: with `errno` positive after a failed `open` and `EINVAL`
positive, `main` returns 0 exactly when the device was opened, the arguments
were accepted and the `ioctl` returned 0; it returns a strictly positive
value when the device cannot be opened or the arguments are rejected (bad
argument count, unknown subcommand, invalid port, test id or pid); otherwise
it returns the result of the `ioctl` itself, which is strictly positive only
if that result is. -/
theorem Main_returns_zero_iff_success (argv : List String) (atoi : String → Int)
    (einval : Int) (o : CtlOutcome) (hErrno : o.Open = -1 → 0 < o.Errno)
    (hEinval : 0 < einval) :
    (Ctl.Main argv atoi einval o = 0 ↔
      o.Open ≠ -1 ∧ Ctl.ArgError argv atoi einval = none ∧ o.Ioctl = 0) ∧
    (o.Open = -1 ∨ Ctl.ArgError argv atoi einval ≠ none →
      0 < Ctl.Main argv atoi einval o) ∧
    (o.Open ≠ -1 → Ctl.ArgError argv atoi einval = none →
      Ctl.Main argv atoi einval o = o.Ioctl) := by
  have hm := Main_eq argv atoi einval o (fun h => by have := hErrno h; omega)
  rw [hm]
  by_cases ho : o.Open = -1
  · have := hErrno ho
    simp only [ho, if_true, ne_eq, not_true_eq_false, false_and, iff_false, true_or,
      true_implies, false_implies, and_true]
    exact ⟨by omega, this⟩
  · simp only [ho, if_false, ne_eq, not_false_eq_true, true_and, false_or, true_implies]
    rcases ha : Ctl.ArgError argv atoi einval with _ | e
    · simp
    · have := ArgError_values argv atoi einval e ha
      simp only [reduceCtorEq, false_and, iff_false, not_false_eq_true, true_implies,
        false_implies, and_true]
      constructor <;> omega

/-- Witness for C24: `mount /dev/sdb -f` with the device opened and the `ioctl`
returning 0 gives 0; no subcommand gives a positive value. -/
theorem Main_returns_zero_iff_success_witness :
    Ctl.Main ["kstor_ctl", "mount", "/dev/sdb", "-f"] (fun _ => 0) 22 ⟨3, 0, 0⟩ = 0 ∧
    0 < Ctl.Main ["kstor_ctl"] (fun _ => 0) 22 ⟨3, 0, 0⟩ :=
  ⟨(Main_returns_zero_iff_success ["kstor_ctl", "mount", "/dev/sdb", "-f"] (fun _ => 0) 22
      ⟨3, 0, 0⟩ (by decide) (by decide)).1.mpr ⟨by decide, by decide, by decide⟩,
   (Main_returns_zero_iff_success ["kstor_ctl"] (fun _ => 0) 22 ⟨3, 0, 0⟩ (by decide)
      (by decide)).2.1 (Or.inr (by decide))⟩

/-! ## The lock order -/

/-- C23: `Commit` of a transaction in state `New` acquires the journal lock
(shared, in `StartCommitTx`) while it holds the lock of the transaction, for
every journal, transaction and outcome of the enqueue, and so do the
destructor, `Cancel` and `OnCommitComplete` with an error (in `UnlinkTx`): the
documented order, journal lock before per-transaction lock, is not kept.
`Journal::WriteTx` takes the two locks in the documented order when staging
succeeds, and when staging fails it takes the journal lock again, shared, in
`UnlinkTx`, while it holds it exclusively and holds the transaction lock.  In the example the lock statements of `Commit` are: transaction,
journal shared, tx list, release tx list, release journal, release
transaction, and transaction again after the wait. -/
theorem Commit_takes_journal_lock_under_transaction_lock :
    (∀ (J : Journal) (self : Nat) (tx : Transaction) (addTail : Bool),
      tx.State = TxState.New →
      LockOrderKept [] (Transaction.CommitLocks J self tx addTail) = false ∧
      JournalUnderTransaction [] (Transaction.CommitLocks J self tx addTail) = true) ∧
    LockOrderKept [] Transaction.UnlinkLocks = false ∧
    JournalUnderTransaction [] Transaction.UnlinkLocks = true ∧
    (∀ result : Error, result ≠ Error.Success →
      LockOrderKept [] (Transaction.OnCommitCompleteLocks result) = false) ∧
    (∀ (env : Env) (J : Journal) (self : Nat) (tx : Transaction) (bioList : List Bio)
      (io : Nat → StageOutcome),
      (Transaction.WriteTx env J self tx bioList io).1 = Error.Success →
      LockOrderKept [] (Journal.WriteTxLocks env J self tx bioList io) = true) ∧
    (∀ (env : Env) (J : Journal) (self : Nat) (tx : Transaction) (bioList : List Bio)
      (io : Nat → StageOutcome),
      (Transaction.WriteTx env J self tx bioList io).1 ≠ Error.Success →
      Journal.WriteTxLocks env J self tx bioList io =
        [LockEvent.Acquire LockId.Journal false, LockEvent.Acquire LockId.Transaction false,
         LockEvent.Acquire LockId.Journal true, LockEvent.Release LockId.Journal,
         LockEvent.Release LockId.Transaction, LockEvent.Release LockId.Journal]) ∧
    Transaction.CommitLocks ExampleJournalTx 0 ExampleTx true =
      [LockEvent.Acquire LockId.Transaction false, LockEvent.Acquire LockId.Journal true,
       LockEvent.Acquire LockId.JournalTxList false, LockEvent.Release LockId.JournalTxList,
       LockEvent.Release LockId.Journal, LockEvent.Release LockId.Transaction,
       LockEvent.Acquire LockId.Transaction false, LockEvent.Release LockId.Transaction] := by
  refine ⟨fun J self tx addTail hNew => ?_, by decide, by decide, fun result hr => ?_,
    fun env J self tx bioList io hs => ?_, fun env J self tx bioList io hs => ?_, by decide⟩
  · unfold Transaction.CommitLocks Journal.StartCommitTxLocks
    rw [if_neg (fun h => h hNew)]
    by_cases ht : J.TxTable tx.TxId ≠ some self
    · rw [if_pos ht]
      exact ⟨rfl, rfl⟩
    · rw [if_neg ht]
      exact ⟨rfl, rfl⟩
  · unfold Transaction.OnCommitCompleteLocks
    have : (!result.Ok) = true := by simpa [Error.Ok] using hr
    rw [if_pos this]
    rfl
  · unfold Journal.WriteTxLocks
    rw [hs]
    rfl
  · unfold Journal.WriteTxLocks
    have : (!(Transaction.WriteTx env J self tx bioList io).1.Ok) = true := by
      simpa [Error.Ok] using hs
    rw [if_pos this]
    rfl

end KStor
